import Mathlib

/-!
# basic_lexer: scanner, parser and resolver of `main.c`

A shallow embedding of `src/main.c`.  Pointers into character buffers are
represented by the characters found at the address (up to, not including,
the terminating NUL); arrays with a separate element count are lists whose
length is the count; a dereference of NULL is the result `none`.
-/

namespace BasicLexer

/-! ## Tokens -/

/-- The enum TokenType, constructors in the order of the source. -/
inductive TokenType where
  | TOKEN_VAR
  | TOKEN_SEMICOLON
  | TOKEN_LEFT_BRACE
  | TOKEN_RIGHT_BRACE
  | TOKEN_PLUS
  | TOKEN_MINUS
  | TOKEN_STAR
  | TOKEN_SLASH
  | TOKEN_EQUAL
  | TOKEN_EQUAL_EQUAL
  | TOKEN_BANG
  | TOKEN_BANG_EQUAL
  | TOKEN_IDENTIFIER
  | TOKEN_STRING
  | TOKEN_NUMBER
  | TOKEN_AND
  | TOKEN_CLASS
  | TOKEN_ELSE
  | TOKEN_FALSE
  | TOKEN_FOR
  | TOKEN_IF
  | TOKEN_NIL
  | TOKEN_OR
  | TOKEN_POWER
  | TOKEN_EOF
  | TOKEN_INDENT
  | TOKEN_DEDENT
  | TOKEN_NEWLINE
  | TOKEN_LET
  | TOKEN_FUNC
  | TOKEN_RETURN
  | TOKEN_WHILE
  | TOKEN_TRUE
  | TOKEN_LESS
  | TOKEN_LESS_EQUAL
  | TOKEN_GREATER
  | TOKEN_GREATER_EQUAL
  | TOKEN_COMMA
  | TOKEN_DOT
  | TOKEN_COLON
  | TOKEN_LEFT_PAREN
  | TOKEN_RIGHT_PAREN
deriving DecidableEq, Repr

open TokenType

/-- A C double, kept as its 64-bit pattern: the front end only carries the
value, it never computes with it. -/
structure Double where
  bits : Nat
deriving DecidableEq, Repr

/-- The struct Token.  The field start holds the characters at the address
the C field points to; literal is none while the field has never been
assigned (make_token and error_token leave it untouched). -/
structure Token where
  type : TokenType
  start : List Char
  length : Nat
  line : Int
  literal : Option Double
deriving DecidableEq, Repr

/-- The characters printed by the conversion %.*s for a token: at most
length characters taken at start. -/
def Token.lexeme (token : Token) : List Char :=
  token.start.take token.length

/-! ## Error reporting -/

/-- The function error (lines 864-870): the text one call sends to stderr. -/
def error (token : Token) (message : String) : String :=
  if token.type = TOKEN_EOF then
    "[line " ++ toString token.line ++ "] Error at end: " ++ message ++ "\n"
  else
    "[line " ++ toString token.line ++ "] Error at " ++ String.mk [Char.ofNat 39]
      ++ String.mk token.lexeme ++ String.mk [Char.ofNat 39] ++ ": " ++ message ++ "\n"

/-! ## Scanner -/

/-- The character that terminates a C string. -/
def NUL : Char := Char.ofNat 0

/-- The double quote. -/
def QUOTE : Char := Char.ofNat 34

/-- The opening brace. -/
def LBRACE : Char := Char.ofNat 123

/-- The closing brace. -/
def RBRACE : Char := Char.ofNat 125

/-- The struct Scanner together with the buffer it reads: source holds the
characters of the C string before its terminating NUL, start and current
are the offsets of the two pointers into it. -/
structure Scanner where
  source : List Char
  start : Nat
  current : Nat
  line : Int
deriving DecidableEq, Repr

/-- The character at an offset of the buffer; the terminating NUL at the
end of the characters. -/
def Scanner.char_at (scanner : Scanner) (offset : Nat) : Char :=
  scanner.source.getD offset NUL

/-- The character *scanner->current. -/
def Scanner.peek (scanner : Scanner) : Char :=
  scanner.char_at scanner.current

/-- The characters of the buffer from offset i up to, not including,
offset j. -/
def slice (source : List Char) (i j : Nat) : List Char :=
  (source.drop i).take (j - i)

/-- The function init_scanner (lines 130-134). -/
def init_scanner (source : List Char) : Scanner :=
  ⟨source, 0, 0, 1⟩

/-- The function is_at_end (lines 136-138). -/
def is_at_end (scanner : Scanner) : Bool :=
  scanner.peek == NUL

/-- The function advance (lines 140-143): the character passed and the
scanner after it. -/
def advance (scanner : Scanner) : Char × Scanner :=
  (scanner.peek, ⟨scanner.source, scanner.start, scanner.current + 1, scanner.line⟩)

/-- The function match of the scanner (lines 145-150). -/
def match_char (scanner : Scanner) (expected : Char) : Bool × Scanner :=
  if is_at_end scanner then (false, scanner)
  else if scanner.peek ≠ expected then (false, scanner)
  else (true, ⟨scanner.source, scanner.start, scanner.current + 1, scanner.line⟩)

/-- The function make_token (lines 152-159). -/
def make_token (scanner : Scanner) (type : TokenType) : Token :=
  ⟨type, scanner.source.drop scanner.start, scanner.current - scanner.start,
    scanner.line, none⟩

/-- The function error_token (lines 161-168): the kind is TOKEN_EOF, start
points at the message. -/
def error_token (scanner : Scanner) (message : String) : Token :=
  ⟨TOKEN_EOF, message.toList, message.length, scanner.line, none⟩

/-- A loop of the form while (p(*scanner->current)) advance(scanner), run
for at most fuel rounds. -/
def advance_while (p : Char → Bool) : Nat → Scanner → Scanner
  | 0, scanner => scanner
  | fuel + 1, scanner =>
    if p scanner.peek then advance_while p fuel (advance scanner).2 else scanner

/-- The number of characters left to read. -/
def Scanner.remaining (scanner : Scanner) : Nat :=
  scanner.source.length - scanner.current

/-- The condition of the comment loop at line 184. -/
def in_comment (c : Char) : Bool :=
  c != '\n' && c != NUL

/-- The loop of skip_whitespace (lines 171-189), run for at most fuel
rounds. -/
def skip_whitespace_loop : Nat → Scanner → Scanner
  | 0, scanner => scanner
  | fuel + 1, scanner =>
    let c := scanner.peek
    if c = ' ' ∨ c = '\r' ∨ c = '\t' then
      skip_whitespace_loop fuel (advance scanner).2
    else if c = '\n' then
      skip_whitespace_loop fuel
        (advance ⟨scanner.source, scanner.start, scanner.current, scanner.line + 1⟩).2
    else if c = '#' then
      skip_whitespace_loop fuel (advance_while in_comment scanner.remaining scanner)
    else scanner

/-- The function skip_whitespace (lines 170-190): every round but the last
passes a character, so one round more than the characters left is enough. -/
def skip_whitespace (scanner : Scanner) : Scanner :=
  skip_whitespace_loop (scanner.remaining + 1) scanner

/-- The loop of string (lines 193-196), run for at most fuel rounds. -/
def string_loop : Nat → Scanner → Scanner
  | 0, scanner => scanner
  | fuel + 1, scanner =>
    if scanner.peek ≠ QUOTE ∧ is_at_end scanner = false then
      string_loop fuel
        (advance ⟨scanner.source, scanner.start, scanner.current,
          if scanner.peek = '\n' then scanner.line + 1 else scanner.line⟩).2
    else scanner

/-- The function string (lines 192-202). -/
def string (scanner : Scanner) : Token × Scanner :=
  let scanner1 := string_loop scanner.remaining scanner
  if is_at_end scanner1 then (error_token scanner1 "Unterminated string.", scanner1)
  else
    let scanner2 := (advance scanner1).2
    (make_token scanner2 TOKEN_STRING, scanner2)

/-- The function is_digit (lines 204-206). -/
def is_digit (c : Char) : Bool :=
  decide ('0' ≤ c) && decide (c ≤ '9')

/-- The function number (lines 208-217). -/
def number (scanner : Scanner) : Token × Scanner :=
  let scanner1 := advance_while is_digit scanner.remaining scanner
  let scanner2 :=
    if scanner1.peek = '.' ∧ is_digit (scanner1.char_at (scanner1.current + 1)) = true then
      advance_while is_digit scanner1.remaining (advance scanner1).2
    else scanner1
  (make_token scanner2 TOKEN_NUMBER, scanner2)

/-- The function is_alpha (lines 219-221). -/
def is_alpha (c : Char) : Bool :=
  (decide ('a' ≤ c) && decide (c ≤ 'z')) || (decide ('A' ≤ c) && decide (c ≤ 'Z'))
    || c == '_'

/-- The condition of the loop of identifier (line 256). -/
def is_alpha_or_digit (c : Char) : Bool :=
  is_alpha c || is_digit c

section ScannerPass

/- The function check_keyword is called by identifier_type and defined
nowhere in the source: it is a parameter.  The call of identifier_type at
line 257 passes the scanner only, so the values its parameters start and
length receive are parameters too, given by identifier_args. -/
variable (check_keyword : Scanner → Nat → Nat → String → TokenType → TokenType)
variable (identifier_args : Scanner → Nat × Nat)

/-- The function identifier_type (lines 223-253). -/
def identifier_type (scanner : Scanner) (start length : Nat) : TokenType :=
  let c := scanner.char_at (scanner.start + start)
  if c = 'a' then check_keyword scanner start length "nd" TOKEN_AND
  else if c = 'c' then
    if scanner.current - scanner.start > start + 1 then
      let d := scanner.char_at (scanner.start + (start + 1))
      if d = 'l' then check_keyword scanner start length "ass" TOKEN_CLASS
      else if d = 'o' then check_keyword scanner start length "nst" TOKEN_VAR
      else TOKEN_IDENTIFIER
    else TOKEN_IDENTIFIER
  else if c = 'e' then check_keyword scanner start length "lse" TOKEN_ELSE
  else if c = 'f' then
    if scanner.current - scanner.start > start + 1 then
      let d := scanner.char_at (scanner.start + (start + 1))
      if d = 'a' then check_keyword scanner start length "lse" TOKEN_FALSE
      else if d = 'o' then check_keyword scanner start length "r" TOKEN_FOR
      else if d = 'u' then check_keyword scanner start length "nc" TOKEN_FUNC
      else TOKEN_IDENTIFIER
    else TOKEN_IDENTIFIER
  else if c = 'i' then check_keyword scanner start length "f" TOKEN_IF
  else if c = 'n' then check_keyword scanner start length "il" TOKEN_NIL
  else if c = 'o' then check_keyword scanner start length "r" TOKEN_OR
  else if c = 'r' then check_keyword scanner start length "eturn" TOKEN_RETURN
  else if c = 't' then check_keyword scanner start length "rue" TOKEN_TRUE
  else if c = 'w' then check_keyword scanner 1 4 "hile" TOKEN_WHILE
  else TOKEN_IDENTIFIER

/-- The function identifier (lines 255-258). -/
def identifier (scanner : Scanner) : Token × Scanner :=
  let scanner1 := advance_while is_alpha_or_digit scanner.remaining scanner
  (make_token scanner1
    (identifier_type check_keyword scanner1 (identifier_args scanner1).1
      (identifier_args scanner1).2), scanner1)

/-- The token made after a one-character lookahead (lines 283-292). -/
def make_token_match (scanner : Scanner) (expected : Char) (two one : TokenType) :
    Token × Scanner :=
  let m := match_char scanner expected
  (make_token m.2 (if m.1 then two else one), m.2)

/-- The function scan_token (lines 260-297): the token returned and the
scanner after the call. -/
def scan_token (scanner : Scanner) : Token × Scanner :=
  let scanner1 := skip_whitespace scanner
  let scanner2 : Scanner := ⟨scanner1.source, scanner1.current, scanner1.current, scanner1.line⟩
  if is_at_end scanner2 then (make_token scanner2 TOKEN_EOF, scanner2)
  else
    let c := (advance scanner2).1
    let scanner3 := (advance scanner2).2
    if is_alpha c then identifier check_keyword identifier_args scanner3
    else if is_digit c then number scanner3
    else if c = '(' then (make_token scanner3 TOKEN_LEFT_PAREN, scanner3)
    else if c = ')' then (make_token scanner3 TOKEN_RIGHT_PAREN, scanner3)
    else if c = LBRACE then (make_token scanner3 TOKEN_LEFT_BRACE, scanner3)
    else if c = RBRACE then (make_token scanner3 TOKEN_RIGHT_BRACE, scanner3)
    else if c = ';' then (make_token scanner3 TOKEN_SEMICOLON, scanner3)
    else if c = ',' then (make_token scanner3 TOKEN_COMMA, scanner3)
    else if c = '.' then (make_token scanner3 TOKEN_DOT, scanner3)
    else if c = '-' then (make_token scanner3 TOKEN_MINUS, scanner3)
    else if c = '+' then (make_token scanner3 TOKEN_PLUS, scanner3)
    else if c = '/' then (make_token scanner3 TOKEN_SLASH, scanner3)
    else if c = '*' then make_token_match scanner3 '*' TOKEN_POWER TOKEN_STAR
    else if c = '!' then make_token_match scanner3 '=' TOKEN_BANG_EQUAL TOKEN_BANG
    else if c = '=' then make_token_match scanner3 '=' TOKEN_EQUAL_EQUAL TOKEN_EQUAL
    else if c = '<' then make_token_match scanner3 '=' TOKEN_LESS_EQUAL TOKEN_LESS
    else if c = '>' then make_token_match scanner3 '=' TOKEN_GREATER_EQUAL TOKEN_GREATER
    else if c = QUOTE then string scanner3
    else (error_token scanner3 "Unexpected character.", scanner3)

/-- The scanner after n calls of scan_token. -/
def scan_tokens : Nat → Scanner → Scanner
  | 0, scanner => scanner
  | n + 1, scanner => scan_tokens n (scan_token check_keyword identifier_args scanner).2

end ScannerPass

/-! ## Syntax trees -/

/-- The struct Expr as a tagged variant: each constructor keeps the fields
the resolver and the parser read for that node type.  Children that the
resolver dereferences unconditionally are present. -/
inductive Expr where
  | binary (token : Token) (left right : Expr)
  | unary (token : Token) (right : Expr)
  | literal (value : Double)
  | grouping (expr : Expr)
  | variable (token : Token) (name : List Char) (depth : Int) (is_captured : Bool)
  | assign (token : Token) (right : Expr) (depth : Int) (is_captured : Bool)
  | logical (token : Token) (left right : Expr)
  | call (callee : Expr) (token : Token) (args : List Expr)

/-- The struct Stmt as a tagged variant.  The three pointers the resolver
tests against NULL (initializer, else branch, return value) are options;
the body of a while statement is the entry stmts[0]. -/
inductive Stmt where
  | expr (expr : Expr)
  | var (name : Token) (initializer : Option Expr)
  | block (stmts : List Stmt)
  | ifStmt (expr : Expr) (then_branch : Stmt) (else_branch : Option Stmt)
  | whileStmt (expr : Expr) (body : Stmt)
  | func (name : Token) (params : List Token) (body : List Stmt)
  | returnStmt (keyword : Token) (expr : Option Expr)

/-! ## Scopes -/

/-- The struct Variable of the analyzer. -/
structure Variable where
  name : List Char
  depth : Int
  is_const : Bool
deriving DecidableEq, Repr

/-- The struct VariableArray: the entries below count (the field variables
of the source), with the capacity. -/
structure VariableArray where
  vars : List Variable
  capacity : Nat
deriving DecidableEq, Repr

/-- The field count of a VariableArray. -/
def VariableArray.count (array : VariableArray) : Nat :=
  array.vars.length

/-- A value of type Scope*: the variable arrays of the scope pointed to and
of the scopes reached through enclosing, innermost first; the empty list
is NULL. -/
abbrev ScopePtr := List VariableArray

/-- The struct Analyzer. -/
structure Analyzer where
  current : ScopePtr
deriving DecidableEq, Repr

/-- The state the resolver works on: the analyzer and what has been
written to stderr, one entry for each call of error. -/
structure Resolver where
  analyzer : Analyzer
  stderr : List String
deriving DecidableEq, Repr

/-- The function init_variable_array (lines 770-774). -/
def init_variable_array : VariableArray :=
  ⟨[], 0⟩

/-- The function write_variable (lines 781-792): the stored name is the
pointer name->start itself, the stored depth is the old count. -/
def write_variable (array : VariableArray) (name : Token) (is_const : Bool) :
    VariableArray :=
  let capacity :=
    if array.capacity < array.count + 1 then
      (if array.capacity < 8 then 8 else array.capacity * 2)
    else array.capacity
  ⟨array.vars ++ [⟨name.start, (array.count : Int), is_const⟩], capacity⟩

/-- The comparison of lines 801 and 820: memcmp over name->length bytes is
zero and name->length equals strlen of the stored name. -/
def same_name (start : List Char) (length : Nat) (v : Variable) : Bool :=
  decide (start.take length = v.name.take length) &&
    decide (length = v.name.length)

/-- The loop of resolve_local (lines 795-806) over the entries from index
count - 1 down to 0: the depth written to the node, if an entry matches. -/
def resolve_local_loop (count : Nat) (start : List Char) (length : Nat) :
    List Variable → Option Int
  | [] => none
  | v :: rest =>
    if v.depth ≠ -1 ∧ v.depth < (count : Int) then none
    else if same_name start length v then some ((count : Int) - v.depth)
    else resolve_local_loop count start length rest

/-- The function resolve_local (lines 794-809) for a name given by its start
and length: none when analyzer->current is NULL, otherwise the depth it
stores in the node (some d, the C function returns true) or nothing (the C
function returns false and leaves the node as it was). -/
def resolve_local (analyzer : Analyzer) (start : List Char) (length : Nat) :
    Option (Option Int) :=
  match analyzer.current with
  | [] => none
  | scope :: _ => some (resolve_local_loop scope.count start length scope.vars.reverse)

/-- The loop of declare_variable (lines 814-823): the errors it reports. -/
def declare_loop (count : Nat) (name : Token) : List Variable → List String
  | [] => []
  | v :: rest =>
    if v.depth ≠ -1 ∧ v.depth < (count : Int) then []
    else
      (if same_name name.start name.length v then
        [error name "Variable with this name already declared in this scope."]
      else []) ++ declare_loop count name rest

/-- The function declare_variable (lines 811-826). -/
def declare_variable (r : Resolver) (name : Token) (is_const : Bool) : Option Resolver :=
  match r.analyzer.current with
  | [] => none
  | scope :: enclosing =>
    if scope.count = 0 then some r
    else
      some ⟨⟨write_variable scope name is_const :: enclosing⟩,
        r.stderr ++ declare_loop scope.count name scope.vars.reverse⟩

/-- The assignment of define_variable: entry count - 1 gets depth count. -/
def set_last_depth (count : Nat) : List Variable → List Variable
  | [] => []
  | [v] => [⟨v.name, (count : Int), v.is_const⟩]
  | v :: rest => v :: set_last_depth count rest

/-- The function define_variable (lines 828-831, repeated at 833-836). -/
def define_variable (r : Resolver) : Option Resolver :=
  match r.analyzer.current with
  | [] => none
  | scope :: enclosing =>
    if scope.count = 0 then some r
    else
      some ⟨⟨⟨set_last_depth scope.count scope.vars, scope.capacity⟩ :: enclosing⟩,
        r.stderr⟩

/-- The function new_scope (lines 839-844). -/
def new_scope (enclosing : ScopePtr) : ScopePtr :=
  init_variable_array :: enclosing

/-- The function begin_scope (lines 851-854). -/
def begin_scope (r : Resolver) : Resolver :=
  ⟨⟨new_scope r.analyzer.current⟩, r.stderr⟩

/-- The function end_scope (lines 856-860). -/
def end_scope (r : Resolver) : Option Resolver :=
  match r.analyzer.current with
  | [] => none
  | _ :: enclosing => some ⟨⟨enclosing⟩, r.stderr⟩

/-- The loop of lines 708-711: declare and define each parameter. -/
def declare_params (r : Resolver) : List Token → Option Resolver
  | [] => some r
  | param :: rest =>
    (declare_variable r param false).bind fun r1 =>
    (define_variable r1).bind fun r2 =>
    declare_params r2 rest

section ResolverPass

/- The function lookup_variable is called at line 744 and defined nowhere in
the source: it is a parameter, true when the call returns a non-NULL
pointer. -/
variable (lookup_variable : ScopePtr → List Char → Bool)

/-- The function resolve_variable_expr (lines 742-748) without the node
update: the state after the possible error, and what resolve_local wrote.
The source passes expr->name, a character pointer, where resolve_local
takes a token; it is read as the token spelling that name. -/
def resolve_variable_expr (r : Resolver) (token : Token) (name : List Char) :
    Option (Resolver × Option Int) :=
  match r.analyzer.current with
  | [] => none
  | scope :: _ =>
    let r1 : Resolver :=
      if 0 < scope.count ∧ lookup_variable r.analyzer.current name = false then
        ⟨r.analyzer, r.stderr ++
          [error token "Cannot read local variable in its own initializer."]⟩
      else r
    (resolve_local r1.analyzer name name.length).map fun found => (r1, found)

mutual
/-- The function resolve_expr (lines 645-672) with the functions it
dispatches to (lines 725-766): the tree with its depth fields as the pass
leaves them, and the state. -/
def resolve_expr : Expr → Resolver → Option (Expr × Resolver)
  | .binary token left right, r =>
    (resolve_expr left r).bind fun (left1, r1) =>
    (resolve_expr right r1).bind fun (right1, r2) =>
    some (.binary token left1 right1, r2)
  | .unary token right, r =>
    (resolve_expr right r).bind fun (right1, r1) =>
    some (.unary token right1, r1)
  | .literal value, r => some (.literal value, r)
  | .grouping expr, r =>
    (resolve_expr expr r).bind fun (expr1, r1) =>
    some (.grouping expr1, r1)
  | .variable token name depth is_captured, r =>
    (resolve_variable_expr lookup_variable r token name).bind fun (r1, found) =>
    match found with
    | some d => some (.variable token name d false, r1)
    | none => some (.variable token name depth is_captured, r1)
  | .assign token right depth is_captured, r =>
    (resolve_expr right r).bind fun (right1, r1) =>
    (resolve_local r1.analyzer token.start token.length).bind fun found =>
    match found with
    | some d => some (.assign token right1 d false, r1)
    | none => some (.assign token right1 depth is_captured, r1)
  | .logical token left right, r =>
    (resolve_expr left r).bind fun (left1, r1) =>
    (resolve_expr right r1).bind fun (right1, r2) =>
    some (.logical token left1 right1, r2)
  | .call callee token args, r =>
    (resolve_expr callee r).bind fun (callee1, r1) =>
    (resolve_exprs args r1).bind fun (args1, r2) =>
    some (.call callee1 token args1, r2)
/-- The loop of resolve_call_expr (lines 763-765) over the arguments. -/
def resolve_exprs : List Expr → Resolver → Option (List Expr × Resolver)
  | [], r => some ([], r)
  | expr :: rest, r =>
    (resolve_expr expr r).bind fun (expr1, r1) =>
    (resolve_exprs rest r1).bind fun (rest1, r2) =>
    some (expr1 :: rest1, r2)
end

/-- A call of resolve_expr guarded by a test against NULL (lines 676, 720). -/
def resolve_opt_expr : Option Expr → Resolver → Option (Option Expr × Resolver)
  | none, r => some (none, r)
  | some expr, r => (resolve_expr lookup_variable expr r).map fun (expr1, r1) => (some expr1, r1)

mutual
/-- The function resolve_stmt (lines 619-643) with the functions it
dispatches to (lines 674-723). -/
def resolve_stmt : Stmt → Resolver → Option (Stmt × Resolver)
  | .expr expr, r =>
    (resolve_expr lookup_variable expr r).bind fun (expr1, r1) =>
    some (.expr expr1, r1)
  | .var name initializer, r =>
    (declare_variable r name false).bind fun r1 =>
    (resolve_opt_expr lookup_variable initializer r1).bind fun (initializer1, r2) =>
    (define_variable r2).bind fun r3 =>
    some (.var name initializer1, r3)
  | .block stmts, r =>
    (resolve_stmts stmts (begin_scope r)).bind fun (stmts1, r1) =>
    (end_scope r1).bind fun r2 =>
    some (.block stmts1, r2)
  | .ifStmt expr then_branch else_branch, r =>
    (resolve_expr lookup_variable expr r).bind fun (expr1, r1) =>
    (resolve_stmt then_branch r1).bind fun (then1, r2) =>
    (resolve_opt_stmt else_branch r2).bind fun (else1, r3) =>
    some (.ifStmt expr1 then1 else1, r3)
  | .whileStmt expr body, r =>
    (resolve_expr lookup_variable expr r).bind fun (expr1, r1) =>
    (resolve_stmt body r1).bind fun (body1, r2) =>
    some (.whileStmt expr1 body1, r2)
  | .func name params body, r =>
    (declare_variable r name false).bind fun r1 =>
    (define_variable r1).bind fun r2 =>
    (declare_params (begin_scope r2) params).bind fun r3 =>
    (resolve_stmts body r3).bind fun (body1, r4) =>
    (end_scope r4).bind fun r5 =>
    some (.func name params body1, r5)
  | .returnStmt keyword expr, r =>
    (resolve_opt_expr lookup_variable expr r).bind fun (expr1, r1) =>
    some (.returnStmt keyword expr1, r1)
/-- The statement loops of lines 684-686 and 713-715. -/
def resolve_stmts : List Stmt → Resolver → Option (List Stmt × Resolver)
  | [], r => some ([], r)
  | stmt :: rest, r =>
    (resolve_stmt stmt r).bind fun (stmt1, r1) =>
    (resolve_stmts rest r1).bind fun (rest1, r2) =>
    some (stmt1 :: rest1, r2)
/-- The else branch, resolved when it is not NULL (lines 693-695). -/
def resolve_opt_stmt : Option Stmt → Resolver → Option (Option Stmt × Resolver)
  | none, r => some (none, r)
  | some stmt, r =>
    (resolve_stmt stmt r).bind fun (stmt1, r1) =>
    some (some stmt1, r1)
end

/-- The function resolve (lines 898-900). -/
def resolve (stmt : Stmt) (r : Resolver) : Option (Stmt × Resolver) :=
  resolve_stmt lookup_variable stmt r

end ResolverPass

/-- The analyzer main sets up (lines 928-932): one global scope with an
empty variable array and no enclosing scope; nothing on stderr yet. -/
def root_resolver : Resolver :=
  ⟨⟨[init_variable_array]⟩, []⟩

/-- The current scope exists and its count is 0. -/
def current_scope_empty (r : Resolver) : Bool :=
  match r.analyzer.current with
  | [] => false
  | scope :: _ => scope.count == 0

mutual
/-- The depth fields of the Variable and Assign nodes of an expression, in
the order the resolver visits them. -/
def Expr.depths : Expr → List Int
  | .binary _ left right => left.depths ++ right.depths
  | .unary _ right => right.depths
  | .literal _ => []
  | .grouping expr => expr.depths
  | .variable _ _ depth _ => [depth]
  | .assign _ right depth _ => right.depths ++ [depth]
  | .logical _ left right => left.depths ++ right.depths
  | .call callee _ args => callee.depths ++ Expr.depthsList args
/-- The depth fields of a list of expressions. -/
def Expr.depthsList : List Expr → List Int
  | [] => []
  | expr :: rest => expr.depths ++ Expr.depthsList rest
end

/-- The depth fields of an expression that may be NULL. -/
def Expr.depthsOpt : Option Expr → List Int
  | none => []
  | some expr => expr.depths

mutual
/-- The depth fields of the Variable and Assign nodes of a statement, in the
order the resolver visits them. -/
def Stmt.depths : Stmt → List Int
  | .expr e => e.depths
  | .var _ initializer => Expr.depthsOpt initializer
  | .block stmts => Stmt.depthsList stmts
  | .ifStmt e then_branch else_branch =>
    e.depths ++ then_branch.depths ++ Stmt.depthsOpt else_branch
  | .whileStmt e body => e.depths ++ body.depths
  | .func _ _ body => Stmt.depthsList body
  | .returnStmt _ e => Expr.depthsOpt e
/-- The depth fields of a list of statements. -/
def Stmt.depthsList : List Stmt → List Int
  | [] => []
  | stmt :: rest => stmt.depths ++ Stmt.depthsList rest
/-- The depth fields of a statement that may be NULL. -/
def Stmt.depthsOpt : Option Stmt → List Int
  | none => []
  | some stmt => stmt.depths
end

/-! ## Sample programs

The trees of the programs the specification names, with the tokens the
source text gives: each token points into the text of its program. -/

/-- The identifier token of the given length at an offset of a program text. -/
def identifier_at (text : String) (offset length : Nat) : Token :=
  ⟨TOKEN_IDENTIFIER, text.toList.drop offset, length, 1, none⟩

/-- A Variable node for the one-letter identifier at an offset of a program
text, its depth field holding the given value. -/
def reference_at (text : String) (offset : Nat) (depth : Int) : Expr :=
  .variable (identifier_at text offset 1) ((text.toList.drop offset).take 1) depth false

/-- The number 1 as a double. -/
def one : Double := ⟨0x3FF0000000000000⟩

/-- The number 2 as a double. -/
def two : Double := ⟨0x4000000000000000⟩

/-- The text of the shadowing program of the specification, print left out. -/
def shadow_text : String := "\x7b var a = 1; \x7b var a = 2; a; \x7d a; \x7d"

/-- The tree of the shadowing program; the two references hold the depths
inner and outer before resolution. -/
def shadow_tree (inner outer : Int) : Stmt :=
  .block [
    .var (identifier_at shadow_text 6 1) (some (.literal one)),
    .block [
      .var (identifier_at shadow_text 19 1) (some (.literal two)),
      .expr (reference_at shadow_text 26 inner)],
    .expr (reference_at shadow_text 31 outer)]

/-- The text of a program reading a variable of the enclosing block. -/
def nested_text : String := "\x7b var a = 1; \x7b a; \x7d \x7d"

/-- The tree of the nested read; the reference holds the given depth before
resolution. -/
def nested_tree (depth : Int) : Stmt :=
  .block [
    .var (identifier_at nested_text 6 1) (some (.literal one)),
    .block [.expr (reference_at nested_text 15 depth)]]

/-- The tree of the declaration var x = x; at top level. -/
def self_init_tree (depth : Int) : Stmt :=
  .var (identifier_at "var x = x;" 4 1) (some (reference_at "var x = x;" 8 depth))

/-- The tree of the same declaration inside a block. -/
def self_init_block_tree (depth : Int) : Stmt :=
  .block [
    .var (identifier_at "\x7b var x = x; \x7d" 6 1)
      (some (reference_at "\x7b var x = x; \x7d" 10 depth))]

/-- The text of the program declaring a twice in one block. -/
def duplicate_text : String := "\x7b var a = 1; var a = 2; \x7d"

/-- The tree of the program declaring a twice in one block. -/
def duplicate_tree : Stmt :=
  .block [
    .var (identifier_at duplicate_text 6 1) (some (.literal one)),
    .var (identifier_at duplicate_text 17 1) (some (.literal two))]

/-- The text of the program declaring a again in a nested block. -/
def shadow_decl_text : String := "\x7b var a = 1; \x7b var a = 2; \x7d \x7d"

/-- The tree of the program declaring a again in a nested block. -/
def shadow_decl_tree : Stmt :=
  .block [
    .var (identifier_at shadow_decl_text 6 1) (some (.literal one)),
    .block [.var (identifier_at shadow_decl_text 19 1) (some (.literal two))]]

/-- The text of the function calling itself. -/
def recursive_text : String := "func f() \x7b f(); \x7d"

/-- The tree of the function calling itself; the callee reference holds the
given depth before resolution. -/
def recursive_tree (depth : Int) : Stmt :=
  .func (identifier_at recursive_text 5 1) [] [
    .expr (.call (reference_at recursive_text 11 depth)
      ⟨TOKEN_RIGHT_PAREN, recursive_text.toList.drop 13, 1, 1, none⟩ [])]

/-- The tree of the statement a; for a name declared nowhere. -/
def undeclared_tree (depth : Int) : Stmt :=
  .expr (reference_at "a;" 0 depth)

/-- The tree of the statement a = 1; for a name declared nowhere. -/
def undeclared_assign_tree (depth : Int) : Stmt :=
  .expr (.assign (identifier_at "a = 1;" 0 1) (.literal one) depth false)

/-- A lookup_variable that never finds anything. -/
def lookup_nothing : ScopePtr → List Char → Bool :=
  fun _ _ => false

/-! ## Running the scanner over a whole source -/

/-- A check_keyword of the usual shape, for runs on concrete sources: the
given type when the lexeme has start + length characters and those from
offset start on spell rest, TOKEN_IDENTIFIER otherwise. -/
def sample_check_keyword (scanner : Scanner) (start length : Nat) (rest : String)
    (type : TokenType) : TokenType :=
  if scanner.current - scanner.start = start + length
      ∧ slice scanner.source (scanner.start + start) (scanner.start + start + length)
        = rest.toList then type
  else TOKEN_IDENTIFIER

/-- Arguments of identifier_type for runs on concrete sources: start 0 and
the length of the lexeme. -/
def sample_identifier_args (scanner : Scanner) : Nat × Nat :=
  (0, scanner.current - scanner.start)

/-- What one call of scan_token passed over: the characters between the
position before the call and the start of the token (whitespace and
comments), the token returned, and the characters between the start and
the position after the call. -/
structure Step where
  skipped : List Char
  token : Token
  text : List Char
deriving DecidableEq, Repr

/-- The token is the end-of-input token of line 265: type TOKEN_EOF and no
character. -/
def Token.is_end (token : Token) : Bool :=
  token.type == TOKEN_EOF && token.length == 0

/-- One call of scan_token with what it passed over. -/
def scan_step (check_keyword : Scanner → Nat → Nat → String → TokenType → TokenType)
    (identifier_args : Scanner → Nat × Nat) (scanner : Scanner) : Step × Scanner :=
  let r := scan_token check_keyword identifier_args scanner
  (⟨slice scanner.source scanner.current r.2.start, r.1,
    slice scanner.source r.2.start r.2.current⟩, r.2)

/-- The calls of scan_token up to and including the one that returns the
end-of-input token of line 265, at most fuel of them. -/
def scan_all (check_keyword : Scanner → Nat → Nat → String → TokenType → TokenType)
    (identifier_args : Scanner → Nat × Nat) : Nat → Scanner → List Step
  | 0, _ => []
  | fuel + 1, scanner =>
    let r := scan_step check_keyword identifier_args scanner
    if r.1.token.is_end then [r.1]
    else r.1 :: scan_all check_keyword identifier_args fuel r.2

/-- The skipped text and the lexeme of each token, in order. -/
def lexeme_text : List Step → List Char
  | [] => []
  | step :: rest => step.skipped ++ step.token.lexeme ++ lexeme_text rest

/-- The skipped text and the characters between start and current of each
call, in order. -/
def slice_text : List Step → List Char
  | [] => []
  | step :: rest => step.skipped ++ step.text ++ slice_text rest

/-! ## Predicates on scanner runs -/

/-- The scanner b reads the buffer of a, has the start of a, and stands at
or after the position of a, inside the buffer. -/
def Scanner.reaches (a b : Scanner) : Prop :=
  b.source = a.source ∧ b.start = a.start ∧ a.current ≤ b.current
    ∧ b.current ≤ b.source.length

/-- The token is what make_token gives for the scanner, or one of the two
error tokens of the scanner. -/
def Token.made_by (token : Token) (scanner : Scanner) : Prop :=
  token = make_token scanner token.type
    ∨ token = error_token scanner "Unterminated string."
    ∨ token = error_token scanner "Unexpected character."

/-- The result of a branch of scan_token entered with the given scanner. -/
def Branch (scanner : Scanner) (r : Token × Scanner) : Prop :=
  scanner.reaches r.2 ∧ r.1.made_by r.2

/-- What a call of scan_token returned: the buffer is kept, the new start
is at or after the old position, the new position is inside the buffer,
the token is made from the new scanner, and either the call returned the
end-of-input token of line 265 at the terminating NUL or it passed at
least one character. -/
def Scanned (scanner : Scanner) (r : Token × Scanner) : Prop :=
  r.2.source = scanner.source ∧ scanner.current ≤ r.2.start
    ∧ r.2.current ≤ scanner.source.length ∧ r.1.made_by r.2
    ∧ ((r.2.start = r.2.current ∧ r.2.peek = NUL ∧ r.1 = make_token r.2 TOKEN_EOF)
      ∨ r.2.start < r.2.current)

/-! ## The switch of scan_token on its own -/

/-- The part of scan_token after the call of advance (lines 269-296), as a
function of the character c passed and of the scanner after it. -/
def scan_dispatch (check_keyword : Scanner → Nat → Nat → String → TokenType → TokenType)
    (identifier_args : Scanner → Nat × Nat) (c : Char) (scanner3 : Scanner) :
    Token × Scanner :=
  if is_alpha c then identifier check_keyword identifier_args scanner3
  else if is_digit c then number scanner3
  else if c = '(' then (make_token scanner3 TOKEN_LEFT_PAREN, scanner3)
  else if c = ')' then (make_token scanner3 TOKEN_RIGHT_PAREN, scanner3)
  else if c = LBRACE then (make_token scanner3 TOKEN_LEFT_BRACE, scanner3)
  else if c = RBRACE then (make_token scanner3 TOKEN_RIGHT_BRACE, scanner3)
  else if c = ';' then (make_token scanner3 TOKEN_SEMICOLON, scanner3)
  else if c = ',' then (make_token scanner3 TOKEN_COMMA, scanner3)
  else if c = '.' then (make_token scanner3 TOKEN_DOT, scanner3)
  else if c = '-' then (make_token scanner3 TOKEN_MINUS, scanner3)
  else if c = '+' then (make_token scanner3 TOKEN_PLUS, scanner3)
  else if c = '/' then (make_token scanner3 TOKEN_SLASH, scanner3)
  else if c = '*' then make_token_match scanner3 '*' TOKEN_POWER TOKEN_STAR
  else if c = '!' then make_token_match scanner3 '=' TOKEN_BANG_EQUAL TOKEN_BANG
  else if c = '=' then make_token_match scanner3 '=' TOKEN_EQUAL_EQUAL TOKEN_EQUAL
  else if c = '<' then make_token_match scanner3 '=' TOKEN_LESS_EQUAL TOKEN_LESS
  else if c = '>' then make_token_match scanner3 '=' TOKEN_GREATER_EQUAL TOKEN_GREATER
  else if c = QUOTE then string scanner3
  else (error_token scanner3 "Unexpected character.", scanner3)

/-- The scanner after skip_whitespace and the assignment of line 263. -/
def token_start (scanner : Scanner) : Scanner :=
  ⟨(skip_whitespace scanner).source, (skip_whitespace scanner).current,
    (skip_whitespace scanner).current, (skip_whitespace scanner).line⟩

/-! ## The literal forms of the specification -/

/-- The two-character operators as the specification lists them: for a
first character, the second character that extends it, the kind of the
two-character token and the kind of the one-character token. -/
def two_char_operator (c : Char) : Option (Char × TokenType × TokenType) :=
  if c = '=' then some ('=', TOKEN_EQUAL_EQUAL, TOKEN_EQUAL)
  else if c = '!' then some ('=', TOKEN_BANG_EQUAL, TOKEN_BANG)
  else if c = '<' then some ('=', TOKEN_LESS_EQUAL, TOKEN_LESS)
  else if c = '>' then some ('=', TOKEN_GREATER_EQUAL, TOKEN_GREATER)
  else if c = '*' then some ('*', TOKEN_POWER, TOKEN_STAR)
  else none

/-- The numeric literal at the head of a list of characters, in the words
of the specification: the digits, and then, when a point and at least one
digit follow them, the point and the digits after it. -/
def number_literal (chars : List Char) : List Char :=
  let digits := chars.takeWhile is_digit
  match chars.dropWhile is_digit with
  | c :: d :: rest =>
    if c = '.' ∧ is_digit d = true then digits ++ c :: (d :: rest).takeWhile is_digit
    else digits
  | _ => digits

/-! ## Text that the scanner skips, and scanners moved by a prefix -/

/-- Text built only from spaces, tabs, carriage returns, newlines and
comments that start with # and end with a newline, the words of the
specification for what is skipped. -/
inductive Skippable : List Char → Prop where
  | nil : Skippable []
  | blank (c : Char) (rest : List Char) (hc : c = ' ' ∨ c = '\r' ∨ c = '\t' ∨ c = '\n')
      (hrest : Skippable rest) : Skippable (c :: rest)
  | comment (body rest : List Char) (hbody : ∀ c ∈ body, in_comment c = true)
      (hrest : Skippable rest) : Skippable ('#' :: (body ++ '\n' :: rest))

/-- The scanner over the buffer with the characters pre put in front: the
position moved by their number, the line by the given number of lines, the
start pointer set to the given offset. -/
def Scanner.shift (pre : List Char) (lines : Int) (start : Nat) (scanner : Scanner) :
    Scanner :=
  ⟨pre ++ scanner.source, start, scanner.current + pre.length, scanner.line + lines⟩

/-- The scanner moved by a prefix, its start pointer moved with it. -/
def Scanner.moved (pre : List Char) (lines : Int) (scanner : Scanner) : Scanner :=
  scanner.shift pre lines (scanner.start + pre.length)

/-- The token with its line number raised by the given number of lines. -/
def Token.shift_line (lines : Int) (token : Token) : Token :=
  ⟨token.type, token.start, token.length, token.line + lines, token.literal⟩

/-- A function of the scanner that gives the same result when the buffer
gets a prefix and the pointers and the line move with it: it reads the
scanner only through the characters from start on and the distance from
start to current. -/
def PositionIndependent {α : Type} (f : Scanner → α) : Prop :=
  ∀ (pre : List Char) (lines : Int) (scanner : Scanner),
    f (scanner.moved pre lines) = f scanner

/-! ## Parser

The parsing functions of lines 301-615.  The source calls helpers it does
not define (advance, match and consume on a parser, finish_call, and the
constructors of the tree nodes); they are modelled from the specification
and marked so.  An expression or statement pointer is NULL or a node. -/

/-- A value of type Expr* as the parser builds it: NULL or a node with the
fields the parser sets. -/
inductive ExprPtr where
  | null
  | binary (token : Token) (left right : ExprPtr)
  | unary (token : Token) (right : ExprPtr)
  | literal (value : Option Double)
  | grouping (expr : ExprPtr)
  | variable (token : Token)
  | assign (token : Token) (right : ExprPtr)
  | logical (token : Token) (left right : ExprPtr)
  | call (callee : ExprPtr) (token : Token) (args : List ExprPtr)

/-- A value of type Stmt* as the parser builds it: NULL or a node. -/
inductive StmtPtr where
  | null
  | expr (expr : ExprPtr)
  | var (name : Token) (initializer : ExprPtr)
  | block (stmts : List StmtPtr)
  | ifStmt (condition : ExprPtr) (then_branch else_branch : StmtPtr)
  | whileStmt (condition : ExprPtr) (body : StmtPtr)
  | func (name : Token) (params : List Token) (body : List StmtPtr)
  | returnStmt (keyword : Token) (value : ExprPtr)

/-- The struct Parser. -/
structure Parser where
  current : Token
  previous : Token
  had_error : Bool
  panic_mode : Bool
deriving DecidableEq, Repr

/-- The state the parsing functions work on: the struct Parser, the tokens
the scanner returns next, in order, and what has been written to stderr,
one entry for each call of error. -/
structure ParseState where
  parser : Parser
  tokens : List Token
  stderr : List String
deriving DecidableEq, Repr

/-- Why a run of the parser gave no result: it dereferenced NULL, or the
fuel of the embedding ran out. -/
inductive Failure where
  | null_dereference
  | out_of_fuel
deriving DecidableEq, Repr

/-- The result of a parsing function: a value and the state after it, or a
failure. -/
abbrev Parse (α : Type) := Except Failure (α × ParseState)

/-- The function error_at_current (lines 872-874). -/
def error_at_current (st : ParseState) (message : String) : ParseState :=
  ⟨st.parser, st.tokens, st.stderr ++ [error st.parser.current message]⟩

/-- Modelled from the spec: the function advance on a parser, called by the
parsing functions and absent from the source.  The parser reads the token
sequence one token at a time: previous becomes the token just read, current
the next token of the sequence; after the last token the scanner returns
the end-of-input token again, so current stays. -/
def Parser.advance (st : ParseState) : ParseState :=
  match st.tokens with
  | [] => ⟨⟨st.parser.current, st.parser.current, st.parser.had_error, st.parser.panic_mode⟩,
      [], st.stderr⟩
  | token :: rest =>
    ⟨⟨token, st.parser.current, st.parser.had_error, st.parser.panic_mode⟩, rest, st.stderr⟩

/-- Modelled from the spec: the function match on a parser, absent from the
source: when the current token has the given type it is consumed and the
answer is true, otherwise nothing changes. -/
def Parser.match_type (st : ParseState) (type : TokenType) : Bool × ParseState :=
  if st.parser.current.type = type then (true, Parser.advance st) else (false, st)

/-- Modelled from the spec: the function consume, absent from the source:
expected-token consumption reports the message anchored at the offending
token and advances regardless, one diagnostic per violation.  It leaves the
consumed token in previous, which is what its callers store. -/
def Parser.consume (st : ParseState) (type : TokenType) (message : String) : ParseState :=
  if st.parser.current.type = type then Parser.advance st
  else Parser.advance (error_at_current st message)

/-- Modelled from the spec: the constructor binary_expr, absent from the
source: Binary(op, left, right). -/
def binary_expr (left : ExprPtr) (op : Token) (right : ExprPtr) : ExprPtr :=
  .binary op left right

/-- Modelled from the spec: the constructor logical_expr, absent from the
source: Logical(op, left, right). -/
def logical_expr (left : ExprPtr) (op : Token) (right : ExprPtr) : ExprPtr :=
  .logical op left right

/-- Modelled from the spec: the constructor unary_expr, absent from the
source: Unary(op, operand). -/
def unary_expr (op : Token) (right : ExprPtr) : ExprPtr :=
  .unary op right

/-- Modelled from the spec: the constructor literal_expr, absent from the
source: Literal(value), the argument being a double. -/
def literal_expr (value : Option Double) : ExprPtr :=
  .literal value

/-- Modelled from the spec: the constructor grouping_expr, absent from the
source: Grouping(inner). -/
def grouping_expr (expr : ExprPtr) : ExprPtr :=
  .grouping expr

/-- Modelled from the spec: the constructor variable_expr, absent from the
source: Variable(name), the name being the token given. -/
def variable_expr (name : Token) : ExprPtr :=
  .variable name

/-- Modelled from the spec: the constructor assign_expr, absent from the
source: Assign(name, value). -/
def assign_expr (name : Token) (value : ExprPtr) : ExprPtr :=
  .assign name value

/-- Modelled from the spec: the constructor call_expr, absent from the
source: Call(callee, ordered argument list, closing-paren token); called
with the closing parenthesis and the arguments, it leaves the callee NULL. -/
def call_expr (paren : Token) (args : List ExprPtr) : ExprPtr :=
  .call .null paren args

/-- The double that false and 0 convert to. -/
def zero : Double := ⟨0⟩

/-- The function parse_variable (lines 396-399). -/
def parse_variable (st : ParseState) : Parse ExprPtr :=
  let st1 := Parser.consume st TOKEN_IDENTIFIER "Expect variable name."
  .ok (variable_expr st1.parser.previous, st1)

/-- A loop of the form while (the current token is one of the operators)
with the body op = current; advance; right = operand; expr = make(expr, op,
right), as in lines 308-313, 321-327, 335-340, 348-353, 423-428 and
436-441; run for at most fuel rounds. -/
def binary_loop (is_operator : TokenType → Bool)
    (make : ExprPtr → Token → ExprPtr → ExprPtr) (operand : ParseState → Parse ExprPtr) :
    Nat → ExprPtr → ParseState → Parse ExprPtr
  | 0, _, _ => .error .out_of_fuel
  | fuel + 1, expr, st =>
    if is_operator st.parser.current.type then
      match operand (Parser.advance st) with
      | .ok (right, st1) =>
        binary_loop is_operator make operand fuel (make expr st.parser.current right) st1
      | .error e => .error e
    else .ok (expr, st)

/-- The operators of parse_equality (line 308). -/
def is_equality_operator (type : TokenType) : Bool :=
  type = TOKEN_EQUAL_EQUAL || type = TOKEN_BANG_EQUAL

/-- The operators of parse_comparison (lines 321-322). -/
def is_comparison_operator (type : TokenType) : Bool :=
  type = TOKEN_LESS || type = TOKEN_LESS_EQUAL || type = TOKEN_GREATER
    || type = TOKEN_GREATER_EQUAL

/-- The operators of parse_term (line 335). -/
def is_term_operator (type : TokenType) : Bool :=
  type = TOKEN_PLUS || type = TOKEN_MINUS

/-- The operators of parse_factor (line 348). -/
def is_factor_operator (type : TokenType) : Bool :=
  type = TOKEN_STAR || type = TOKEN_SLASH

/-- The operator of parse_logical_or (line 423). -/
def is_or_operator (type : TokenType) : Bool :=
  type = TOKEN_OR

/-- The operator of parse_logical_and (line 436). -/
def is_and_operator (type : TokenType) : Bool :=
  type = TOKEN_AND

mutual
/-- The function parse_expression (lines 301-303). -/
def parse_expression : Nat → ParseState → Parse ExprPtr
  | 0, _ => .error .out_of_fuel
  | fuel + 1, st => parse_assignment fuel st
/-- The function parse_assignment (lines 401-418): expr->type is read
without a test against NULL. -/
def parse_assignment : Nat → ParseState → Parse ExprPtr
  | 0, _ => .error .out_of_fuel
  | fuel + 1, st =>
    match parse_logical_or fuel st with
    | .error e => .error e
    | .ok (expr, st1) =>
      if st1.parser.current.type = TOKEN_EQUAL then
        match parse_assignment fuel (Parser.advance st1) with
        | .error e => .error e
        | .ok (value, st2) =>
          match expr with
          | .null => .error .null_dereference
          | .variable name => .ok (assign_expr name value, st2)
          | _ => .ok (expr, error_at_current st2 "Invalid assignment target.")
      else .ok (expr, st1)
/-- The function parse_logical_or (lines 420-431). -/
def parse_logical_or : Nat → ParseState → Parse ExprPtr
  | 0, _ => .error .out_of_fuel
  | fuel + 1, st =>
    match parse_logical_and fuel st with
    | .error e => .error e
    | .ok (expr, st1) =>
      binary_loop is_or_operator logical_expr (parse_logical_and fuel) fuel expr st1
/-- The function parse_logical_and (lines 433-444). -/
def parse_logical_and : Nat → ParseState → Parse ExprPtr
  | 0, _ => .error .out_of_fuel
  | fuel + 1, st =>
    match parse_equality fuel st with
    | .error e => .error e
    | .ok (expr, st1) =>
      binary_loop is_and_operator logical_expr (parse_equality fuel) fuel expr st1
/-- The function parse_equality (lines 305-316). -/
def parse_equality : Nat → ParseState → Parse ExprPtr
  | 0, _ => .error .out_of_fuel
  | fuel + 1, st =>
    match parse_comparison fuel st with
    | .error e => .error e
    | .ok (expr, st1) =>
      binary_loop is_equality_operator binary_expr (parse_comparison fuel) fuel expr st1
/-- The function parse_comparison (lines 318-330). -/
def parse_comparison : Nat → ParseState → Parse ExprPtr
  | 0, _ => .error .out_of_fuel
  | fuel + 1, st =>
    match parse_term fuel st with
    | .error e => .error e
    | .ok (expr, st1) =>
      binary_loop is_comparison_operator binary_expr (parse_term fuel) fuel expr st1
/-- The function parse_term (lines 332-343). -/
def parse_term : Nat → ParseState → Parse ExprPtr
  | 0, _ => .error .out_of_fuel
  | fuel + 1, st =>
    match parse_factor fuel st with
    | .error e => .error e
    | .ok (expr, st1) =>
      binary_loop is_term_operator binary_expr (parse_factor fuel) fuel expr st1
/-- The function parse_factor (lines 345-356). -/
def parse_factor : Nat → ParseState → Parse ExprPtr
  | 0, _ => .error .out_of_fuel
  | fuel + 1, st =>
    match parse_unary fuel st with
    | .error e => .error e
    | .ok (expr, st1) =>
      binary_loop is_factor_operator binary_expr (parse_unary fuel) fuel expr st1
/-- The function parse_unary (lines 358-367). -/
def parse_unary : Nat → ParseState → Parse ExprPtr
  | 0, _ => .error .out_of_fuel
  | fuel + 1, st =>
    if st.parser.current.type = TOKEN_BANG ∨ st.parser.current.type = TOKEN_MINUS then
      match parse_unary fuel (Parser.advance st) with
      | .error e => .error e
      | .ok (right, st1) => .ok (unary_expr st.parser.current right, st1)
    else parse_call fuel st
/-- The function parse_call (lines 446-459). -/
def parse_call : Nat → ParseState → Parse ExprPtr
  | 0, _ => .error .out_of_fuel
  | fuel + 1, st =>
    match parse_primary fuel st with
    | .error e => .error e
    | .ok (expr, st1) => call_loop fuel expr st1
/-- The loop of parse_call (lines 449-456), run for at most fuel rounds. -/
def call_loop : Nat → ExprPtr → ParseState → Parse ExprPtr
  | 0, _, _ => .error .out_of_fuel
  | fuel + 1, expr, st =>
    if st.parser.current.type = TOKEN_LEFT_PAREN then
      match finish_call fuel expr (Parser.advance st) with
      | .error e => .error e
      | .ok (call, st1) => call_loop fuel call st1
    else .ok (expr, st)
/-- Modelled from the spec: the function finish_call, absent from the
source: each suffix of parenthesised arguments produces a Call node whose
callee is the prior expression; the arguments and the closing parenthesis
are those parse_arguments reads. -/
def finish_call : Nat → ExprPtr → ParseState → Parse ExprPtr
  | 0, _, _ => .error .out_of_fuel
  | fuel + 1, callee, st =>
    match parse_arguments fuel st with
    | .error e => .error e
    | .ok (.call _ paren args, st1) => .ok (.call callee paren args, st1)
    | .ok (node, st1) => .ok (node, st1)
/-- The function parse_arguments (lines 461-481). -/
def parse_arguments : Nat → ParseState → Parse ExprPtr
  | 0, _ => .error .out_of_fuel
  | fuel + 1, st =>
    if st.parser.current.type ≠ TOKEN_RIGHT_PAREN then
      match arguments_loop fuel [] st with
      | .error e => .error e
      | .ok (args, st1) =>
        let st2 := Parser.consume st1 TOKEN_RIGHT_PAREN "Expect ')' after arguments."
        .ok (call_expr st2.parser.previous args, st2)
    else
      let st2 := Parser.consume st TOKEN_RIGHT_PAREN "Expect ')' after arguments."
      .ok (call_expr st2.parser.previous [], st2)
/-- The do-while loop of parse_arguments (lines 466-473), run for at most
fuel rounds. -/
def arguments_loop : Nat → List ExprPtr → ParseState → Parse (List ExprPtr)
  | 0, _, _ => .error .out_of_fuel
  | fuel + 1, args, st =>
    let st1 :=
      if args.length ≥ 255 then
        error_at_current st "Can't have more than 255 arguments."
      else st
    match parse_expression fuel st1 with
    | .error e => .error e
    | .ok (arg, st2) =>
      if (Parser.match_type st2 TOKEN_COMMA).1 then
        arguments_loop fuel (args ++ [arg]) (Parser.match_type st2 TOKEN_COMMA).2
      else .ok (args ++ [arg], st2)
/-- The function parse_primary (lines 369-394): for a number or a string
it returns the literal of the previous token and does not advance. -/
def parse_primary : Nat → ParseState → Parse ExprPtr
  | 0, _ => .error .out_of_fuel
  | fuel + 1, st =>
    if st.parser.current.type = TOKEN_FALSE then
      .ok (literal_expr (some zero), Parser.advance st)
    else if st.parser.current.type = TOKEN_TRUE then
      .ok (literal_expr (some one), Parser.advance st)
    else if st.parser.current.type = TOKEN_NIL then
      .ok (literal_expr (some zero), Parser.advance st)
    else if st.parser.current.type = TOKEN_NUMBER
        ∨ st.parser.current.type = TOKEN_STRING then
      .ok (literal_expr st.parser.previous.literal, st)
    else if st.parser.current.type = TOKEN_IDENTIFIER then parse_variable st
    else if st.parser.current.type = TOKEN_LEFT_PAREN then
      match parse_expression fuel (Parser.advance st) with
      | .error e => .error e
      | .ok (expr, st1) =>
        .ok (grouping_expr expr,
          Parser.consume st1 TOKEN_RIGHT_PAREN "Expect ')' after expression.")
    else .ok (.null, error_at_current st "Expect expression.")
end

/-- The do-while loop of parse_func_declaration over the parameters (lines
579-586), run for at most fuel rounds. -/
def parameters_loop : Nat → List Token → ParseState → Parse (List Token)
  | 0, _, _ => .error .out_of_fuel
  | fuel + 1, params, st =>
    let st1 :=
      if params.length ≥ 255 then
        error_at_current st "Can't have more than 255 parameters."
      else st
    let st2 := Parser.consume st1 TOKEN_IDENTIFIER "Expect parameter name."
    if (Parser.match_type st2 TOKEN_COMMA).1 then
      parameters_loop fuel (params ++ [st2.parser.previous])
        (Parser.match_type st2 TOKEN_COMMA).2
    else .ok (params ++ [st2.parser.previous], st2)

/-- Modelled from the spec: the constructor expr_stmt, absent from the
source: ExpressionStmt(expr). -/
def expr_stmt (expr : ExprPtr) : StmtPtr :=
  .expr expr

/-- Modelled from the spec: the constructor var_stmt, absent from the
source: VarDecl(name, optional initializer). -/
def var_stmt (name : Token) (initializer : ExprPtr) : StmtPtr :=
  .var name initializer

/-- Modelled from the spec: the constructor block_stmt, absent from the
source: Block(ordered statement list). -/
def block_stmt (stmts : List StmtPtr) : StmtPtr :=
  .block stmts

/-- Modelled from the spec: the constructor if_stmt, absent from the
source: If(condition, then, optional else). -/
def if_stmt (condition : ExprPtr) (then_branch else_branch : StmtPtr) : StmtPtr :=
  .ifStmt condition then_branch else_branch

/-- Modelled from the spec: the constructor while_stmt, absent from the
source: While(condition, body). -/
def while_stmt (condition : ExprPtr) (body : StmtPtr) : StmtPtr :=
  .whileStmt condition body

/-- Modelled from the spec: the constructor func_stmt, absent from the
source: FunctionDecl(name, ordered parameter names, ordered body). -/
def func_stmt (name : Token) (params : List Token) (body : List StmtPtr) : StmtPtr :=
  .func name params body

/-- Modelled from the spec: the constructor return_stmt, absent from the
source: Return(keyword, optional value). -/
def return_stmt (keyword : Token) (value : ExprPtr) : StmtPtr :=
  .returnStmt keyword value

mutual
/-- The function parse_declaration (lines 483-489). -/
def parse_declaration : Nat → ParseState → Parse StmtPtr
  | 0, _ => .error .out_of_fuel
  | fuel + 1, st =>
    if (Parser.match_type st TOKEN_VAR).1 then
      parse_var_declaration fuel (Parser.match_type st TOKEN_VAR).2
    else parse_statement fuel st
/-- The function parse_var_declaration (lines 491-501). -/
def parse_var_declaration : Nat → ParseState → Parse StmtPtr
  | 0, _ => .error .out_of_fuel
  | fuel + 1, st =>
    let st1 := Parser.consume st TOKEN_IDENTIFIER "Expect variable name."
    if (Parser.match_type st1 TOKEN_EQUAL).1 then
      match parse_expression fuel (Parser.match_type st1 TOKEN_EQUAL).2 with
      | .error e => .error e
      | .ok (initializer, st2) =>
        .ok (var_stmt st1.parser.previous initializer,
          Parser.consume st2 TOKEN_SEMICOLON "Expect ';' after variable declaration.")
    else
      .ok (var_stmt st1.parser.previous .null,
        Parser.consume st1 TOKEN_SEMICOLON "Expect ';' after variable declaration.")
/-- The function parse_statement (lines 503-525). -/
def parse_statement : Nat → ParseState → Parse StmtPtr
  | 0, _ => .error .out_of_fuel
  | fuel + 1, st =>
    if (Parser.match_type st TOKEN_LEFT_BRACE).1 then
      parse_block_statement fuel (Parser.match_type st TOKEN_LEFT_BRACE).2
    else if (Parser.match_type st TOKEN_IF).1 then
      parse_if_statement fuel (Parser.match_type st TOKEN_IF).2
    else if (Parser.match_type st TOKEN_WHILE).1 then
      parse_while_statement fuel (Parser.match_type st TOKEN_WHILE).2
    else if (Parser.match_type st TOKEN_FUNC).1 then
      parse_func_declaration fuel (Parser.match_type st TOKEN_FUNC).2
    else if (Parser.match_type st TOKEN_RETURN).1 then
      parse_return_statement fuel (Parser.match_type st TOKEN_RETURN).2
    else parse_expr_statement fuel st
/-- The function parse_expr_statement (lines 527-531). -/
def parse_expr_statement : Nat → ParseState → Parse StmtPtr
  | 0, _ => .error .out_of_fuel
  | fuel + 1, st =>
    match parse_expression fuel st with
    | .error e => .error e
    | .ok (expr, st1) =>
      .ok (expr_stmt expr, Parser.consume st1 TOKEN_SEMICOLON "Expect ';' after expression.")
/-- The loop of lines 537-540 and 595-598: declarations are parsed while
the current token is neither a closing brace nor of the end-of-input type;
run for at most fuel rounds. -/
def declaration_loop : Nat → List StmtPtr → ParseState → Parse (List StmtPtr)
  | 0, _, _ => .error .out_of_fuel
  | fuel + 1, stmts, st =>
    if st.parser.current.type ≠ TOKEN_RIGHT_BRACE ∧ st.parser.current.type ≠ TOKEN_EOF then
      match parse_declaration fuel st with
      | .error e => .error e
      | .ok (stmt, st1) => declaration_loop fuel (stmts ++ [stmt]) st1
    else .ok (stmts, st)
/-- The function parse_block_statement (lines 533-544). -/
def parse_block_statement : Nat → ParseState → Parse StmtPtr
  | 0, _ => .error .out_of_fuel
  | fuel + 1, st =>
    match declaration_loop fuel [] st with
    | .error e => .error e
    | .ok (stmts, st1) =>
      .ok (block_stmt stmts, Parser.consume st1 TOKEN_RIGHT_BRACE "Expect '\x7d' after block.")
/-- The function parse_if_statement (lines 546-559). -/
def parse_if_statement : Nat → ParseState → Parse StmtPtr
  | 0, _ => .error .out_of_fuel
  | fuel + 1, st =>
    match parse_expression fuel
        (Parser.consume st TOKEN_LEFT_PAREN "Expect '(' after 'if'.") with
    | .error e => .error e
    | .ok (condition, st1) =>
      match parse_statement fuel
          (Parser.consume st1 TOKEN_RIGHT_PAREN "Expect ')' after if condition.") with
      | .error e => .error e
      | .ok (then_branch, st2) =>
        if (Parser.match_type st2 TOKEN_ELSE).1 then
          match parse_statement fuel (Parser.match_type st2 TOKEN_ELSE).2 with
          | .error e => .error e
          | .ok (else_branch, st3) => .ok (if_stmt condition then_branch else_branch, st3)
        else .ok (if_stmt condition then_branch .null, st2)
/-- The function parse_while_statement (lines 561-569). -/
def parse_while_statement : Nat → ParseState → Parse StmtPtr
  | 0, _ => .error .out_of_fuel
  | fuel + 1, st =>
    match parse_expression fuel
        (Parser.consume st TOKEN_LEFT_PAREN "Expect '(' after 'while'.") with
    | .error e => .error e
    | .ok (condition, st1) =>
      match parse_statement fuel
          (Parser.consume st1 TOKEN_RIGHT_PAREN "Expect ')' after while condition.") with
      | .error e => .error e
      | .ok (body, st2) => .ok (while_stmt condition body, st2)
/-- The function parse_func_declaration (lines 571-603). -/
def parse_func_declaration : Nat → ParseState → Parse StmtPtr
  | 0, _ => .error .out_of_fuel
  | fuel + 1, st =>
    let st1 := Parser.consume st TOKEN_IDENTIFIER "Expect function name."
    let st2 := Parser.consume st1 TOKEN_LEFT_PAREN "Expect '(' after function name."
    match (if st2.parser.current.type ≠ TOKEN_RIGHT_PAREN then parameters_loop fuel [] st2
        else .ok ([], st2)) with
    | .error e => .error e
    | .ok (params, st3) =>
      let st4 := Parser.consume st3 TOKEN_RIGHT_PAREN "Expect ')' after parameters."
      let st5 := Parser.consume st4 TOKEN_LEFT_BRACE "Expect '\x7b' before function body."
      match declaration_loop fuel [] st5 with
      | .error e => .error e
      | .ok (body, st6) =>
        .ok (func_stmt st1.parser.previous params body,
          Parser.consume st6 TOKEN_RIGHT_BRACE "Expect '\x7d' after function body.")
/-- The function parse_return_statement (lines 605-615). -/
def parse_return_statement : Nat → ParseState → Parse StmtPtr
  | 0, _ => .error .out_of_fuel
  | fuel + 1, st =>
    if st.parser.current.type ≠ TOKEN_SEMICOLON then
      match parse_expression fuel st with
      | .error e => .error e
      | .ok (value, st1) =>
        .ok (return_stmt st.parser.previous value,
          Parser.consume st1 TOKEN_SEMICOLON "Expect ';' after return value.")
    else
      .ok (return_stmt st.parser.previous .null,
        Parser.consume st TOKEN_SEMICOLON "Expect ';' after return value.")
end

/-- Modelled from the spec: where the parser takes its tokens from.  The
function parse reads the first token from the scanner and passes only the
parser on (line 888), and advance is absent from the source; the tokens are
the ones scan_token returns from the scanner, in order, up to the
end-of-input token of line 265, which the scanner then returns again. -/
def scanner_tokens (check_keyword : Scanner → Nat → Nat → String → TokenType → TokenType)
    (identifier_args : Scanner → Nat × Nat) (scanner : Scanner) : List Token :=
  (scan_all check_keyword identifier_args (scanner.remaining + 1) scanner).map Step.token

/-- The state of the parser before the call at line 888. -/
def parse_start (check_keyword : Scanner → Nat → Nat → String → TokenType → TokenType)
    (identifier_args : Scanner → Nat × Nat) (scanner : Scanner) : ParseState :=
  ⟨⟨(scan_token check_keyword identifier_args scanner).1,
      (scan_token check_keyword identifier_args scanner).1, false, false⟩,
    scanner_tokens check_keyword identifier_args
      (scan_token check_keyword identifier_args scanner).2, []⟩

/-- The function parse (lines 881-896), with the state of its parser after
the call: NULL when had_error is set, otherwise the statement. -/
def parse (check_keyword : Scanner → Nat → Nat → String → TokenType → TokenType)
    (identifier_args : Scanner → Nat × Nat) (fuel : Nat) (scanner : Scanner) :
    Parse StmtPtr :=
  match parse_declaration fuel (parse_start check_keyword identifier_args scanner) with
  | .error e => .error e
  | .ok (stmt, st) => if st.parser.had_error then .ok (.null, st) else .ok (stmt, st)

/-! ## Token sequences for the parser -/

/-- A token of the given type and text, on line 1. -/
def tk (type : TokenType) (text : String) : Token :=
  ⟨type, text.toList, text.length, 1, none⟩

/-- The end-of-input token. -/
def eof : Token := tk TOKEN_EOF ""

/-- The state of a parser that has read the first token of a sequence (as
parse does at lines 883-886); for an empty sequence the scanner returns the
end-of-input token. -/
def parser_on : List Token → ParseState
  | [] => ⟨⟨eof, eof, false, false⟩, [], []⟩
  | token :: rest => ⟨⟨token, token, false, false⟩, rest, []⟩

/-! ## The precedence ladder of the specification -/

/-- The level of a binary operator on the precedence ladder of the
specification, lowest first: logical-or 1, logical-and 2, equality 3,
comparison 4, additive 5, multiplicative 6. -/
def binary_level : TokenType → Option Nat
  | .TOKEN_OR => some 1
  | .TOKEN_AND => some 2
  | .TOKEN_EQUAL_EQUAL => some 3
  | .TOKEN_BANG_EQUAL => some 3
  | .TOKEN_LESS => some 4
  | .TOKEN_LESS_EQUAL => some 4
  | .TOKEN_GREATER => some 4
  | .TOKEN_GREATER_EQUAL => some 4
  | .TOKEN_PLUS => some 5
  | .TOKEN_MINUS => some 5
  | .TOKEN_STAR => some 6
  | .TOKEN_SLASH => some 6
  | _ => none

/-- The node the specification gives for a binary operator: Logical for or
and and, Binary for the others. -/
def ladder_node (op : Token) (left right : ExprPtr) : ExprPtr :=
  if op.type = TOKEN_OR ∨ op.type = TOKEN_AND then .logical op left right
  else .binary op left right

/-- The identifier token with the given name. -/
def identifier_token (name : String) : Token :=
  tk TOKEN_IDENTIFIER name

/-- The state of a parser that has read every token up to the
end-of-input token, the one before it being previous, and has reported
nothing. -/
def finished_after (previous : Token) : ParseState :=
  ⟨⟨eof, previous, false, false⟩, [], []⟩

/-- The token of the given type, offset and length that scan_token makes
from a one-line source text: its start points into the text. -/
def token_at (type : TokenType) (text : String) (offset length : Nat) : Token :=
  ⟨type, text.toList.drop offset, length, 1, none⟩

/-! ## What the parsing functions keep -/

/-- The last token of the sequence the parser has still to deal with: the
current token followed by the tokens not read yet. -/
def ParseState.last_token (st : ParseState) : Token :=
  (st.parser.current :: st.tokens).getLast (List.cons_ne_nil _ _)

/-- What a run of parsing functions from st to st1 keeps: the two flags of
the parser, the last token of the sequence, and no token is given back. -/
def Keeps (st st1 : ParseState) : Prop :=
  st1.parser.had_error = st.parser.had_error
    ∧ st1.parser.panic_mode = st.parser.panic_mode
    ∧ st1.tokens.length ≤ st.tokens.length
    ∧ st1.last_token = st.last_token

/-- Every result of a parsing function is related to the state it started
from by Keeps. -/
def KeepsAll {α : Type} (f : ParseState → Parse α) : Prop :=
  ∀ st r st1, f st = .ok (r, st1) → Keeps st st1

/-! ## Argument and parameter lists -/

/-- The tokens the parser has still to deal with: the current token and the
tokens not read yet. -/
def ParseState.pending (st : ParseState) : List Token :=
  st.parser.current :: st.tokens

/-- The tokens of a list whose entries are separated by commas: the entries
in order, each but the last followed by the next comma. -/
def separated : List (List Token) → List Token → List Token
  | [], _ => []
  | [entry], _ => entry
  | entry :: more, [] => entry ++ separated more []
  | entry :: more, comma :: commas => entry ++ comma :: separated more commas

/-- A well-formed argument: tokens that parse_expression, given at least
fuel0 units of fuel, reads exactly and turns into expr without a diagnostic
whenever a comma or a closing parenthesis follows them. -/
def Argument (fuel0 : Nat) (tokens : List Token) (expr : ExprPtr) : Prop :=
  ∀ (fuel : Nat) (st : ParseState) (next : Token) (rest : List Token),
    fuel0 ≤ fuel → st.pending = tokens ++ next :: rest →
    next.type = TOKEN_COMMA ∨ next.type = TOKEN_RIGHT_PAREN →
    ∃ previous, parse_expression fuel st
      = .ok (expr, ⟨⟨next, previous, st.parser.had_error, st.parser.panic_mode⟩, rest,
          st.stderr⟩)

/-- The diagnostics of a list that is too long: one for each entry after
the 255th, at the first token of the entry. -/
def cap_errors (message : String) (entries : List (List Token)) : List String :=
  (entries.drop 255).map (fun entry => error (entry.headD eof) message)

/-- The state of a parser that has just consumed the token closing, rest
being the tokens after it, with the flags of st and the given diagnostics. -/
def after_token (closing : Token) (rest : List Token) (st : ParseState)
    (stderr : List String) : ParseState :=
  Parser.advance ⟨⟨closing, closing, st.parser.had_error, st.parser.panic_mode⟩, rest, stderr⟩

/-! ## Token streams that end in the end-of-input token -/

/-- The tokens the parser has still to deal with end in a token of the
end-of-input type, as the tokens of a scanner do. -/
def ParseState.ends_in_eof (st : ParseState) : Prop :=
  st.last_token.type = TOKEN_EOF

/-- With fuel above 32 units for each token not read yet plus level, the
parsing function does not run out of fuel on a token stream that ends in
the end-of-input token. -/
def Terminates {α : Type} (level fuel : Nat) (f : ParseState → Parse α) : Prop :=
  ∀ st : ParseState, st.ends_in_eof → 32 * st.tokens.length + level ≤ fuel →
    f st ≠ .error .out_of_fuel

/-! ## The diagnostic format of the specification -/

/-- The apostrophe. -/
def APOSTROPHE : Char := Char.ofNat 39

/-- An integer written in decimal: its digits, after a minus sign when it is
negative. -/
def decimal : Int → List Char
  | .ofNat n => Nat.toDigits 10 n
  | .negSucc n => '-' :: Nat.toDigits 10 (n + 1)

/-- Written from the specification: the diagnostic text for line N, a place
(end, or the lexeme between apostrophes) and a message, followed by one
newline. -/
def diagnostic_text (line : Int) (place : List Char) (message : String) : List Char :=
  "[line ".toList ++ decimal line ++ "] Error at ".toList ++ place ++ ": ".toList
    ++ message.toList ++ ['\n']

/-! ## The tree without its annotation -/

mutual
/-- An expression with the annotation of its Variable and Assign nodes, the
struct variable that resolve_local writes (depth and is_captured), erased. -/
def Expr.erase : Expr → Expr
  | .binary token left right => .binary token left.erase right.erase
  | .unary token right => .unary token right.erase
  | .literal value => .literal value
  | .grouping e => .grouping e.erase
  | .variable token name _ _ => .variable token name 0 false
  | .assign token right _ _ => .assign token right.erase 0 false
  | .logical token left right => .logical token left.erase right.erase
  | .call callee token args => .call callee.erase token (Expr.eraseList args)
/-- The expressions of a list with their annotations erased. -/
def Expr.eraseList : List Expr → List Expr
  | [] => []
  | e :: rest => e.erase :: Expr.eraseList rest
end

/-- An expression that may be NULL, its annotations erased. -/
def Expr.eraseOpt : Option Expr → Option Expr
  | none => none
  | some e => some e.erase

mutual
/-- A statement with the annotation of every Variable and Assign node
erased. -/
def Stmt.erase : Stmt → Stmt
  | .expr e => .expr e.erase
  | .var name initializer => .var name (Expr.eraseOpt initializer)
  | .block stmts => .block (Stmt.eraseList stmts)
  | .ifStmt e then_branch else_branch =>
    .ifStmt e.erase then_branch.erase (Stmt.eraseOpt else_branch)
  | .whileStmt e body => .whileStmt e.erase body.erase
  | .func name params body => .func name params (Stmt.eraseList body)
  | .returnStmt keyword e => .returnStmt keyword (Expr.eraseOpt e)
/-- The statements of a list with their annotations erased. -/
def Stmt.eraseList : List Stmt → List Stmt
  | [] => []
  | stmt :: rest => stmt.erase :: Stmt.eraseList rest
/-- A statement that may be NULL, its annotations erased. -/
def Stmt.eraseOpt : Option Stmt → Option Stmt
  | none => none
  | some stmt => some stmt.erase
end

/-- The names recorded in a scope, in the order of their declaration. -/
def VariableArray.names (array : VariableArray) : List (List Char) :=
  array.vars.map Variable.name

/-! ## The calls the resolver makes on the scopes -/

/-- A call of one of the three functions that read or write the variables
of the current scope, with the state it is made in and the name it is given:
declare_variable (always with is_const false), define_variable,
resolve_local. -/
inductive Call where
  | declare_variable (r : Resolver) (name : Token)
  | define_variable (r : Resolver)
  | resolve_local (r : Resolver) (start : List Char) (length : Nat)

/-- The state a call is made in. -/
def Call.state : Call → Resolver
  | .declare_variable r _ => r
  | .define_variable r => r
  | .resolve_local r _ _ => r

/-- The call has no effect: declare_variable and define_variable return
leaving the state as it was, resolve_local returns false. -/
def Call.idle : Call → Prop
  | .declare_variable r name => BasicLexer.declare_variable r name false = some r
  | .define_variable r => BasicLexer.define_variable r = some r
  | .resolve_local r start length => BasicLexer.resolve_local r.analyzer start length = some none

/-- The calls of the loop of lines 708-711, in order. -/
def params_calls : List Token → Resolver → List Call
  | [], _ => []
  | param :: rest, r =>
    .declare_variable r param ::
      (match declare_variable r param false with
        | none => []
        | some r1 =>
          .define_variable r1 ::
            (match define_variable r1 with
              | none => []
              | some r2 => params_calls rest r2))

mutual
/-- The calls made while resolve_expr resolves an expression from the state
r, in order; each part of the expression is resolved from the state the
part before it left (lines 725-766). -/
def expr_calls (lookup_variable : ScopePtr → List Char → Bool) :
    Expr → Resolver → List Call
  | .binary _ left right, r =>
    expr_calls lookup_variable left r ++
      (match resolve_expr lookup_variable left r with
        | none => []
        | some (_, r1) => expr_calls lookup_variable right r1)
  | .unary _ right, r => expr_calls lookup_variable right r
  | .literal _, _ => []
  | .grouping e, r => expr_calls lookup_variable e r
  | .variable token name _ _, r =>
    (match resolve_variable_expr lookup_variable r token name with
      | none => []
      | some (r1, _) => [.resolve_local r1 name name.length])
  | .assign token right _ _, r =>
    expr_calls lookup_variable right r ++
      (match resolve_expr lookup_variable right r with
        | none => []
        | some (_, r1) => [.resolve_local r1 token.start token.length])
  | .logical _ left right, r =>
    expr_calls lookup_variable left r ++
      (match resolve_expr lookup_variable left r with
        | none => []
        | some (_, r1) => expr_calls lookup_variable right r1)
  | .call callee _ args, r =>
    expr_calls lookup_variable callee r ++
      (match resolve_expr lookup_variable callee r with
        | none => []
        | some (_, r1) => exprs_calls lookup_variable args r1)
/-- The calls made while the arguments of a call are resolved. -/
def exprs_calls (lookup_variable : ScopePtr → List Char → Bool) :
    List Expr → Resolver → List Call
  | [], _ => []
  | e :: rest, r =>
    expr_calls lookup_variable e r ++
      (match resolve_expr lookup_variable e r with
        | none => []
        | some (_, r1) => exprs_calls lookup_variable rest r1)
end

/-- The calls made for an expression that is resolved when it is not NULL. -/
def opt_expr_calls (lookup_variable : ScopePtr → List Char → Bool) :
    Option Expr → Resolver → List Call
  | none, _ => []
  | some e, r => expr_calls lookup_variable e r

mutual
/-- The calls made while resolve_stmt resolves a statement from the state
r, in order (lines 674-723). -/
def stmt_calls (lookup_variable : ScopePtr → List Char → Bool) :
    Stmt → Resolver → List Call
  | .expr e, r => expr_calls lookup_variable e r
  | .var name initializer, r =>
    .declare_variable r name ::
      (match declare_variable r name false with
        | none => []
        | some r1 =>
          opt_expr_calls lookup_variable initializer r1 ++
            (match resolve_opt_expr lookup_variable initializer r1 with
              | none => []
              | some (_, r2) => [.define_variable r2]))
  | .block stmts, r => stmts_calls lookup_variable stmts (begin_scope r)
  | .ifStmt e then_branch else_branch, r =>
    expr_calls lookup_variable e r ++
      (match resolve_expr lookup_variable e r with
        | none => []
        | some (_, r1) =>
          stmt_calls lookup_variable then_branch r1 ++
            (match resolve_stmt lookup_variable then_branch r1 with
              | none => []
              | some (_, r2) => opt_stmt_calls lookup_variable else_branch r2))
  | .whileStmt e body, r =>
    expr_calls lookup_variable e r ++
      (match resolve_expr lookup_variable e r with
        | none => []
        | some (_, r1) => stmt_calls lookup_variable body r1)
  | .func name params body, r =>
    .declare_variable r name ::
      (match declare_variable r name false with
        | none => []
        | some r1 =>
          .define_variable r1 ::
            (match define_variable r1 with
              | none => []
              | some r2 =>
                params_calls params (begin_scope r2) ++
                  (match declare_params (begin_scope r2) params with
                    | none => []
                    | some r3 => stmts_calls lookup_variable body r3)))
  | .returnStmt _ e, r => opt_expr_calls lookup_variable e r
/-- The calls made by the statement loops of lines 684-686 and 713-715. -/
def stmts_calls (lookup_variable : ScopePtr → List Char → Bool) :
    List Stmt → Resolver → List Call
  | [], _ => []
  | stmt :: rest, r =>
    stmt_calls lookup_variable stmt r ++
      (match resolve_stmt lookup_variable stmt r with
        | none => []
        | some (_, r1) => stmts_calls lookup_variable rest r1)
/-- The calls made for the else branch, resolved when it is not NULL. -/
def opt_stmt_calls (lookup_variable : ScopePtr → List Char → Bool) :
    Option Stmt → Resolver → List Call
  | none, _ => []
  | some stmt, r => stmt_calls lookup_variable stmt r
end

/-- The state after k calls of begin_scope from the state r: k scopes that
hold no variables above the scopes of r. -/
def nested : Nat → Resolver → Resolver
  | 0, r => r
  | k + 1, r => begin_scope (nested k r)

/-! # Theorems -/

/-! ## The resolver started in a scope that holds no variables -/

theorem declare_variable_empty (r : Resolver) (name : Token) (is_const : Bool)
    (h : current_scope_empty r = true) : declare_variable r name is_const = some r := by
  unfold current_scope_empty at h
  unfold declare_variable
  split
  · simp_all
  · simp_all

theorem define_variable_empty (r : Resolver) (h : current_scope_empty r = true) :
    define_variable r = some r := by
  unfold current_scope_empty at h
  unfold define_variable
  split
  · simp_all
  · simp_all

theorem resolve_local_empty (r : Resolver) (start : List Char) (length : Nat)
    (h : current_scope_empty r = true) :
    resolve_local r.analyzer start length = some none := by
  unfold current_scope_empty at h
  unfold resolve_local
  split
  · simp_all
  · rename_i scope rest heq
    rw [heq] at h
    have h0 : scope.vars = [] := by
      simpa [VariableArray.count] using h
    simp [h0, VariableArray.count, resolve_local_loop]

theorem begin_scope_empty (r : Resolver) : current_scope_empty (begin_scope r) = true := by
  simp [begin_scope, new_scope, current_scope_empty, init_variable_array, VariableArray.count]

theorem end_scope_begin_scope (r : Resolver) : end_scope (begin_scope r) = some r := by
  simp [begin_scope, new_scope, end_scope]

theorem declare_params_empty (r : Resolver) (params : List Token)
    (h : current_scope_empty r = true) : declare_params r params = some r := by
  induction params with
  | nil => rfl
  | cons param rest ih =>
    simp [declare_params, declare_variable_empty r param false h, define_variable_empty r h, ih]

theorem resolve_variable_expr_empty (lookup_variable : ScopePtr → List Char → Bool)
    (r : Resolver) (token : Token) (name : List Char) (h : current_scope_empty r = true) :
    resolve_variable_expr lookup_variable r token name = some (r, none) := by
  have hl := resolve_local_empty r name name.length h
  unfold current_scope_empty at h
  unfold resolve_variable_expr
  split
  · simp_all
  · rename_i scope rest heq
    rw [heq] at h
    have h0 : scope.count = 0 := by simpa using h
    simp [h0, hl]

mutual
theorem resolve_expr_empty (lookup_variable : ScopePtr → List Char → Bool) :
    ∀ (expr : Expr) (r : Resolver), current_scope_empty r = true →
      resolve_expr lookup_variable expr r = some (expr, r)
  | .binary token left right, r, h => by
    simp [resolve_expr, resolve_expr_empty lookup_variable left r h,
      resolve_expr_empty lookup_variable right r h]
  | .unary token right, r, h => by
    simp [resolve_expr, resolve_expr_empty lookup_variable right r h]
  | .literal value, r, _ => by simp [resolve_expr]
  | .grouping expr, r, h => by
    simp [resolve_expr, resolve_expr_empty lookup_variable expr r h]
  | .variable token name depth is_captured, r, h => by
    simp [resolve_expr, resolve_variable_expr_empty lookup_variable r token name h]
  | .assign token right depth is_captured, r, h => by
    simp [resolve_expr, resolve_expr_empty lookup_variable right r h,
      resolve_local_empty r token.start token.length h]
  | .logical token left right, r, h => by
    simp [resolve_expr, resolve_expr_empty lookup_variable left r h,
      resolve_expr_empty lookup_variable right r h]
  | .call callee token args, r, h => by
    simp [resolve_expr, resolve_expr_empty lookup_variable callee r h,
      resolve_exprs_empty lookup_variable args r h]
theorem resolve_exprs_empty (lookup_variable : ScopePtr → List Char → Bool) :
    ∀ (exprs : List Expr) (r : Resolver), current_scope_empty r = true →
      resolve_exprs lookup_variable exprs r = some (exprs, r)
  | [], r, _ => by simp [resolve_exprs]
  | expr :: rest, r, h => by
    simp [resolve_exprs, resolve_expr_empty lookup_variable expr r h,
      resolve_exprs_empty lookup_variable rest r h]
end

theorem resolve_opt_expr_empty (lookup_variable : ScopePtr → List Char → Bool)
    (expr : Option Expr) (r : Resolver) (h : current_scope_empty r = true) :
    resolve_opt_expr lookup_variable expr r = some (expr, r) := by
  cases expr with
  | none => rfl
  | some expr => simp [resolve_opt_expr, resolve_expr_empty lookup_variable expr r h]

mutual
theorem resolve_stmt_empty (lookup_variable : ScopePtr → List Char → Bool) :
    ∀ (stmt : Stmt) (r : Resolver), current_scope_empty r = true →
      resolve_stmt lookup_variable stmt r = some (stmt, r)
  | .expr expr, r, h => by
    simp [resolve_stmt, resolve_expr_empty lookup_variable expr r h]
  | .var name initializer, r, h => by
    simp [resolve_stmt, declare_variable_empty r name false h,
      resolve_opt_expr_empty lookup_variable initializer r h, define_variable_empty r h]
  | .block stmts, r, _ => by
    simp [resolve_stmt,
      resolve_stmts_empty lookup_variable stmts (begin_scope r) (begin_scope_empty r),
      end_scope_begin_scope]
  | .ifStmt expr then_branch else_branch, r, h => by
    simp [resolve_stmt, resolve_expr_empty lookup_variable expr r h,
      resolve_stmt_empty lookup_variable then_branch r h,
      resolve_opt_stmt_empty lookup_variable else_branch r h]
  | .whileStmt expr body, r, h => by
    simp [resolve_stmt, resolve_expr_empty lookup_variable expr r h,
      resolve_stmt_empty lookup_variable body r h]
  | .func name params body, r, h => by
    simp [resolve_stmt, declare_variable_empty r name false h, define_variable_empty r h,
      declare_params_empty (begin_scope r) params (begin_scope_empty r),
      resolve_stmts_empty lookup_variable body (begin_scope r) (begin_scope_empty r),
      end_scope_begin_scope]
  | .returnStmt keyword expr, r, h => by
    simp [resolve_stmt, resolve_opt_expr_empty lookup_variable expr r h]
theorem resolve_stmts_empty (lookup_variable : ScopePtr → List Char → Bool) :
    ∀ (stmts : List Stmt) (r : Resolver), current_scope_empty r = true →
      resolve_stmts lookup_variable stmts r = some (stmts, r)
  | [], r, _ => by simp [resolve_stmts]
  | stmt :: rest, r, h => by
    simp [resolve_stmts, resolve_stmt_empty lookup_variable stmt r h,
      resolve_stmts_empty lookup_variable rest r h]
theorem resolve_opt_stmt_empty (lookup_variable : ScopePtr → List Char → Bool) :
    ∀ (stmt : Option Stmt) (r : Resolver), current_scope_empty r = true →
      resolve_opt_stmt lookup_variable stmt r = some (stmt, r)
  | none, r, _ => by simp [resolve_opt_stmt]
  | some stmt, r, h => by
    simp [resolve_opt_stmt, resolve_stmt_empty lookup_variable stmt r h]
end

/-! ## Resolution of the sample programs and of every tree -/

/-- C1: in the tree of the nested read (a declared in a block, read in an
inner block) and in the tree of the shadowing program, resolve started
from the empty root scope returns the tree as it was and reports nothing:
the references keep the depths they held before, so the nested read is not
given distance 1 and the shadowing reads are not given distance 0. -/
theorem resolve_leaves_defined_references (lookup_variable : ScopePtr → List Char → Bool)
    (depth inner outer : Int) :
    resolve lookup_variable (nested_tree depth) root_resolver
        = some (nested_tree depth, root_resolver)
      ∧ (nested_tree depth).depths = [depth]
      ∧ resolve lookup_variable (shadow_tree inner outer) root_resolver
        = some (shadow_tree inner outer, root_resolver)
      ∧ (shadow_tree inner outer).depths = [inner, outer] :=
  ⟨resolve_stmt_empty lookup_variable _ root_resolver rfl, rfl,
    resolve_stmt_empty lookup_variable _ root_resolver rfl, rfl⟩

/-- C2: resolving the tree of var x = x; at top level or inside a block,
from the empty root scope, returns the tree and the state as they were:
nothing is written to stderr, the read of x in its own initializer is not
reported, and the reference keeps the depth it held. -/
theorem resolve_self_initializer_silent (lookup_variable : ScopePtr → List Char → Bool)
    (depth : Int) :
    resolve lookup_variable (self_init_tree depth) root_resolver
        = some (self_init_tree depth, root_resolver)
      ∧ resolve lookup_variable (self_init_block_tree depth) root_resolver
        = some (self_init_block_tree depth, root_resolver)
      ∧ root_resolver.stderr = [] :=
  ⟨resolve_stmt_empty lookup_variable _ root_resolver rfl,
    resolve_stmt_empty lookup_variable _ root_resolver rfl, rfl⟩

/-- C3: resolving the tree of the block that declares a twice, from the
empty root scope, returns the tree and the state as they were, and so does
the tree that declares a again in a nested block: nothing is written to
stderr, no duplicate declaration is reported. -/
theorem resolve_duplicate_silent (lookup_variable : ScopePtr → List Char → Bool) :
    resolve lookup_variable duplicate_tree root_resolver
        = some (duplicate_tree, root_resolver)
      ∧ resolve lookup_variable shadow_decl_tree root_resolver
        = some (shadow_decl_tree, root_resolver)
      ∧ root_resolver.stderr = [] :=
  ⟨resolve_stmt_empty lookup_variable _ root_resolver rfl,
    resolve_stmt_empty lookup_variable _ root_resolver rfl, rfl⟩

/-- C4: resolving the tree of func f() with body f(); from the empty root
scope reports nothing and returns the tree as it was: the reference to f in
the body keeps the depth it held before, it is not given the distance to
the binding of f, and the scope of the analyzer records no f. -/
theorem resolve_recursive_call_unannotated
    (lookup_variable : ScopePtr → List Char → Bool) (depth : Int) :
    resolve lookup_variable (recursive_tree depth) root_resolver
        = some (recursive_tree depth, root_resolver)
      ∧ (recursive_tree depth).depths = [depth] :=
  ⟨resolve_stmt_empty lookup_variable _ _ rfl, rfl⟩

/-- C5, as stated, fails: no value can serve as the global sentinel, since
resolving a read of an undeclared name from the empty root scope leaves
the depth field at whatever negative value it held. -/
theorem resolve_writes_no_sentinel :
    ¬ ∃ sentinel : Int, ∀ depth : Int, ∀ p : Stmt × Resolver,
      resolve lookup_nothing (undeclared_tree depth) root_resolver = some p →
        ∀ d ∈ p.1.depths, 0 ≤ d ∨ d = sentinel := by
  rintro ⟨sentinel, h⟩
  have h1 := h (-1) _ (resolve_stmt_empty lookup_nothing _ _ rfl) (-1)
    (by simp [undeclared_tree, reference_at, Stmt.depths, Expr.depths])
  have h2 := h (-2) _ (resolve_stmt_empty lookup_nothing _ _ rfl) (-2)
    (by simp [undeclared_tree, reference_at, Stmt.depths, Expr.depths])
  omega

/-- C5, amended: from a state whose current scope holds no variables,
resolve returns, and every Variable and Assign node of the tree it returns
carries the depth it held before resolution, whatever that value is (in
particular the nodes whose name is found in no scope: there is no global
sentinel). -/
theorem resolve_keeps_depths (lookup_variable : ScopePtr → List Char → Bool)
    (stmt : Stmt) (r : Resolver) (h : current_scope_empty r = true) :
    ∃ stmt1 r1, resolve lookup_variable stmt r = some (stmt1, r1)
      ∧ stmt1.depths = stmt.depths :=
  ⟨stmt, r, resolve_stmt_empty lookup_variable stmt r h, rfl⟩

/-- Witness of C5 amended: an assignment to an undeclared name, its depth
field holding -7, resolved from the root scope of main. -/
theorem resolve_keeps_depths_witness :
    current_scope_empty root_resolver = true
      ∧ ∃ stmt1 r1, resolve lookup_nothing (undeclared_assign_tree (-7)) root_resolver
          = some (stmt1, r1)
        ∧ stmt1.depths = (undeclared_assign_tree (-7)).depths :=
  ⟨rfl, resolve_keeps_depths lookup_nothing (undeclared_assign_tree (-7)) root_resolver rfl⟩

/-- C6: from a state whose current scope holds no variables (the root scope
of main), resolve returns for every statement tree and writes nothing to
stderr; in particular for the trees in which every name is defined before
it is read and no scope declares a name twice. -/
theorem resolve_reports_no_error (lookup_variable : ScopePtr → List Char → Bool)
    (stmt : Stmt) (r : Resolver) (h : current_scope_empty r = true) :
    ∃ stmt1 r1, resolve lookup_variable stmt r = some (stmt1, r1)
      ∧ r1.stderr = r.stderr :=
  ⟨stmt, r, resolve_stmt_empty lookup_variable stmt r h, rfl⟩

/-- Witness of C6: the nested read resolved from the root scope of main. -/
theorem resolve_reports_no_error_witness :
    current_scope_empty root_resolver = true
      ∧ ∃ stmt1 r1, resolve lookup_nothing (nested_tree 0) root_resolver = some (stmt1, r1)
        ∧ r1.stderr = root_resolver.stderr :=
  ⟨rfl, resolve_reports_no_error lookup_nothing (nested_tree 0) root_resolver rfl⟩

/-! ## Bounds of the scanner loops -/

theorem char_at_of_length_le (scanner : Scanner) (i : Nat)
    (h : scanner.source.length ≤ i) : scanner.char_at i = NUL := by
  unfold Scanner.char_at
  exact List.getD_eq_default _ _ h

theorem lt_length_of_peek_ne (scanner : Scanner) (h : scanner.peek ≠ NUL) :
    scanner.current < scanner.source.length := by
  by_contra hlt
  exact h (char_at_of_length_le scanner scanner.current (Nat.le_of_not_lt hlt))

theorem Scanner.reaches_refl (a : Scanner) (h : a.current ≤ a.source.length) :
    a.reaches a :=
  ⟨rfl, rfl, Nat.le_refl _, h⟩

theorem Scanner.reaches_trans {a b c : Scanner} (hab : a.reaches b) (hbc : b.reaches c) :
    a.reaches c := by
  obtain ⟨h1, h2, h3, _⟩ := hab
  obtain ⟨k1, k2, k3, k4⟩ := hbc
  exact ⟨k1.trans h1, k2.trans h2, Nat.le_trans h3 k3, k4⟩

theorem advance_reaches (scanner : Scanner) (h : scanner.peek ≠ NUL) :
    scanner.reaches (advance scanner).2 :=
  ⟨rfl, rfl, Nat.le_succ _, lt_length_of_peek_ne scanner h⟩

theorem advance_while_reaches (p : Char → Bool) (hp : p NUL = false) :
    ∀ (fuel : Nat) (scanner : Scanner), scanner.current ≤ scanner.source.length →
      scanner.reaches (advance_while p fuel scanner) ∧
        (advance_while p fuel scanner).line = scanner.line
  | 0, scanner, h => ⟨Scanner.reaches_refl scanner h, rfl⟩
  | fuel + 1, scanner, h => by
    unfold advance_while
    split
    · rename_i hpk
      have hne : scanner.peek ≠ NUL := by
        intro heq
        rw [heq, hp] at hpk
        exact Bool.false_ne_true hpk
      have hadv := advance_reaches scanner hne
      have ih := advance_while_reaches p hp fuel (advance scanner).2 hadv.2.2.2
      exact ⟨Scanner.reaches_trans hadv ih.1, ih.2⟩
    · exact ⟨Scanner.reaches_refl scanner h, rfl⟩

theorem peek_ne_of_not_at_end (scanner : Scanner) (h : is_at_end scanner = false) :
    scanner.peek ≠ NUL := by
  simpa [is_at_end] using h

theorem string_loop_reaches :
    ∀ (fuel : Nat) (scanner : Scanner), scanner.current ≤ scanner.source.length →
      scanner.reaches (string_loop fuel scanner)
  | 0, scanner, h => Scanner.reaches_refl scanner h
  | fuel + 1, scanner, h => by
    unfold string_loop
    split
    · rename_i hc
      have hne : scanner.peek ≠ NUL := peek_ne_of_not_at_end scanner hc.2
      have hlt := lt_length_of_peek_ne scanner hne
      have ih := string_loop_reaches fuel
        (advance ⟨scanner.source, scanner.start, scanner.current,
          if scanner.peek = '\n' then scanner.line + 1 else scanner.line⟩).2 hlt
      have hstep : scanner.reaches (advance ⟨scanner.source, scanner.start, scanner.current,
          if scanner.peek = '\n' then scanner.line + 1 else scanner.line⟩).2 :=
        ⟨rfl, rfl, Nat.le_succ _, hlt⟩
      exact Scanner.reaches_trans hstep ih
    · exact Scanner.reaches_refl scanner h

theorem in_comment_NUL : in_comment NUL = false := by decide

theorem is_digit_NUL : is_digit NUL = false := by decide

theorem is_alpha_or_digit_NUL : is_alpha_or_digit NUL = false := by decide

theorem skip_whitespace_loop_reaches :
    ∀ (fuel : Nat) (scanner : Scanner), scanner.current ≤ scanner.source.length →
      scanner.reaches (skip_whitespace_loop fuel scanner)
  | 0, scanner, h => Scanner.reaches_refl scanner h
  | fuel + 1, scanner, h => by
    unfold skip_whitespace_loop
    simp only []
    split
    · rename_i hc
      have hne : scanner.peek ≠ NUL := by
        rcases hc with hc | hc | hc <;> rw [hc] <;> decide
      have hadv := advance_reaches scanner hne
      exact Scanner.reaches_trans hadv
        (skip_whitespace_loop_reaches fuel _ hadv.2.2.2)
    · split
      · rename_i hc
        have hne : scanner.peek ≠ NUL := by rw [hc]; decide
        have hlt := lt_length_of_peek_ne scanner hne
        have ih := skip_whitespace_loop_reaches fuel
          (advance ⟨scanner.source, scanner.start, scanner.current, scanner.line + 1⟩).2 hlt
        have hstep : scanner.reaches
            (advance ⟨scanner.source, scanner.start, scanner.current, scanner.line + 1⟩).2 :=
          ⟨rfl, rfl, Nat.le_succ _, hlt⟩
        exact Scanner.reaches_trans hstep ih
      · split
        · have hw := (advance_while_reaches in_comment in_comment_NUL
            scanner.remaining scanner h).1
          exact Scanner.reaches_trans hw
            (skip_whitespace_loop_reaches fuel _ hw.2.2.2)
        · exact Scanner.reaches_refl scanner h

theorem skip_whitespace_reaches (scanner : Scanner)
    (h : scanner.current ≤ scanner.source.length) :
    scanner.reaches (skip_whitespace scanner) :=
  skip_whitespace_loop_reaches _ scanner h

theorem match_char_reaches (scanner : Scanner) (expected : Char)
    (h : scanner.current ≤ scanner.source.length) :
    scanner.reaches (match_char scanner expected).2 := by
  unfold match_char
  split
  · exact Scanner.reaches_refl scanner h
  · rename_i hend
    split
    · exact Scanner.reaches_refl scanner h
    · have hne := peek_ne_of_not_at_end scanner (by simpa using hend)
      exact ⟨rfl, rfl, Nat.le_succ _, lt_length_of_peek_ne scanner hne⟩

theorem branch_make_token (scanner : Scanner) (type : TokenType)
    (h : scanner.current ≤ scanner.source.length) :
    Branch scanner (make_token scanner type, scanner) :=
  ⟨Scanner.reaches_refl scanner h, Or.inl rfl⟩

theorem branch_error_token (scanner : Scanner)
    (h : scanner.current ≤ scanner.source.length) :
    Branch scanner (error_token scanner "Unexpected character.", scanner) :=
  ⟨Scanner.reaches_refl scanner h, Or.inr (Or.inr rfl)⟩

theorem branch_identifier (check_keyword : Scanner → Nat → Nat → String → TokenType → TokenType)
    (identifier_args : Scanner → Nat × Nat) (scanner : Scanner)
    (h : scanner.current ≤ scanner.source.length) :
    Branch scanner (identifier check_keyword identifier_args scanner) :=
  ⟨(advance_while_reaches is_alpha_or_digit is_alpha_or_digit_NUL _ scanner h).1, Or.inl rfl⟩

theorem branch_number (scanner : Scanner) (h : scanner.current ≤ scanner.source.length) :
    Branch scanner (number scanner) := by
  have h1 := (advance_while_reaches is_digit is_digit_NUL scanner.remaining scanner h).1
  refine ⟨?_, Or.inl rfl⟩
  unfold number
  simp only []
  split
  · rename_i hc
    have hne : (advance_while is_digit scanner.remaining scanner).peek ≠ NUL := by
      rw [hc.1]; decide
    have h2 := advance_reaches _ hne
    have h3 := (advance_while_reaches is_digit is_digit_NUL
      (advance_while is_digit scanner.remaining scanner).remaining _ h2.2.2.2).1
    exact Scanner.reaches_trans h1 (Scanner.reaches_trans h2 h3)
  · exact h1

theorem branch_match (scanner : Scanner) (expected : Char) (two one : TokenType)
    (h : scanner.current ≤ scanner.source.length) :
    Branch scanner (make_token_match scanner expected two one) :=
  ⟨match_char_reaches scanner expected h, Or.inl rfl⟩

theorem branch_string (scanner : Scanner) (h : scanner.current ≤ scanner.source.length) :
    Branch scanner (string scanner) := by
  have h1 := string_loop_reaches scanner.remaining scanner h
  unfold string
  simp only []
  split
  · exact ⟨h1, Or.inr (Or.inl rfl)⟩
  · rename_i hend
    have hne := peek_ne_of_not_at_end _ (by simpa using hend)
    exact ⟨Scanner.reaches_trans h1 (advance_reaches _ hne), Or.inl rfl⟩

theorem branch_ite {scanner : Scanner} {p : Prop} [Decidable p] {a b : Token × Scanner}
    (ha : Branch scanner a) (hb : Branch scanner b) :
    Branch scanner (if p then a else b) := by
  split
  · exact ha
  · exact hb

theorem scan_token_spec (check_keyword : Scanner → Nat → Nat → String → TokenType → TokenType)
    (identifier_args : Scanner → Nat × Nat) (scanner : Scanner)
    (h : scanner.current ≤ scanner.source.length) :
    Scanned scanner (scan_token check_keyword identifier_args scanner) := by
  have h1 := skip_whitespace_reaches scanner h
  generalize hr : scan_token check_keyword identifier_args scanner = r
  unfold scan_token at hr
  lift_lets at hr
  extract_lets scanner1 scanner2 c scanner3 at hr
  obtain ⟨hs, _, hc, hl⟩ := h1
  have hs1 : scanner1.source = scanner.source := hs
  have hc1 : scanner.current ≤ scanner1.current := hc
  have hl1 : scanner1.current ≤ scanner1.source.length := hl
  have hs2 : scanner2.source = scanner1.source := rfl
  have hb2 : scanner2.start = scanner1.current := rfl
  have hc2 : scanner2.current = scanner1.current := rfl
  have h3 : scanner3 = (advance scanner2).2 := rfl
  clear_value scanner3 c scanner2 scanner1
  by_cases hend : is_at_end scanner2 = true
  · rw [if_pos hend] at hr
    subst hr
    have hpk : scanner2.peek = NUL := by simpa [is_at_end] using hend
    exact ⟨hs2.trans hs1, by simp only [hb2]; exact hc1,
      by simp only [hc2, ← hs1]; exact hl1, Or.inl rfl, Or.inl ⟨hb2.trans hc2.symm, hpk, rfl⟩⟩
  · rw [if_neg hend] at hr
    have hend1 : is_at_end scanner2 = false := by simpa using hend
    have hadv : scanner2.reaches scanner3 :=
      h3 ▸ advance_reaches _ (peek_ne_of_not_at_end _ hend1)
    have hin : scanner3.current ≤ scanner3.source.length := hadv.2.2.2
    have key : ∀ r : Token × Scanner, Branch scanner3 r → Scanned scanner r := by
      intro r hr
      obtain ⟨⟨k1, k2, k3, k4⟩, k5⟩ := hr
      obtain ⟨a1, a2, a3, _⟩ := hadv
      have e1 : r.2.source = scanner.source := by rw [k1, a1, hs2, hs1]
      have e2 : r.2.start = scanner1.current := by rw [k2, a2, hb2]
      have e3 : scanner3.current = scanner1.current + 1 := by rw [h3, ← hc2]; rfl
      refine ⟨e1, ?_, e1 ▸ k4, k5, Or.inr ?_⟩
      · omega
      · omega
    subst hr
    apply key
    repeat' (with_reducible apply branch_ite)
    all_goals first
      | exact branch_identifier check_keyword identifier_args _ hin
      | exact branch_number _ hin
      | exact branch_match _ _ _ _ hin
      | exact branch_string _ hin
      | exact branch_error_token _ hin
      | exact branch_make_token _ _ hin

/-! ## The scanner on the sources of the specification -/

/-- C7: whatever values identifier_type receives for start and length, and
for every check_keyword that returns the type it is given or
TOKEN_IDENTIFIER, scanning the source var returns a token with lexeme var
whose type is not TOKEN_VAR; with start 0 the type is TOKEN_IDENTIFIER for
every check_keyword, since the switch of identifier_type has no case for
the letter v. -/
theorem scan_var_not_keyword
    (check_keyword : Scanner → Nat → Nat → String → TokenType → TokenType)
    (identifier_args : Scanner → Nat × Nat)
    (h : ∀ scanner start length rest type,
      check_keyword scanner start length rest type = type
        ∨ check_keyword scanner start length rest type = TOKEN_IDENTIFIER) :
    (scan_token check_keyword identifier_args (init_scanner ['v', 'a', 'r'])).1.lexeme
        = ['v', 'a', 'r']
      ∧ (scan_token check_keyword identifier_args (init_scanner ['v', 'a', 'r'])).1.type
        ≠ TOKEN_VAR
      ∧ ((identifier_args ⟨['v', 'a', 'r'], 0, 3, 1⟩).1 = 0 →
        (scan_token check_keyword identifier_args (init_scanner ['v', 'a', 'r'])).1.type
          = TOKEN_IDENTIFIER) := by
  have e : (scan_token check_keyword identifier_args (init_scanner ['v', 'a', 'r'])).1.type
      = identifier_type check_keyword ⟨['v', 'a', 'r'], 0, 3, 1⟩
          (identifier_args ⟨['v', 'a', 'r'], 0, 3, 1⟩).1
          (identifier_args ⟨['v', 'a', 'r'], 0, 3, 1⟩).2 := rfl
  refine ⟨rfl, ?_, ?_⟩
  · rw [e]
    generalize (identifier_args ⟨['v', 'a', 'r'], 0, 3, 1⟩).1 = s
    generalize (identifier_args ⟨['v', 'a', 'r'], 0, 3, 1⟩).2 = l
    match s with
    | 0 => exact ne_of_eq_of_ne (rfl : _ = TOKEN_IDENTIFIER) (by decide)
    | 1 =>
      have e1 : identifier_type check_keyword ⟨['v', 'a', 'r'], 0, 3, 1⟩ 1 l
          = check_keyword ⟨['v', 'a', 'r'], 0, 3, 1⟩ 1 l "nd" TOKEN_AND := rfl
      rw [e1]
      rcases h ⟨['v', 'a', 'r'], 0, 3, 1⟩ 1 l "nd" TOKEN_AND with h1 | h1 <;> rw [h1] <;> decide
    | 2 =>
      have e1 : identifier_type check_keyword ⟨['v', 'a', 'r'], 0, 3, 1⟩ 2 l
          = check_keyword ⟨['v', 'a', 'r'], 0, 3, 1⟩ 2 l "eturn" TOKEN_RETURN := rfl
      rw [e1]
      rcases h ⟨['v', 'a', 'r'], 0, 3, 1⟩ 2 l "eturn" TOKEN_RETURN with h1 | h1 <;> rw [h1]
        <;> decide
    | n + 3 => exact ne_of_eq_of_ne (rfl : _ = TOKEN_IDENTIFIER) (by decide)
  · intro h0
    rw [e, h0]
    rfl

/-- Witness of C7: the sample check_keyword and arguments. -/
theorem scan_var_not_keyword_witness :
    (∀ scanner start length rest type,
      sample_check_keyword scanner start length rest type = type
        ∨ sample_check_keyword scanner start length rest type = TOKEN_IDENTIFIER)
    ∧ (scan_token sample_check_keyword sample_identifier_args
          (init_scanner ['v', 'a', 'r'])).1.type ≠ TOKEN_VAR :=
  have h : ∀ scanner start length rest type,
      sample_check_keyword scanner start length rest type = type
        ∨ sample_check_keyword scanner start length rest type = TOKEN_IDENTIFIER := by
    intro scanner start length rest type
    unfold sample_check_keyword
    split
    · exact Or.inl rfl
    · exact Or.inr rfl
  ⟨h, (scan_var_not_keyword sample_check_keyword sample_identifier_args h).2.1⟩


theorem string_loop_unterminated :
    ∀ (fuel : Nat) (scanner : Scanner), scanner.current ≤ scanner.source.length →
      scanner.remaining ≤ fuel →
      (∀ c ∈ scanner.source.drop scanner.current, c ≠ QUOTE ∧ c ≠ NUL) →
      string_loop fuel scanner = ⟨scanner.source, scanner.start, scanner.source.length,
        scanner.line + ((scanner.source.drop scanner.current).count '\n' : Nat)⟩
  | 0, ⟨source, start, current, line⟩, h, hf, _ => by
    have hc : current = source.length := by
      simp only [Scanner.remaining] at hf h; omega
    subst hc
    simp [string_loop]
  | fuel + 1, ⟨source, start, current, line⟩, h, hf, hall => by
    unfold string_loop
    simp only [Scanner.remaining] at hf h hall
    by_cases hlt : current < source.length
    · have hd : source.drop current = source[current] :: source.drop (current + 1) :=
        List.drop_eq_getElem_cons hlt
      have hpk : (⟨source, start, current, line⟩ : Scanner).peek = source[current] := by
        simp [Scanner.peek, Scanner.char_at, List.getElem?_eq_getElem hlt]
      have hmem := hall source[current] (hd ▸ List.mem_cons_self _ _)
      have hcond : (⟨source, start, current, line⟩ : Scanner).peek ≠ QUOTE
          ∧ is_at_end ⟨source, start, current, line⟩ = false := by
        refine ⟨hpk ▸ hmem.1, ?_⟩
        simp [is_at_end, hpk, hmem.2]
      rw [if_pos hcond]
      have ih := string_loop_unterminated fuel
        (advance ⟨source, start, current,
          if (⟨source, start, current, line⟩ : Scanner).peek = '\n' then line + 1
          else line⟩).2 hlt
        (by simp only [Scanner.remaining, advance]; omega)
        (by
          intro c hc
          apply hall
          rw [hd]
          exact List.mem_cons_of_mem _ hc)
      rw [ih]
      simp only [advance, hpk]
      rw [hd]
      by_cases hnl : source[current] = '\n'
      · rw [if_pos hnl, hnl, List.count_cons_self]
        simp only [Scanner.mk.injEq, true_and]
        push_cast
        omega
      · rw [if_neg hnl, List.count_cons_of_ne (fun h1 => hnl h1.symm)]
    · have hc : current = source.length := by omega
      have hpk : (⟨source, start, current, line⟩ : Scanner).peek = NUL :=
        char_at_of_length_le _ _ (by simp only []; omega)
      have hcond : ¬ ((⟨source, start, current, line⟩ : Scanner).peek ≠ QUOTE
          ∧ is_at_end ⟨source, start, current, line⟩ = false) := by
        simp [is_at_end, hpk]
      rw [if_neg hcond]
      subst hc
      simp

theorem scan_token_at_end (check_keyword : Scanner → Nat → Nat → String → TokenType → TokenType)
    (identifier_args : Scanner → Nat × Nat) (scanner : Scanner) (h : scanner.peek = NUL) :
    scan_token check_keyword identifier_args scanner
      = (make_token ⟨scanner.source, scanner.current, scanner.current, scanner.line⟩ TOKEN_EOF,
        ⟨scanner.source, scanner.current, scanner.current, scanner.line⟩) := by
  have hskip : skip_whitespace scanner = scanner := by
    unfold skip_whitespace skip_whitespace_loop
    simp only [h]
    rfl
  have hend : is_at_end ⟨scanner.source, scanner.current, scanner.current, scanner.line⟩
      = true := by
    simpa [is_at_end, Scanner.peek, Scanner.char_at] using h
  unfold scan_token
  lift_lets
  intro scanner1 scanner2
  have h2 : scanner2 = ⟨scanner.source, scanner.current, scanner.current, scanner.line⟩ := by
    show (⟨(skip_whitespace scanner).source, (skip_whitespace scanner).current,
      (skip_whitespace scanner).current, (skip_whitespace scanner).line⟩ : Scanner) = _
    rw [hskip]
  intro c scanner3
  clear_value scanner3 c scanner2
  subst h2
  rw [if_pos hend]

theorem scan_tokens_at_end (check_keyword : Scanner → Nat → Nat → String → TokenType → TokenType)
    (identifier_args : Scanner → Nat × Nat) (scanner : Scanner) (h : scanner.peek = NUL) :
    ∀ n : Nat, scan_token check_keyword identifier_args
        (scan_tokens check_keyword identifier_args n scanner)
      = (make_token ⟨scanner.source, scanner.current, scanner.current, scanner.line⟩ TOKEN_EOF,
        ⟨scanner.source, scanner.current, scanner.current, scanner.line⟩)
  | 0 => scan_token_at_end check_keyword identifier_args scanner h
  | n + 1 => by
    have ih := scan_tokens_at_end check_keyword identifier_args
      ⟨scanner.source, scanner.current, scanner.current, scanner.line⟩ h n
    simpa only [scan_tokens, scan_token_at_end check_keyword identifier_args scanner h] using ih

theorem scan_unterminated (check_keyword : Scanner → Nat → Nat → String → TokenType → TokenType)
    (identifier_args : Scanner → Nat × Nat) (rest : List Char)
    (hq : QUOTE ∉ rest) (hn : NUL ∉ rest) :
    scan_token check_keyword identifier_args (init_scanner (QUOTE :: rest))
      = (⟨TOKEN_EOF, "Unterminated string.".toList, 20, 1 + (rest.count '\n' : Nat), none⟩,
        ⟨QUOTE :: rest, 0, rest.length + 1, 1 + (rest.count '\n' : Nat)⟩) := by
  have e : scan_token check_keyword identifier_args (init_scanner (QUOTE :: rest))
      = string ⟨QUOTE :: rest, 0, 1, 1⟩ := rfl
  have hl := string_loop_unterminated (Scanner.remaining ⟨QUOTE :: rest, 0, 1, 1⟩)
    ⟨QUOTE :: rest, 0, 1, 1⟩ (by simp) (Nat.le_refl _)
    (by
      intro c hc
      have hc1 : c ∈ rest := by simpa using hc
      exact ⟨fun h => hq (h ▸ hc1), fun h => hn (h ▸ hc1)⟩)
  have hend : is_at_end ⟨QUOTE :: rest, 0, rest.length + 1, 1 + (rest.count '\n' : Nat)⟩
      = true := by
    have := char_at_of_length_le
      ⟨QUOTE :: rest, 0, rest.length + 1, 1 + (rest.count '\n' : Nat)⟩ (rest.length + 1)
      (by simp)
    simpa [is_at_end, Scanner.peek] using this
  rw [e]
  unfold string
  simp only [hl, List.drop_succ_cons, List.drop_zero, List.length_cons]
  rw [if_pos hend]
  rfl

/-- C8: for a source made of a double quote followed by characters none of
which is a double quote (or NUL), the first call of scan_token returns the
error token carrying the message Unterminated string. and leaves the
scanner exactly at the end of the input; every later call returns the
end-of-input token made by make_token, with an empty lexeme, and leaves
the scanner at the end. -/
theorem unterminated_string_one_error
    (check_keyword : Scanner → Nat → Nat → String → TokenType → TokenType)
    (identifier_args : Scanner → Nat × Nat) (rest : List Char)
    (hq : QUOTE ∉ rest) (hn : NUL ∉ rest) :
    (scan_token check_keyword identifier_args (init_scanner (QUOTE :: rest))).1
        = error_token (scan_token check_keyword identifier_args
            (init_scanner (QUOTE :: rest))).2 "Unterminated string."
      ∧ (scan_token check_keyword identifier_args (init_scanner (QUOTE :: rest))).1.lexeme
        = "Unterminated string.".toList
      ∧ (scan_token check_keyword identifier_args (init_scanner (QUOTE :: rest))).2.current
        = (QUOTE :: rest).length
      ∧ ∀ n : Nat,
        (scan_token check_keyword identifier_args (scan_tokens check_keyword identifier_args n
            (scan_token check_keyword identifier_args (init_scanner (QUOTE :: rest))).2)).1
          = make_token (scan_token check_keyword identifier_args
              (scan_tokens check_keyword identifier_args n
                (scan_token check_keyword identifier_args
                  (init_scanner (QUOTE :: rest))).2)).2 TOKEN_EOF
        ∧ (scan_token check_keyword identifier_args
            (scan_tokens check_keyword identifier_args n
              (scan_token check_keyword identifier_args
                (init_scanner (QUOTE :: rest))).2)).1.lexeme = []
        ∧ (scan_token check_keyword identifier_args
            (scan_tokens check_keyword identifier_args n
              (scan_token check_keyword identifier_args
                (init_scanner (QUOTE :: rest))).2)).2.current = (QUOTE :: rest).length := by
  rw [scan_unterminated check_keyword identifier_args rest hq hn]
  refine ⟨rfl, rfl, rfl, ?_⟩
  intro n
  have hpk : (⟨QUOTE :: rest, 0, rest.length + 1, 1 + (rest.count '\n' : Nat)⟩
      : Scanner).peek = NUL :=
    char_at_of_length_le _ _ (by simp)
  rw [scan_tokens_at_end check_keyword identifier_args _ hpk n]
  refine ⟨rfl, ?_, rfl⟩
  simp [make_token, Token.lexeme]

/-- Witness of C8: the source of the specification, a double quote followed
by abc. -/
theorem unterminated_string_one_error_witness :
    QUOTE ∉ ['a', 'b', 'c'] ∧ NUL ∉ ['a', 'b', 'c']
      ∧ (scan_token sample_check_keyword sample_identifier_args
          (init_scanner (QUOTE :: ['a', 'b', 'c']))).1.lexeme
        = "Unterminated string.".toList :=
  ⟨by decide, by decide,
    (unterminated_string_one_error sample_check_keyword sample_identifier_args
      ['a', 'b', 'c'] (by decide) (by decide)).2.1⟩

/-- C9: for the sources made of a colon, of an at sign, and of a colon
followed by x, scan_token passes exactly the first character and returns
the token carrying the message Unexpected character.; the type of that
token is TOKEN_EOF, the end-of-input kind, although for the last source
the identifier x is still to be scanned and is returned by the next call. -/
theorem unexpected_character_has_eof_kind
    (check_keyword : Scanner → Nat → Nat → String → TokenType → TokenType)
    (identifier_args : Scanner → Nat × Nat) :
    scan_token check_keyword identifier_args (init_scanner [':'])
        = (⟨TOKEN_EOF, "Unexpected character.".toList, 21, 1, none⟩, ⟨[':'], 0, 1, 1⟩)
      ∧ scan_token check_keyword identifier_args (init_scanner ['@'])
        = (⟨TOKEN_EOF, "Unexpected character.".toList, 21, 1, none⟩, ⟨['@'], 0, 1, 1⟩)
      ∧ scan_token check_keyword identifier_args (init_scanner [':', 'x'])
        = (⟨TOKEN_EOF, "Unexpected character.".toList, 21, 1, none⟩, ⟨[':', 'x'], 0, 1, 1⟩)
      ∧ (scan_token check_keyword identifier_args ⟨[':', 'x'], 0, 1, 1⟩).1.lexeme = ['x'] :=
  ⟨rfl, rfl, rfl, rfl⟩

theorem slice_append (source : List Char) {a b c : Nat} (hab : a ≤ b) (hbc : b ≤ c) :
    slice source a b ++ slice source b c = slice source a c := by
  unfold slice
  have h1 : c - a = (b - a) + (c - b) := by omega
  have h2 : source.drop b = (source.drop a).drop (b - a) := by
    rw [List.drop_drop]
    congr 1
    omega
  rw [h1, List.take_add, h2]

theorem slice_append_drop (source : List Char) {a b : Nat} (hab : a ≤ b) :
    slice source a b ++ source.drop b = source.drop a := by
  unfold slice
  have h2 : source.drop b = (source.drop a).drop (b - a) := by
    rw [List.drop_drop]
    congr 1
    omega
  rw [h2, List.take_append_drop]

theorem slice_to_length (source : List Char) (a : Nat) :
    slice source a source.length = source.drop a := by
  unfold slice
  exact List.take_of_length_le (by simp)

theorem length_le_of_peek_NUL (scanner : Scanner) (hn : NUL ∉ scanner.source)
    (h : scanner.peek = NUL) : scanner.source.length ≤ scanner.current := by
  by_contra hlt
  have hlt1 : scanner.current < scanner.source.length := Nat.lt_of_not_le hlt
  apply hn
  have : scanner.peek = scanner.source[scanner.current] := by
    simp [Scanner.peek, Scanner.char_at, List.getElem?_eq_getElem hlt1]
  rw [← h, this]
  exact List.getElem_mem _

theorem is_end_of_made_by {token : Token} {scanner : Scanner} (h : token.made_by scanner)
    (hlt : scanner.start < scanner.current) : token.is_end = false := by
  rcases h with h | h | h
  · rw [h]
    have : scanner.current - scanner.start ≠ 0 := by omega
    simp [Token.is_end, make_token, this]
  · rw [h]; rfl
  · rw [h]; rfl

theorem lexeme_of_made_by {token : Token} {scanner : Scanner} (h : token.made_by scanner) :
    token.lexeme = slice scanner.source scanner.start scanner.current
      ∨ token.start = "Unterminated string.".toList
      ∨ token.start = "Unexpected character.".toList := by
  rcases h with h | h | h
  · left; rw [h]; rfl
  · right; left; rw [h]; rfl
  · right; right; rw [h]; rfl

theorem scan_all_spec (check_keyword : Scanner → Nat → Nat → String → TokenType → TokenType)
    (identifier_args : Scanner → Nat × Nat) :
    ∀ (fuel : Nat) (scanner : Scanner), scanner.current ≤ scanner.source.length →
      NUL ∉ scanner.source → scanner.remaining < fuel →
      slice_text (scan_all check_keyword identifier_args fuel scanner)
          = scanner.source.drop scanner.current
        ∧ (∀ step ∈ scan_all check_keyword identifier_args fuel scanner,
            step.token.lexeme = step.text
              ∨ step.token.start = "Unterminated string.".toList
              ∨ step.token.start = "Unexpected character.".toList)
        ∧ ∃ steps last, scan_all check_keyword identifier_args fuel scanner = steps ++ [last]
            ∧ last.token.is_end = true ∧ last.text = []
  | 0, scanner, _, _, hf => absurd hf (Nat.not_lt_zero _)
  | fuel + 1, scanner, h, hn, hf => by
    obtain ⟨e1, e2, e3, e4, e5⟩ := scan_token_spec check_keyword identifier_args scanner h
    unfold scan_all scan_step
    simp only []
    generalize scan_token check_keyword identifier_args scanner = r at e1 e2 e3 e4 e5
    have hlex := lexeme_of_made_by e4
    rw [e1] at hlex
    rcases e5 with ⟨hsc, hpk, htok⟩ | hlt
    · have hend : r.1.is_end = true := by
        rw [htok]
        simp [Token.is_end, make_token, hsc]
      have hlen : r.2.current = scanner.source.length := by
        have := length_le_of_peek_NUL r.2 (e1 ▸ hn) hpk
        rw [e1] at this
        omega
      rw [if_pos hend]
      refine ⟨?_, ?_, [], _, rfl, hend, ?_⟩
      · simp only [slice_text, List.append_nil]
        rw [slice_append scanner.source e2 (by omega), hlen, slice_to_length]
      · intro step hstep
        rw [List.mem_singleton] at hstep
        subst hstep
        exact hlex
      · simp [slice, hsc]
    · have hend : r.1.is_end = false := is_end_of_made_by e4 hlt
      rw [hend]
      simp only [Bool.false_eq_true, if_false]
      have ih := scan_all_spec check_keyword identifier_args fuel r.2
        (by rw [e1]; exact e3) (by rw [e1]; exact hn)
        (by simp only [Scanner.remaining] at hf ⊢; rw [e1]; omega)
      obtain ⟨i1, i2, steps, last, i3, i4, i5⟩ := ih
      refine ⟨?_, ?_, _ :: steps, last, by rw [i3]; rfl, i4, i5⟩
      · simp only [slice_text]
        rw [i1, e1, slice_append scanner.source e2 (by omega),
          slice_append_drop scanner.source (by omega)]
      · intro step hstep
        rcases List.mem_cons.mp hstep with hstep | hstep
        · subst hstep
          exact hlex
        · exact i2 step hstep

/-- C10, as stated, fails: for the source made of a colon, the skipped text
and the lexemes of the tokens spell the message Unexpected character. and
not the source, the lexeme of the first token is not the character the
call passed. -/
theorem lexemes_do_not_tile :
    lexeme_text (scan_all sample_check_keyword sample_identifier_args 2 (init_scanner [':']))
        ≠ [':']
      ∧ ((scan_step sample_check_keyword sample_identifier_args (init_scanner [':'])).1.text
          = [':']
        ∧ (scan_step sample_check_keyword sample_identifier_args
            (init_scanner [':'])).1.token.lexeme = "Unexpected character.".toList) := by
  decide

/-- C10, amended: for every source, scanning it to the end and joining, in
order, the text skipped before each token with the characters between the
start and the current position of the scanner after the call gives the
source; the lexeme of every token is that slice, except for the error
tokens, whose start points at their message; the last call returns the
end-of-input token and passes nothing. -/
theorem scan_all_tiles (check_keyword : Scanner → Nat → Nat → String → TokenType → TokenType)
    (identifier_args : Scanner → Nat × Nat) (source : List Char) (hn : NUL ∉ source) :
    slice_text (scan_all check_keyword identifier_args (source.length + 1)
        (init_scanner source)) = source
      ∧ (∀ step ∈ scan_all check_keyword identifier_args (source.length + 1)
            (init_scanner source),
          step.token.lexeme = step.text
            ∨ step.token.start = "Unterminated string.".toList
            ∨ step.token.start = "Unexpected character.".toList)
      ∧ ∃ steps last, scan_all check_keyword identifier_args (source.length + 1)
            (init_scanner source) = steps ++ [last]
          ∧ last.token.is_end = true ∧ last.text = [] :=
  scan_all_spec check_keyword identifier_args (source.length + 1) (init_scanner source)
    (Nat.zero_le _) hn (Nat.lt_succ_self _)

/-- Witness of C10 amended: the source made of a colon. -/
theorem scan_all_tiles_witness :
    NUL ∉ [':']
      ∧ slice_text (scan_all sample_check_keyword sample_identifier_args 2
          (init_scanner [':'])) = [':'] :=
  ⟨by decide, (scan_all_tiles sample_check_keyword sample_identifier_args [':']
    (by decide)).1⟩


/-! ## The loops end by their condition, never by their fuel -/

theorem advance_while_stops (p : Char → Bool) (hp : p NUL = false) :
    ∀ (fuel : Nat) (scanner : Scanner), scanner.current ≤ scanner.source.length →
      scanner.remaining ≤ fuel → p (advance_while p fuel scanner).peek = false
  | 0, scanner, _, hf => by
    have hpk : scanner.peek = NUL :=
      char_at_of_length_le scanner _ (by unfold Scanner.remaining at hf; omega)
    simp [advance_while, hpk, hp]
  | fuel + 1, scanner, h, hf => by
    unfold advance_while
    split
    · rename_i hpk
      have hne : scanner.peek ≠ NUL := by
        intro heq
        rw [heq, hp] at hpk
        exact Bool.false_ne_true hpk
      have hlt := lt_length_of_peek_ne scanner hne
      exact advance_while_stops p hp fuel (advance scanner).2 hlt
        (by simp only [Scanner.remaining, advance] at hf ⊢; omega)
    · rename_i hpk
      simpa using hpk

theorem string_loop_stops :
    ∀ (fuel : Nat) (scanner : Scanner), scanner.current ≤ scanner.source.length →
      scanner.remaining ≤ fuel →
      (string_loop fuel scanner).peek = QUOTE ∨ is_at_end (string_loop fuel scanner) = true
  | 0, scanner, h, hf => by
    have hpk : scanner.peek = NUL :=
      char_at_of_length_le scanner _ (by unfold Scanner.remaining at hf; omega)
    right
    simp [string_loop, is_at_end, hpk]
  | fuel + 1, scanner, h, hf => by
    unfold string_loop
    split
    · rename_i hc
      have hlt := lt_length_of_peek_ne scanner (peek_ne_of_not_at_end scanner hc.2)
      exact string_loop_stops fuel _ hlt
        (by simp only [Scanner.remaining, advance] at hf ⊢; omega)
    · rename_i hc
      by_cases hq : scanner.peek = QUOTE
      · exact Or.inl hq
      · right
        by_contra hend
        exact hc ⟨hq, by simpa using hend⟩

theorem advance_while_passes (p : Char → Bool) (hp : p NUL = false) (fuel : Nat)
    (scanner : Scanner) (hpk : p scanner.peek = true) :
    scanner.current + 1 ≤ (advance_while p (fuel + 1) scanner).current := by
  have hne : scanner.peek ≠ NUL := by
    intro heq
    rw [heq, hp] at hpk
    exact Bool.false_ne_true hpk
  have hlt := lt_length_of_peek_ne scanner hne
  unfold advance_while
  rw [if_pos hpk]
  exact (advance_while_reaches p hp fuel (advance scanner).2 hlt).1.2.2.1

theorem skip_whitespace_loop_stops :
    ∀ (fuel : Nat) (scanner : Scanner), scanner.current ≤ scanner.source.length →
      scanner.remaining < fuel →
      (skip_whitespace_loop fuel scanner).peek ≠ ' '
        ∧ (skip_whitespace_loop fuel scanner).peek ≠ '\r'
        ∧ (skip_whitespace_loop fuel scanner).peek ≠ '\t'
        ∧ (skip_whitespace_loop fuel scanner).peek ≠ '\n'
        ∧ (skip_whitespace_loop fuel scanner).peek ≠ '#'
  | 0, scanner, _, hf => absurd hf (Nat.not_lt_zero _)
  | fuel + 1, scanner, h, hf => by
    unfold skip_whitespace_loop
    simp only []
    split
    · rename_i hc
      have hne : scanner.peek ≠ NUL := by
        rcases hc with hc | hc | hc <;> rw [hc] <;> decide
      have hlt := lt_length_of_peek_ne scanner hne
      exact skip_whitespace_loop_stops fuel (advance scanner).2 hlt
        (by simp only [Scanner.remaining, advance] at hf ⊢; omega)
    · rename_i hws
      split
      · rename_i hc
        have hne : scanner.peek ≠ NUL := by rw [hc]; decide
        have hlt := lt_length_of_peek_ne scanner hne
        exact skip_whitespace_loop_stops fuel
          (advance ⟨scanner.source, scanner.start, scanner.current, scanner.line + 1⟩).2 hlt
          (by simp only [Scanner.remaining, advance] at hf ⊢; omega)
      · rename_i hnl
        split
        · rename_i hc
          have hne : scanner.peek ≠ NUL := by rw [hc]; decide
          have hlt := lt_length_of_peek_ne scanner hne
          have hw := (advance_while_reaches in_comment in_comment_NUL
            scanner.remaining scanner h).1
          have hrem : scanner.remaining = (scanner.remaining - 1) + 1 := by
            unfold Scanner.remaining; omega
          have hpass := advance_while_passes in_comment in_comment_NUL
            (scanner.remaining - 1) scanner (by rw [hc]; decide)
          rw [← hrem] at hpass
          exact skip_whitespace_loop_stops fuel _ hw.2.2.2
            (by
              have hsrc := hw.1
              have hrem1 : (advance_while in_comment scanner.remaining scanner).remaining
                  = scanner.source.length
                    - (advance_while in_comment scanner.remaining scanner).current := by
                rw [Scanner.remaining, hsrc]
              rw [hrem1]
              unfold Scanner.remaining at hf
              omega)
        · rename_i hhash
          exact ⟨fun e => hws (Or.inl e), fun e => hws (Or.inr (Or.inl e)),
            fun e => hws (Or.inr (Or.inr e)), hnl, hhash⟩

theorem skip_whitespace_stops (scanner : Scanner)
    (h : scanner.current ≤ scanner.source.length) :
    (skip_whitespace scanner).peek ≠ ' ' ∧ (skip_whitespace scanner).peek ≠ '\r'
      ∧ (skip_whitespace scanner).peek ≠ '\t' ∧ (skip_whitespace scanner).peek ≠ '\n'
      ∧ (skip_whitespace scanner).peek ≠ '#' :=
  skip_whitespace_loop_stops _ scanner h (Nat.lt_succ_self _)

/-! ## One call of scan_token, step by step -/

theorem scan_token_eq (check_keyword : Scanner → Nat → Nat → String → TokenType → TokenType)
    (identifier_args : Scanner → Nat × Nat) (scanner : Scanner) :
    scan_token check_keyword identifier_args scanner
      = if is_at_end (token_start scanner) then
          (make_token (token_start scanner) TOKEN_EOF, token_start scanner)
        else scan_dispatch check_keyword identifier_args (token_start scanner).peek
          (advance (token_start scanner)).2 :=
  rfl

theorem token_start_peek (scanner : Scanner) :
    (token_start scanner).peek = (skip_whitespace scanner).peek :=
  rfl

theorem scan_dispatch_branch
    (check_keyword : Scanner → Nat → Nat → String → TokenType → TokenType)
    (identifier_args : Scanner → Nat × Nat) (c : Char) (scanner3 : Scanner)
    (h : scanner3.current ≤ scanner3.source.length) :
    Branch scanner3 (scan_dispatch check_keyword identifier_args c scanner3) := by
  unfold scan_dispatch
  repeat' (with_reducible apply branch_ite)
  all_goals first
    | exact branch_identifier check_keyword identifier_args _ h
    | exact branch_number _ h
    | exact branch_match _ _ _ _ h
    | exact branch_string _ h
    | exact branch_error_token _ h
    | exact branch_make_token _ _ h

theorem token_start_reaches (scanner : Scanner)
    (h : scanner.current ≤ scanner.source.length) :
    (token_start scanner).source = scanner.source
      ∧ scanner.current ≤ (token_start scanner).current
      ∧ (token_start scanner).current ≤ scanner.source.length
      ∧ (token_start scanner).start = (token_start scanner).current := by
  obtain ⟨h1, _, h3, h4⟩ := skip_whitespace_reaches scanner h
  exact ⟨h1, h3, h1 ▸ h4, rfl⟩

theorem scan_token_advances
    (check_keyword : Scanner → Nat → Nat → String → TokenType → TokenType)
    (identifier_args : Scanner → Nat × Nat) (scanner : Scanner)
    (h : scanner.current ≤ scanner.source.length)
    (hne : is_at_end (skip_whitespace scanner) = false) :
    (scan_token check_keyword identifier_args scanner).2.start
        = (skip_whitespace scanner).current
      ∧ (skip_whitespace scanner).current + 1
        ≤ (scan_token check_keyword identifier_args scanner).2.current
      ∧ (scan_token check_keyword identifier_args scanner).2.current
        ≤ scanner.source.length := by
  obtain ⟨t1, _, t3, _⟩ := token_start_reaches scanner h
  have hne1 : is_at_end (token_start scanner) = false := hne
  have hadv := advance_reaches _ (peek_ne_of_not_at_end _ hne1)
  rw [scan_token_eq, hne1]
  simp only [Bool.false_eq_true, if_false]
  obtain ⟨⟨k1, k2, k3, k4⟩, _⟩ := scan_dispatch_branch check_keyword identifier_args
    (token_start scanner).peek (advance (token_start scanner)).2 hadv.2.2.2
  obtain ⟨a1, a2, _, _⟩ := hadv
  refine ⟨k2.trans a2, k3, ?_⟩
  rw [← t1, ← a1, ← k1]
  exact k4

theorem scan_tokens_bounds
    (check_keyword : Scanner → Nat → Nat → String → TokenType → TokenType)
    (identifier_args : Scanner → Nat × Nat) :
    ∀ (n : Nat) (scanner : Scanner), scanner.current ≤ scanner.source.length →
      NUL ∉ scanner.source →
      (scan_tokens check_keyword identifier_args n scanner).source = scanner.source
        ∧ (scan_tokens check_keyword identifier_args n scanner).current
          ≤ scanner.source.length
        ∧ (scanner.current + n
            ≤ (scan_tokens check_keyword identifier_args n scanner).current
          ∨ (scan_tokens check_keyword identifier_args n scanner).current
            = scanner.source.length)
  | 0, scanner, h, _ => ⟨rfl, h, Or.inl (Nat.le_refl _)⟩
  | n + 1, scanner, h, hn => by
    obtain ⟨e1, e2, e3, _, e5⟩ := scan_token_spec check_keyword identifier_args scanner h
    have ih := scan_tokens_bounds check_keyword identifier_args n
      (scan_token check_keyword identifier_args scanner).2 (by rw [e1]; exact e3)
      (by rw [e1]; exact hn)
    rw [e1] at ih
    obtain ⟨i1, i2, i3⟩ := ih
    refine ⟨i1, i2, ?_⟩
    show scanner.current + (n + 1)
        ≤ (scan_tokens check_keyword identifier_args n
            (scan_token check_keyword identifier_args scanner).2).current
      ∨ (scan_tokens check_keyword identifier_args n
            (scan_token check_keyword identifier_args scanner).2).current
          = scanner.source.length
    rcases e5 with ⟨hsc, hpk, _⟩ | hlt
    · have hlen := length_le_of_peek_NUL _ (by rw [e1]; exact hn) hpk
      rw [e1] at hlen
      rcases i3 with i3 | i3
      · right; omega
      · right; exact i3
    · rcases i3 with i3 | i3
      · left; omega
      · right; exact i3

/-- C14: for every source (without NUL), every call of scan_token of a
run made while something other than whitespace and comments remains moves
the position forward by at least one character and not beyond the end of
the input; after length(source) calls the position is the end of the
input, and from then on every call returns the end-of-input token made by
make_token, with no character, and leaves the position where it is. -/
theorem scan_token_terminates
    (check_keyword : Scanner → Nat → Nat → String → TokenType → TokenType)
    (identifier_args : Scanner → Nat × Nat) (source : List Char) (hn : NUL ∉ source) :
    (∀ n : Nat,
        (scan_tokens check_keyword identifier_args n (init_scanner source)).current
          ≤ source.length
        ∧ (is_at_end (skip_whitespace
              (scan_tokens check_keyword identifier_args n (init_scanner source))) = false →
            (scan_tokens check_keyword identifier_args n (init_scanner source)).current + 1
              ≤ (scan_token check_keyword identifier_args
                  (scan_tokens check_keyword identifier_args n (init_scanner source))).2.current
            ∧ (scan_token check_keyword identifier_args
                  (scan_tokens check_keyword identifier_args n (init_scanner source))).2.current
              ≤ source.length))
      ∧ (scan_tokens check_keyword identifier_args source.length
          (init_scanner source)).current = source.length
      ∧ ∀ n : Nat, source.length ≤ n →
        (scan_token check_keyword identifier_args
            (scan_tokens check_keyword identifier_args n (init_scanner source))).1
          = make_token (scan_token check_keyword identifier_args
              (scan_tokens check_keyword identifier_args n (init_scanner source))).2 TOKEN_EOF
        ∧ (scan_token check_keyword identifier_args
            (scan_tokens check_keyword identifier_args n (init_scanner source))).1.is_end = true
        ∧ (scan_token check_keyword identifier_args
            (scan_tokens check_keyword identifier_args n (init_scanner source))).2.current
          = (scan_tokens check_keyword identifier_args n (init_scanner source)).current
        ∧ (scan_tokens check_keyword identifier_args n (init_scanner source)).current
          = source.length := by
  have hb := fun n => scan_tokens_bounds check_keyword identifier_args n
    (init_scanner source) (Nat.zero_le _) hn
  refine ⟨?_, ?_, ?_⟩
  · intro n
    obtain ⟨b1, b2, _⟩ := hb n
    refine ⟨b2, ?_⟩
    intro hne
    have hin : (scan_tokens check_keyword identifier_args n (init_scanner source)).current
        ≤ (scan_tokens check_keyword identifier_args n (init_scanner source)).source.length := by
      rw [b1]; exact b2
    obtain ⟨_, a2, a3⟩ := scan_token_advances check_keyword identifier_args _ hin hne
    have hsk := (skip_whitespace_reaches _ hin).2.2.1
    rw [b1] at a3
    exact ⟨by omega, a3⟩
  · obtain ⟨_, b2, b3⟩ := hb source.length
    have h0 : (init_scanner source).current = 0 := rfl
    have hl : (init_scanner source).source.length = source.length := rfl
    omega
  · intro n hle
    obtain ⟨b1, b2, b3⟩ := hb n
    have h0 : (init_scanner source).current = 0 := rfl
    have hl : (init_scanner source).source.length = source.length := rfl
    have hcur : (scan_tokens check_keyword identifier_args n (init_scanner source)).current
        = source.length := by omega
    have hpk : (scan_tokens check_keyword identifier_args n (init_scanner source)).peek
        = NUL :=
      char_at_of_length_le _ _ (by rw [b1, hcur]; exact Nat.le_refl _)
    rw [scan_token_at_end check_keyword identifier_args _ hpk]
    refine ⟨rfl, ?_, rfl, hcur⟩
    simp [Token.is_end, make_token]

/-! ## Operators with a one-character lookahead -/

theorem scan_dispatch_operator
    (check_keyword : Scanner → Nat → Nat → String → TokenType → TokenType)
    (identifier_args : Scanner → Nat × Nat) (c second : Char) (two one : TokenType)
    (scanner3 : Scanner) (hop : two_char_operator c = some (second, two, one)) :
    scan_dispatch check_keyword identifier_args c scanner3
        = make_token_match scanner3 second two one
      ∧ second ≠ NUL := by
  unfold two_char_operator at hop
  split at hop
  · rename_i hc
    simp only [Option.some.injEq, Prod.mk.injEq] at hop
    obtain ⟨rfl, rfl, rfl⟩ := hop
    subst hc
    exact ⟨rfl, by decide⟩
  · split at hop
    · rename_i hc
      simp only [Option.some.injEq, Prod.mk.injEq] at hop
      obtain ⟨rfl, rfl, rfl⟩ := hop
      subst hc
      exact ⟨rfl, by decide⟩
    · split at hop
      · rename_i hc
        simp only [Option.some.injEq, Prod.mk.injEq] at hop
        obtain ⟨rfl, rfl, rfl⟩ := hop
        subst hc
        exact ⟨rfl, by decide⟩
      · split at hop
        · rename_i hc
          simp only [Option.some.injEq, Prod.mk.injEq] at hop
          obtain ⟨rfl, rfl, rfl⟩ := hop
          subst hc
          exact ⟨rfl, by decide⟩
        · split at hop
          · rename_i hc
            simp only [Option.some.injEq, Prod.mk.injEq] at hop
            obtain ⟨rfl, rfl, rfl⟩ := hop
            subst hc
            exact ⟨rfl, by decide⟩
          · exact absurd hop (by simp)

theorem two_char_operator_NUL : two_char_operator NUL = none := by decide

/-- C13: when the first character after the skipped text is one of the
operators of the table (=, !, <, > extended by =, and * extended by *),
scan_token returns the two-character token, of length 2, and passes both
characters when the next character is the extending one; in every other
case, the end of the input included, it returns the one-character token,
of length 1, and passes the operator only. -/
theorem operator_lookahead
    (check_keyword : Scanner → Nat → Nat → String → TokenType → TokenType)
    (identifier_args : Scanner → Nat × Nat) (scanner : Scanner)
    (second : Char) (two one : TokenType)
    (hop : two_char_operator (skip_whitespace scanner).peek = some (second, two, one)) :
    ((skip_whitespace scanner).char_at ((skip_whitespace scanner).current + 1) = second →
        (scan_token check_keyword identifier_args scanner).1.type = two
        ∧ (scan_token check_keyword identifier_args scanner).1.length = 2
        ∧ (scan_token check_keyword identifier_args scanner).2.start
          = (skip_whitespace scanner).current
        ∧ (scan_token check_keyword identifier_args scanner).2.current
          = (skip_whitespace scanner).current + 2)
      ∧ ((skip_whitespace scanner).char_at ((skip_whitespace scanner).current + 1) ≠ second →
        (scan_token check_keyword identifier_args scanner).1.type = one
        ∧ (scan_token check_keyword identifier_args scanner).1.length = 1
        ∧ (scan_token check_keyword identifier_args scanner).2.start
          = (skip_whitespace scanner).current
        ∧ (scan_token check_keyword identifier_args scanner).2.current
          = (skip_whitespace scanner).current + 1) := by
  have hne : (skip_whitespace scanner).peek ≠ NUL := by
    intro h0
    rw [h0, two_char_operator_NUL] at hop
    exact absurd hop (by simp)
  have hend : is_at_end (token_start scanner) = false := by
    simpa [is_at_end, token_start_peek] using hne
  obtain ⟨hd, hsec⟩ := scan_dispatch_operator check_keyword identifier_args _ second two one
    (advance (token_start scanner)).2 hop
  rw [scan_token_eq, hend]
  simp only [Bool.false_eq_true, if_false]
  rw [token_start_peek, hd]
  have hpk3 : (advance (token_start scanner)).2.peek
      = (skip_whitespace scanner).char_at ((skip_whitespace scanner).current + 1) := rfl
  unfold make_token_match match_char
  constructor
  · intro heq
    have hpk : (advance (token_start scanner)).2.peek = second := hpk3.trans heq
    have hend3 : is_at_end (advance (token_start scanner)).2 = false := by
      simp [is_at_end, hpk, hsec]
    simp only [hend3, Bool.false_eq_true, if_false, hpk, ne_eq, not_true_eq_false, if_true]
    refine ⟨rfl, ?_, rfl, rfl⟩
    simp only [make_token, advance, token_start]
    omega
  · intro hneq
    have hpk : (advance (token_start scanner)).2.peek ≠ second := fun e => hneq (hpk3 ▸ e)
    by_cases hend3 : is_at_end (advance (token_start scanner)).2 = true
    · simp only [hend3, if_true]
      refine ⟨rfl, ?_, rfl, rfl⟩
      simp [make_token, advance, token_start]
    · simp only [hend3, Bool.false_eq_true, if_false, hpk, ne_eq, not_false_eq_true, if_true]
      refine ⟨rfl, ?_, rfl, rfl⟩
      simp [make_token, advance, token_start]

/-- Witness of C13: the source made of an equals sign alone, the operator
being the last character of the input. -/
theorem operator_lookahead_witness :
    two_char_operator (skip_whitespace (init_scanner ['='])).peek
        = some ('=', TOKEN_EQUAL_EQUAL, TOKEN_EQUAL)
      ∧ ((skip_whitespace (init_scanner ['='])).char_at
            ((skip_whitespace (init_scanner ['='])).current + 1) ≠ '=' →
          (scan_token sample_check_keyword sample_identifier_args
              (init_scanner ['='])).1.type = TOKEN_EQUAL
          ∧ (scan_token sample_check_keyword sample_identifier_args
              (init_scanner ['='])).1.length = 1
          ∧ (scan_token sample_check_keyword sample_identifier_args
              (init_scanner ['='])).2.start = (skip_whitespace (init_scanner ['='])).current
          ∧ (scan_token sample_check_keyword sample_identifier_args
              (init_scanner ['='])).2.current
            = (skip_whitespace (init_scanner ['='])).current + 1) :=
  ⟨by decide, (operator_lookahead sample_check_keyword sample_identifier_args
    (init_scanner ['=']) '=' TOKEN_EQUAL_EQUAL TOKEN_EQUAL (by decide)).2⟩

/-- Witness of C14: the source made of the identifier ab. -/
theorem scan_token_terminates_witness :
    NUL ∉ ['a', 'b']
      ∧ (scan_tokens sample_check_keyword sample_identifier_args ['a', 'b'].length
          (init_scanner ['a', 'b'])).current = ['a', 'b'].length :=
  ⟨by decide, (scan_token_terminates sample_check_keyword sample_identifier_args
    ['a', 'b'] (by decide)).2.1⟩

/-! ## Numeric literals -/

theorem char_at_eq_head (scanner : Scanner) (i : Nat) :
    scanner.char_at i = (scanner.source.drop i).headD NUL := by
  unfold Scanner.char_at
  by_cases h : i < scanner.source.length
  · rw [List.drop_eq_getElem_cons h]
    simp [List.getElem?_eq_getElem h]
  · have h1 : scanner.source.length ≤ i := Nat.le_of_not_lt h
    rw [List.drop_eq_nil_of_le h1, List.getD_eq_default _ _ h1]
    rfl

theorem advance_while_eq (p : Char → Bool) (hp : p NUL = false) :
    ∀ (fuel : Nat) (scanner : Scanner), scanner.current ≤ scanner.source.length →
      scanner.remaining ≤ fuel →
      advance_while p fuel scanner = ⟨scanner.source, scanner.start,
        scanner.current + ((scanner.source.drop scanner.current).takeWhile p).length,
        scanner.line⟩
  | 0, ⟨source, start, current, line⟩, h, hf => by
    have hc : source.length ≤ current := by
      simp only [Scanner.remaining] at hf; omega
    simp [advance_while, List.drop_eq_nil_of_le hc]
  | fuel + 1, ⟨source, start, current, line⟩, h, hf => by
    unfold advance_while
    simp only [Scanner.remaining] at hf h
    by_cases hlt : current < source.length
    · have hd : source.drop current = source[current] :: source.drop (current + 1) :=
        List.drop_eq_getElem_cons hlt
      have hpk : (⟨source, start, current, line⟩ : Scanner).peek = source[current] := by
        simp [Scanner.peek, Scanner.char_at, List.getElem?_eq_getElem hlt]
      rw [hpk]
      by_cases hpc : p source[current] = true
      · rw [if_pos hpc]
        have ih := advance_while_eq p hp fuel (advance ⟨source, start, current, line⟩).2 hlt
          (by simp only [Scanner.remaining, advance]; omega)
        rw [ih]
        simp only [advance, hd, List.takeWhile_cons, hpc, if_true, List.length_cons,
          Scanner.mk.injEq, true_and, and_true]
        omega
      · rw [if_neg hpc]
        simp only [hd, List.takeWhile_cons, hpc]
        simp
    · have hc : source.length ≤ current := Nat.le_of_not_lt hlt
      have hpk : (⟨source, start, current, line⟩ : Scanner).peek = NUL :=
        char_at_of_length_le _ _ hc
      rw [hpk, hp]
      simp [List.drop_eq_nil_of_le hc]

theorem take_length_takeWhile (p : Char → Bool) (l : List Char) :
    l.take (l.takeWhile p).length = l.takeWhile p := by
  induction l with
  | nil => rfl
  | cons c l ih =>
    by_cases h : p c = true
    · simp [List.takeWhile_cons, h, ih]
    · simp [List.takeWhile_cons, h]

theorem drop_length_takeWhile (p : Char → Bool) (l : List Char) :
    l.drop (l.takeWhile p).length = l.dropWhile p := by
  induction l with
  | nil => rfl
  | cons c l ih =>
    by_cases h : p c = true
    · simp [List.takeWhile_cons, List.dropWhile_cons, h, ih]
    · simp [List.takeWhile_cons, List.dropWhile_cons, h]

theorem is_digit_not_alpha (c : Char) (h : is_digit c = true) : is_alpha c = false := by
  unfold is_digit at h
  unfold is_alpha
  simp only [Bool.and_eq_true, decide_eq_true_eq] at h
  obtain ⟨_, h2⟩ := h
  have ha : ¬ 'a' ≤ c := fun h3 => absurd (Char.le_trans h3 h2) (by decide)
  have hA : ¬ 'A' ≤ c := fun h3 => absurd (Char.le_trans h3 h2) (by decide)
  have hu : c ≠ '_' := fun h3 => absurd (h3 ▸ h2) (by decide)
  simp [ha, hA, hu]

theorem scan_dispatch_digit
    (check_keyword : Scanner → Nat → Nat → String → TokenType → TokenType)
    (identifier_args : Scanner → Nat × Nat) (c : Char) (scanner3 : Scanner)
    (h : is_digit c = true) :
    scan_dispatch check_keyword identifier_args c scanner3 = number scanner3 := by
  unfold scan_dispatch
  rw [if_neg (by simp [is_digit_not_alpha c h]), if_pos h]

theorem number_literal_cons (c : Char) (rest : List Char) (hc : is_digit c = true) :
    number_literal (c :: rest)
      = match rest.dropWhile is_digit with
        | x :: d :: more =>
          if x = '.' ∧ is_digit d = true then
            c :: (rest.takeWhile is_digit ++ x :: (d :: more).takeWhile is_digit)
          else c :: rest.takeWhile is_digit
        | _ => c :: rest.takeWhile is_digit := by
  unfold number_literal
  simp only [List.takeWhile_cons, List.dropWhile_cons, hc, if_true]
  split <;> simp_all

theorem number_literal_prefix (chars : List Char) :
    ∃ more, number_literal chars ++ more = chars := by
  have hsplit := List.takeWhile_append_dropWhile is_digit chars
  unfold number_literal
  simp only []
  split
  · rename_i c d rest hm
    split
    · refine ⟨(d :: rest).dropWhile is_digit, ?_⟩
      rw [List.append_assoc, List.cons_append,
        List.takeWhile_append_dropWhile is_digit (d :: rest), ← hm]
      exact hsplit
    · exact ⟨_, hsplit⟩
  · exact ⟨_, hsplit⟩

theorem number_literal_take (chars : List Char) :
    chars.take (number_literal chars).length = number_literal chars := by
  obtain ⟨more, h⟩ := number_literal_prefix chars
  generalize number_literal chars = r at h ⊢
  subst h
  simp

theorem number_eq (source : List Char) (p : Nat) (line : Int) (c : Char) (rest : List Char)
    (hd : source.drop p = c :: rest) (hc : is_digit c = true) :
    number ⟨source, p, p + 1, line⟩
      = (make_token ⟨source, p, p + (number_literal (c :: rest)).length, line⟩ TOKEN_NUMBER,
        ⟨source, p, p + (number_literal (c :: rest)).length, line⟩) := by
  have hp : p < source.length := by
    by_contra hlt
    rw [List.drop_eq_nil_of_le (Nat.le_of_not_lt hlt)] at hd
    exact absurd hd (by simp)
  have hd1 : source.drop (p + 1) = rest := by
    have := congrArg List.tail hd
    simpa [List.tail_drop] using this
  have hm : source.drop (p + 1 + (rest.takeWhile is_digit).length)
      = rest.dropWhile is_digit := by
    rw [← List.drop_drop, hd1, drop_length_takeWhile]
  have hm1 : source.drop (p + 1 + (rest.takeWhile is_digit).length + 1)
      = (rest.dropWhile is_digit).drop 1 := by
    rw [← List.drop_drop, hm]
  have h1 : advance_while is_digit (Scanner.remaining ⟨source, p, p + 1, line⟩)
      ⟨source, p, p + 1, line⟩
      = ⟨source, p, p + 1 + (rest.takeWhile is_digit).length, line⟩ := by
    rw [advance_while_eq is_digit is_digit_NUL _ ⟨source, p, p + 1, line⟩ hp (Nat.le_refl _)]
    simp only [hd1]
  unfold number
  simp only [h1]
  have hpk : (⟨source, p, p + 1 + (rest.takeWhile is_digit).length, line⟩ : Scanner).peek
      = (rest.dropWhile is_digit).headD NUL := by
    rw [Scanner.peek, char_at_eq_head]
    simp only [hm]
  have hpk1 : (⟨source, p, p + 1 + (rest.takeWhile is_digit).length, line⟩ : Scanner).char_at
      (p + 1 + (rest.takeWhile is_digit).length + 1)
      = ((rest.dropWhile is_digit).drop 1).headD NUL := by
    rw [char_at_eq_head]
    simp only [hm1]
  rw [hpk, hpk1, number_literal_cons c rest hc]
  cases hcase : rest.dropWhile is_digit with
  | nil =>
    have h0 : ¬ ((([] : List Char).headD NUL = '.')
        ∧ is_digit ((([] : List Char).drop 1).headD NUL) = true) := by
      intro h; exact absurd h.1 (by decide)
    rw [if_neg h0]
    simp only [List.length_cons]
    have e : p + 1 + (rest.takeWhile is_digit).length
        = p + ((rest.takeWhile is_digit).length + 1) := by omega
    rw [e]
  | cons x more =>
    cases more with
    | nil =>
      have h0 : ¬ (([x] : List Char).headD NUL = '.'
          ∧ is_digit ((([x] : List Char).drop 1).headD NUL) = true) := by
        intro h; exact absurd h.2 (by simp [is_digit_NUL])
      rw [if_neg h0]
      simp only [List.length_cons]
      have e : p + 1 + (rest.takeWhile is_digit).length
          = p + ((rest.takeWhile is_digit).length + 1) := by omega
      rw [e]
    | cons d more =>
      simp only [List.headD_cons, List.drop_succ_cons, List.drop_zero]
      by_cases hcond : x = '.' ∧ is_digit d = true
      · rw [if_pos hcond, if_pos hcond]
        have hd2 : source.drop (p + 1 + (rest.takeWhile is_digit).length + 1) = d :: more := by
          rw [hm1, hcase]; rfl
        have hlen : p + 1 + (rest.takeWhile is_digit).length + 1 ≤ source.length := by
          by_contra hlt
          rw [List.drop_eq_nil_of_le (by omega)] at hd2
          exact absurd hd2 (by simp)
        have h2 := advance_while_eq is_digit is_digit_NUL
          (Scanner.remaining ⟨source, p, p + 1 + (rest.takeWhile is_digit).length, line⟩)
          (advance ⟨source, p, p + 1 + (rest.takeWhile is_digit).length, line⟩).2 hlen
          (by simp only [Scanner.remaining, advance]; omega)
        rw [h2]
        simp only [advance, hd2, List.length_cons, List.length_append]
        have e : p + 1 + (rest.takeWhile is_digit).length + 1
              + ((d :: more).takeWhile is_digit).length
            = p + ((rest.takeWhile is_digit).length
              + (((d :: more).takeWhile is_digit).length + 1) + 1) := by omega
        rw [e]
      · rw [if_neg hcond, if_neg hcond]
        simp only [List.length_cons]
        have e : p + 1 + (rest.takeWhile is_digit).length
            = p + ((rest.takeWhile is_digit).length + 1) := by omega
        rw [e]

/-- C12: when the first character after the skipped text is a digit,
scan_token returns a token of type TOKEN_NUMBER whose lexeme is the
numeric literal at that place as the specification describes it (the
digits, then a point and digits only when a digit follows the point), and
the scanner stops right after it. -/
theorem number_token_longest
    (check_keyword : Scanner → Nat → Nat → String → TokenType → TokenType)
    (identifier_args : Scanner → Nat × Nat) (scanner : Scanner)
    (h : scanner.current ≤ scanner.source.length)
    (hdigit : is_digit (skip_whitespace scanner).peek = true) :
    (scan_token check_keyword identifier_args scanner).1.type = TOKEN_NUMBER
      ∧ (scan_token check_keyword identifier_args scanner).1.lexeme
        = number_literal (scanner.source.drop (skip_whitespace scanner).current)
      ∧ (scan_token check_keyword identifier_args scanner).2.start
        = (skip_whitespace scanner).current
      ∧ (scan_token check_keyword identifier_args scanner).2.current
        = (skip_whitespace scanner).current
          + (number_literal (scanner.source.drop (skip_whitespace scanner).current)).length := by
  have hsrc : (skip_whitespace scanner).source = scanner.source :=
    (skip_whitespace_reaches scanner h).1
  have hne : (skip_whitespace scanner).peek ≠ NUL := by
    intro h0
    rw [h0, is_digit_NUL] at hdigit
    exact Bool.false_ne_true hdigit
  have hlt := lt_length_of_peek_ne _ hne
  have hend : is_at_end (token_start scanner) = false := by
    simpa [is_at_end, token_start_peek] using hne
  have hpk : (skip_whitespace scanner).peek
      = (skip_whitespace scanner).source[(skip_whitespace scanner).current] := by
    simp [Scanner.peek, Scanner.char_at, List.getElem?_eq_getElem hlt]
  have hd : (skip_whitespace scanner).source.drop (skip_whitespace scanner).current
      = (skip_whitespace scanner).peek
        :: (skip_whitespace scanner).source.drop ((skip_whitespace scanner).current + 1) := by
    rw [hpk]
    exact List.drop_eq_getElem_cons hlt
  have hnum := number_eq (skip_whitespace scanner).source (skip_whitespace scanner).current
    (skip_whitespace scanner).line _ _ hd hdigit
  rw [scan_token_eq, hend]
  simp only [Bool.false_eq_true, if_false]
  rw [token_start_peek, scan_dispatch_digit _ _ _ _ hdigit]
  have hadv : (advance (token_start scanner)).2
      = ⟨(skip_whitespace scanner).source, (skip_whitespace scanner).current,
        (skip_whitespace scanner).current + 1, (skip_whitespace scanner).line⟩ := rfl
  rw [hadv, hnum, ← hd, hsrc]
  refine ⟨rfl, ?_, rfl, rfl⟩
  simp only [Token.lexeme, make_token, Nat.add_sub_cancel_left]
  exact number_literal_take _

/-- Witness of C12: the source 1.2.3, whose first token is the number 1.2. -/
theorem number_token_longest_witness :
    (init_scanner ['1', '.', '2', '.', '3']).current
        ≤ (init_scanner ['1', '.', '2', '.', '3']).source.length
      ∧ is_digit (skip_whitespace (init_scanner ['1', '.', '2', '.', '3'])).peek = true
      ∧ (scan_token sample_check_keyword sample_identifier_args
          (init_scanner ['1', '.', '2', '.', '3'])).1.lexeme
        = number_literal ((init_scanner ['1', '.', '2', '.', '3']).source.drop
            (skip_whitespace (init_scanner ['1', '.', '2', '.', '3'])).current) :=
  ⟨by decide, by decide,
    (number_token_longest sample_check_keyword sample_identifier_args
      (init_scanner ['1', '.', '2', '.', '3']) (by decide) (by decide)).2.1⟩

/-- The sources the specification names for numbers: 1. scans as the
number 1 and a point, 1.2.3 as the number 1.2, a point and the number 3,
and neither an exponent nor an underscore is taken into a literal. -/
theorem number_examples :
    (scan_all sample_check_keyword sample_identifier_args 3 (init_scanner ['1', '.'])).map
        (fun step => (step.token.type, step.token.lexeme))
      = [(TOKEN_NUMBER, ['1']), (TOKEN_DOT, ['.']), (TOKEN_EOF, [])]
    ∧ (scan_all sample_check_keyword sample_identifier_args 6
          (init_scanner ['1', '.', '2', '.', '3'])).map
        (fun step => (step.token.type, step.token.lexeme))
      = [(TOKEN_NUMBER, ['1', '.', '2']), (TOKEN_DOT, ['.']), (TOKEN_NUMBER, ['3']),
        (TOKEN_EOF, [])]
    ∧ number_literal ['1', 'e', '5'] = ['1']
    ∧ number_literal ['1', '_', '0'] = ['1']
    ∧ number_literal ['1', '.', '2', '.', '3'] = ['1', '.', '2']
    ∧ number_literal ['1', '.'] = ['1'] := by
  decide

/-! ## Scanning behind a prefix -/

theorem shift_char_at (pre : List Char) (lines : Int) (start : Nat) (scanner : Scanner)
    (i : Nat) :
    (scanner.shift pre lines start).char_at (i + pre.length) = scanner.char_at i := by
  unfold Scanner.char_at Scanner.shift
  simp only [List.getD_eq_getElem?_getD]
  rw [List.getElem?_append_right (Nat.le_add_left _ _), Nat.add_sub_cancel]

theorem shift_peek (pre : List Char) (lines : Int) (start : Nat) (scanner : Scanner) :
    (scanner.shift pre lines start).peek = scanner.peek :=
  shift_char_at pre lines start scanner scanner.current

theorem shift_remaining (pre : List Char) (lines : Int) (start : Nat) (scanner : Scanner) :
    (scanner.shift pre lines start).remaining = scanner.remaining := by
  simp only [Scanner.remaining, Scanner.shift, List.length_append]
  omega

theorem shift_is_at_end (pre : List Char) (lines : Int) (start : Nat) (scanner : Scanner) :
    is_at_end (scanner.shift pre lines start) = is_at_end scanner := by
  simp only [is_at_end, shift_peek]

theorem shift_advance (pre : List Char) (lines : Int) (start : Nat) (scanner : Scanner) :
    (advance (scanner.shift pre lines start)).2 = (advance scanner).2.shift pre lines start := by
  simp only [advance, Scanner.shift, Scanner.mk.injEq, true_and, and_true]
  omega

theorem shift_advance_while (p : Char → Bool) (pre : List Char) (lines : Int) (start : Nat) :
    ∀ (fuel : Nat) (scanner : Scanner),
      advance_while p fuel (scanner.shift pre lines start)
        = (advance_while p fuel scanner).shift pre lines start
  | 0, _ => rfl
  | fuel + 1, scanner => by
    unfold advance_while
    rw [shift_peek]
    split
    · rw [shift_advance]
      exact shift_advance_while p pre lines start fuel _
    · rfl

theorem shift_skip_whitespace_loop (pre : List Char) (lines : Int) (start : Nat) :
    ∀ (fuel : Nat) (scanner : Scanner),
      skip_whitespace_loop fuel (scanner.shift pre lines start)
        = (skip_whitespace_loop fuel scanner).shift pre lines start
  | 0, _ => rfl
  | fuel + 1, scanner => by
    unfold skip_whitespace_loop
    simp only [shift_peek]
    split
    · rw [shift_advance]
      exact shift_skip_whitespace_loop pre lines start fuel _
    · split
      · have e : (advance (⟨(scanner.shift pre lines start).source,
              (scanner.shift pre lines start).start, (scanner.shift pre lines start).current,
              (scanner.shift pre lines start).line + 1⟩ : Scanner)).2
            = (advance (⟨scanner.source, scanner.start, scanner.current,
                scanner.line + 1⟩ : Scanner)).2.shift pre lines start := by
          simp only [advance, Scanner.shift, Scanner.mk.injEq, true_and]
          omega
        rw [e]
        exact shift_skip_whitespace_loop pre lines start fuel _
      · split
        · rw [shift_remaining, shift_advance_while]
          exact shift_skip_whitespace_loop pre lines start fuel _
        · rfl

theorem shift_skip_whitespace (pre : List Char) (lines : Int) (start : Nat)
    (scanner : Scanner) :
    skip_whitespace (scanner.shift pre lines start)
      = (skip_whitespace scanner).shift pre lines start := by
  unfold skip_whitespace
  rw [shift_remaining]
  exact shift_skip_whitespace_loop pre lines start _ scanner

theorem shift_string_loop (pre : List Char) (lines : Int) (start : Nat) :
    ∀ (fuel : Nat) (scanner : Scanner),
      string_loop fuel (scanner.shift pre lines start)
        = (string_loop fuel scanner).shift pre lines start
  | 0, _ => rfl
  | fuel + 1, scanner => by
    unfold string_loop
    simp only [shift_peek, shift_is_at_end]
    split
    · have e : (advance (⟨(scanner.shift pre lines start).source,
            (scanner.shift pre lines start).start, (scanner.shift pre lines start).current,
            if scanner.peek = '\n' then (scanner.shift pre lines start).line + 1
            else (scanner.shift pre lines start).line⟩ : Scanner)).2
          = (advance (⟨scanner.source, scanner.start, scanner.current,
              if scanner.peek = '\n' then scanner.line + 1 else scanner.line⟩
              : Scanner)).2.shift pre lines start := by
        simp only [advance, Scanner.shift, Scanner.mk.injEq, true_and]
        split <;> omega
      rw [e]
      exact shift_string_loop pre lines start fuel _
    · rfl

theorem moved_make_token (pre : List Char) (lines : Int) (scanner : Scanner)
    (type : TokenType) :
    make_token (scanner.moved pre lines) type = (make_token scanner type).shift_line lines := by
  simp only [make_token, Scanner.moved, Scanner.shift, Token.shift_line, Token.mk.injEq,
    true_and, and_true]
  constructor
  · rw [Nat.add_comm, ← List.drop_drop]
    simp
  · omega

theorem moved_error_token (pre : List Char) (lines : Int) (scanner : Scanner)
    (message : String) :
    error_token (scanner.moved pre lines) message
      = (error_token scanner message).shift_line lines :=
  rfl

theorem advance_while_start (p : Char → Bool) :
    ∀ (fuel : Nat) (scanner : Scanner),
      (advance_while p fuel scanner).start = scanner.start
  | 0, _ => rfl
  | fuel + 1, scanner => by
    unfold advance_while
    split
    · exact advance_while_start p fuel _
    · rfl

theorem string_loop_start :
    ∀ (fuel : Nat) (scanner : Scanner), (string_loop fuel scanner).start = scanner.start
  | 0, _ => rfl
  | fuel + 1, scanner => by
    unfold string_loop
    split
    · exact string_loop_start fuel _
    · rfl

theorem moved_eq_shift (pre : List Char) (lines : Int) (a b : Scanner)
    (h : b.start = a.start) :
    b.shift pre lines (a.start + pre.length) = b.moved pre lines := by
  unfold Scanner.moved
  rw [h]

theorem moved_advance (pre : List Char) (lines : Int) (scanner : Scanner) :
    (advance (scanner.moved pre lines)).2 = (advance scanner).2.moved pre lines :=
  shift_advance pre lines _ scanner

theorem moved_peek (pre : List Char) (lines : Int) (scanner : Scanner) :
    (scanner.moved pre lines).peek = scanner.peek :=
  shift_peek pre lines _ scanner

theorem moved_is_at_end (pre : List Char) (lines : Int) (scanner : Scanner) :
    is_at_end (scanner.moved pre lines) = is_at_end scanner :=
  shift_is_at_end pre lines _ scanner

theorem moved_remaining (pre : List Char) (lines : Int) (scanner : Scanner) :
    (scanner.moved pre lines).remaining = scanner.remaining :=
  shift_remaining pre lines _ scanner

theorem moved_advance_while (p : Char → Bool) (pre : List Char) (lines : Int)
    (fuel : Nat) (scanner : Scanner) :
    advance_while p fuel (scanner.moved pre lines)
      = (advance_while p fuel scanner).moved pre lines := by
  unfold Scanner.moved
  rw [shift_advance_while, advance_while_start]

theorem moved_string (pre : List Char) (lines : Int) (scanner : Scanner) :
    string (scanner.moved pre lines)
      = ((string scanner).1.shift_line lines, (string scanner).2.moved pre lines) := by
  have hl : string_loop (scanner.moved pre lines).remaining (scanner.moved pre lines)
      = (string_loop scanner.remaining scanner).moved pre lines := by
    rw [moved_remaining]
    unfold Scanner.moved
    rw [shift_string_loop, string_loop_start]
  unfold string
  simp only [hl, moved_is_at_end]
  split
  · rw [moved_error_token]
  · rw [moved_advance, moved_make_token]

theorem moved_number (pre : List Char) (lines : Int) (scanner : Scanner) :
    number (scanner.moved pre lines)
      = ((number scanner).1.shift_line lines, (number scanner).2.moved pre lines) := by
  have hc : ∀ sc : Scanner, (sc.moved pre lines).char_at ((sc.moved pre lines).current + 1)
      = sc.char_at (sc.current + 1) := by
    intro sc
    have := shift_char_at pre lines (sc.start + pre.length) sc (sc.current + 1)
    have e : (sc.moved pre lines).current + 1 = sc.current + 1 + pre.length := by
      simp only [Scanner.moved, Scanner.shift]; omega
    rw [e]
    exact this
  unfold number
  simp only [moved_remaining, moved_advance_while, moved_peek, hc]
  split
  · simp only [moved_advance, moved_remaining, moved_advance_while, moved_make_token]
  · simp only [moved_make_token]

theorem moved_make_token_match (pre : List Char) (lines : Int) (scanner : Scanner)
    (expected : Char) (two one : TokenType) :
    make_token_match (scanner.moved pre lines) expected two one
      = ((make_token_match scanner expected two one).1.shift_line lines,
        (make_token_match scanner expected two one).2.moved pre lines) := by
  unfold make_token_match match_char
  simp only [moved_is_at_end, moved_peek]
  split
  · simp only [moved_make_token]
  · split
    · simp only [moved_make_token]
    · have e : (⟨(scanner.moved pre lines).source, (scanner.moved pre lines).start,
            (scanner.moved pre lines).current + 1, (scanner.moved pre lines).line⟩ : Scanner)
          = (⟨scanner.source, scanner.start, scanner.current + 1, scanner.line⟩
              : Scanner).moved pre lines := by
        simp only [Scanner.moved, Scanner.shift, Scanner.mk.injEq, true_and, and_true]
        omega
      simp only [e, moved_make_token]

theorem moved_identifier_type
    (check_keyword : Scanner → Nat → Nat → String → TokenType → TokenType)
    (hck : PositionIndependent check_keyword) (pre : List Char) (lines : Int)
    (scanner : Scanner) (start length : Nat) :
    identifier_type check_keyword (scanner.moved pre lines) start length
      = identifier_type check_keyword scanner start length := by
  have hc : ∀ i : Nat, (scanner.moved pre lines).char_at ((scanner.moved pre lines).start + i)
      = scanner.char_at (scanner.start + i) := by
    intro i
    have := shift_char_at pre lines (scanner.start + pre.length) scanner (scanner.start + i)
    have e : (scanner.moved pre lines).start + i = scanner.start + i + pre.length := by
      simp only [Scanner.moved, Scanner.shift]; omega
    rw [e]
    exact this
  have hd : (scanner.moved pre lines).current - (scanner.moved pre lines).start
      = scanner.current - scanner.start := by
    simp only [Scanner.moved, Scanner.shift]; omega
  unfold identifier_type
  simp only [hc, hd, hck pre lines scanner]

theorem moved_identifier
    (check_keyword : Scanner → Nat → Nat → String → TokenType → TokenType)
    (identifier_args : Scanner → Nat × Nat)
    (hck : PositionIndependent check_keyword) (hargs : PositionIndependent identifier_args)
    (pre : List Char) (lines : Int) (scanner : Scanner) :
    identifier check_keyword identifier_args (scanner.moved pre lines)
      = ((identifier check_keyword identifier_args scanner).1.shift_line lines,
        (identifier check_keyword identifier_args scanner).2.moved pre lines) := by
  unfold identifier
  simp only [moved_remaining, moved_advance_while, moved_make_token,
    moved_identifier_type check_keyword hck, hargs pre lines _]

theorem moved_ite (pre : List Char) (lines : Int) {p : Prop} [Decidable p]
    {a b a1 b1 : Token × Scanner}
    (ha : a1 = (a.1.shift_line lines, a.2.moved pre lines))
    (hb : b1 = (b.1.shift_line lines, b.2.moved pre lines)) :
    (if p then a1 else b1)
      = ((if p then a else b).1.shift_line lines, (if p then a else b).2.moved pre lines) := by
  split
  · exact ha
  · exact hb

theorem moved_make_pair (pre : List Char) (lines : Int) (scanner : Scanner)
    (type : TokenType) :
    (make_token (scanner.moved pre lines) type, scanner.moved pre lines)
      = ((make_token scanner type, scanner).1.shift_line lines,
        (make_token scanner type, scanner).2.moved pre lines) :=
  Prod.ext (moved_make_token pre lines scanner type) rfl

theorem moved_error_pair (pre : List Char) (lines : Int) (scanner : Scanner)
    (message : String) :
    (error_token (scanner.moved pre lines) message, scanner.moved pre lines)
      = ((error_token scanner message, scanner).1.shift_line lines,
        (error_token scanner message, scanner).2.moved pre lines) :=
  rfl

theorem moved_scan_dispatch
    (check_keyword : Scanner → Nat → Nat → String → TokenType → TokenType)
    (identifier_args : Scanner → Nat × Nat)
    (hck : PositionIndependent check_keyword) (hargs : PositionIndependent identifier_args)
    (pre : List Char) (lines : Int) (c : Char) (scanner3 : Scanner) :
    scan_dispatch check_keyword identifier_args c (scanner3.moved pre lines)
      = ((scan_dispatch check_keyword identifier_args c scanner3).1.shift_line lines,
        (scan_dispatch check_keyword identifier_args c scanner3).2.moved pre lines) := by
  unfold scan_dispatch
  repeat' (with_reducible apply moved_ite pre lines)
  all_goals first
    | with_reducible exact moved_identifier check_keyword identifier_args hck hargs pre lines _
    | with_reducible exact moved_number pre lines scanner3
    | with_reducible exact moved_make_token_match pre lines scanner3 _ _ _
    | with_reducible exact moved_string pre lines scanner3
    | with_reducible exact moved_error_pair pre lines scanner3 _
    | with_reducible exact moved_make_pair pre lines scanner3 _

theorem shift_token_start (pre : List Char) (lines : Int) (start : Nat) (scanner : Scanner) :
    token_start (scanner.shift pre lines start) = (token_start scanner).moved pre lines := by
  unfold token_start
  rw [shift_skip_whitespace]
  rfl

theorem shift_scan_token
    (check_keyword : Scanner → Nat → Nat → String → TokenType → TokenType)
    (identifier_args : Scanner → Nat × Nat)
    (hck : PositionIndependent check_keyword) (hargs : PositionIndependent identifier_args)
    (pre : List Char) (lines : Int) (start : Nat) (scanner : Scanner) :
    scan_token check_keyword identifier_args (scanner.shift pre lines start)
      = ((scan_token check_keyword identifier_args scanner).1.shift_line lines,
        (scan_token check_keyword identifier_args scanner).2.moved pre lines) := by
  rw [scan_token_eq, scan_token_eq, shift_token_start, moved_is_at_end, moved_peek,
    moved_advance]
  split
  · rw [moved_make_token]
  · exact moved_scan_dispatch check_keyword identifier_args hck hargs pre lines _ _

/-! ## Skipping a prefix of blanks and comments -/

theorem skip_whitespace_loop_fuel :
    ∀ (fuel1 fuel2 : Nat) (scanner : Scanner), scanner.remaining < fuel1 →
      scanner.remaining < fuel2 →
      skip_whitespace_loop fuel1 scanner = skip_whitespace_loop fuel2 scanner
  | 0, _, _, h1, _ => absurd h1 (Nat.not_lt_zero _)
  | _ + 1, 0, _, _, h2 => absurd h2 (Nat.not_lt_zero _)
  | fuel1 + 1, fuel2 + 1, scanner, h1, h2 => by
    unfold skip_whitespace_loop
    simp only []
    split
    · rename_i hc
      have hne : scanner.peek ≠ NUL := by
        rcases hc with hc | hc | hc <;> rw [hc] <;> decide
      have hlt := lt_length_of_peek_ne scanner hne
      exact skip_whitespace_loop_fuel fuel1 fuel2 _
        (by simp only [Scanner.remaining, advance] at h1 ⊢; omega)
        (by simp only [Scanner.remaining, advance] at h2 ⊢; omega)
    · split
      · rename_i hc
        have hne : scanner.peek ≠ NUL := by rw [hc]; decide
        have hlt := lt_length_of_peek_ne scanner hne
        exact skip_whitespace_loop_fuel fuel1 fuel2 _
          (by simp only [Scanner.remaining, advance] at h1 ⊢; omega)
          (by simp only [Scanner.remaining, advance] at h2 ⊢; omega)
      · split
        · rename_i hc
          have hne : scanner.peek ≠ NUL := by rw [hc]; decide
          have hlt := lt_length_of_peek_ne scanner hne
          have hw := (advance_while_reaches in_comment in_comment_NUL
            scanner.remaining scanner (Nat.le_of_lt hlt)).1
          have hrem : scanner.remaining = (scanner.remaining - 1) + 1 := by
            unfold Scanner.remaining; omega
          have hpass := advance_while_passes in_comment in_comment_NUL
            (scanner.remaining - 1) scanner (by rw [hc]; decide)
          rw [← hrem] at hpass
          have hrem1 : (advance_while in_comment scanner.remaining scanner).remaining
              = scanner.source.length
                - (advance_while in_comment scanner.remaining scanner).current := by
            rw [Scanner.remaining, hw.1]
          exact skip_whitespace_loop_fuel fuel1 fuel2 _
            (by rw [hrem1]; unfold Scanner.remaining at h1; omega)
            (by rw [hrem1]; unfold Scanner.remaining at h2; omega)
        · rfl

theorem skip_whitespace_blank (scanner : Scanner)
    (hc : scanner.peek = ' ' ∨ scanner.peek = '\r' ∨ scanner.peek = '\t'
      ∨ scanner.peek = '\n') :
    skip_whitespace scanner
      = skip_whitespace ⟨scanner.source, scanner.start, scanner.current + 1,
          scanner.line + (if scanner.peek = '\n' then 1 else 0)⟩ := by
  have hne : scanner.peek ≠ NUL := by
    rcases hc with hc | hc | hc | hc <;> rw [hc] <;> decide
  have hlt := lt_length_of_peek_ne scanner hne
  have hfuel : ∀ line : Int,
      skip_whitespace_loop scanner.remaining
          ⟨scanner.source, scanner.start, scanner.current + 1, line⟩
        = skip_whitespace ⟨scanner.source, scanner.start, scanner.current + 1, line⟩ := by
    intro line
    unfold skip_whitespace
    exact skip_whitespace_loop_fuel _ _ _
      (by simp only [Scanner.remaining]; omega) (Nat.lt_succ_self _)
  conv_lhs => unfold skip_whitespace skip_whitespace_loop
  simp only []
  by_cases hnl : scanner.peek = '\n'
  · rw [if_neg (by rw [hnl]; decide), if_pos hnl]
    simp only [advance, hnl, if_true]
    exact hfuel _
  · have hws : scanner.peek = ' ' ∨ scanner.peek = '\r' ∨ scanner.peek = '\t' := by
      rcases hc with hc | hc | hc | hc
      · exact Or.inl hc
      · exact Or.inr (Or.inl hc)
      · exact Or.inr (Or.inr hc)
      · exact absurd hc hnl
    rw [if_pos hws]
    simp only [advance, hnl, if_false, Int.add_zero]
    exact hfuel _

theorem takeWhile_comment_body (body tail : List Char)
    (hbody : ∀ c ∈ body, in_comment c = true) :
    (body ++ '\n' :: tail).takeWhile in_comment = body := by
  induction body with
  | nil => simp [List.takeWhile_cons, in_comment]
  | cons c body ih =>
    have hc := hbody c (List.mem_cons_self _ _)
    simp only [List.cons_append, List.takeWhile_cons, hc, if_true]
    rw [ih (fun d hd => hbody d (List.mem_cons_of_mem _ hd))]

theorem skip_whitespace_comment (scanner : Scanner) (body tail : List Char)
    (hd : scanner.source.drop scanner.current = '#' :: (body ++ '\n' :: tail))
    (hbody : ∀ c ∈ body, in_comment c = true) :
    skip_whitespace scanner
      = skip_whitespace ⟨scanner.source, scanner.start, scanner.current + (1 + body.length),
          scanner.line⟩ := by
  have hpk : scanner.peek = '#' := by
    rw [Scanner.peek, char_at_eq_head, hd]; rfl
  have hlt := lt_length_of_peek_ne scanner (by rw [hpk]; decide)
  have hw : advance_while in_comment scanner.remaining scanner
      = ⟨scanner.source, scanner.start, scanner.current + (1 + body.length),
          scanner.line⟩ := by
    rw [advance_while_eq in_comment in_comment_NUL _ _ (Nat.le_of_lt hlt) (Nat.le_refl _), hd]
    have h1 : in_comment '#' = true := by decide
    simp only [List.takeWhile_cons, h1, if_true, takeWhile_comment_body body tail hbody,
      List.length_cons]
    have e : scanner.current + (body.length + 1) = scanner.current + (1 + body.length) := by
      omega
    rw [e]
  conv_lhs => unfold skip_whitespace skip_whitespace_loop
  simp only []
  rw [if_neg (by rw [hpk]; decide), if_neg (by rw [hpk]; decide), if_pos hpk, hw]
  unfold skip_whitespace
  exact skip_whitespace_loop_fuel _ _ _
    (by simp only [Scanner.remaining]; omega) (Nat.lt_succ_self _)

theorem skip_whitespace_skippable (w : List Char) (hw : Skippable w) :
    ∀ (scanner : Scanner) (tail : List Char),
      scanner.source.drop scanner.current = w ++ tail →
      skip_whitespace scanner
        = skip_whitespace ⟨scanner.source, scanner.start, scanner.current + w.length,
            scanner.line + (w.count '\n' : Nat)⟩ := by
  induction hw with
  | nil =>
    intro scanner tail _
    simp
  | blank c rest hc _ ih =>
    intro scanner tail hd
    have hpk : scanner.peek = c := by
      rw [Scanner.peek, char_at_eq_head, hd]; rfl
    have hd1 : scanner.source.drop (scanner.current + 1) = rest ++ tail := by
      have := congrArg List.tail hd
      simpa [List.tail_drop] using this
    rw [skip_whitespace_blank scanner (hpk ▸ hc), hpk]
    rw [ih ⟨scanner.source, scanner.start, scanner.current + 1,
      scanner.line + (if c = '\n' then 1 else 0)⟩ tail hd1]
    congr 2
    · simp only [List.length_cons]; omega
    · by_cases hnl : c = '\n'
      · subst hnl
        simp only [if_true, List.count_cons_self]
        push_cast
        omega
      · rw [if_neg hnl, List.count_cons_of_ne (fun h => hnl h.symm)]
        simp only []
        omega
  | comment body rest hbody _ ih =>
    intro scanner tail hd
    have hd0 : scanner.source.drop scanner.current
        = '#' :: (body ++ '\n' :: (rest ++ tail)) := by
      rw [hd]; simp
    have hd1 : scanner.source.drop (scanner.current + (1 + body.length))
        = '\n' :: (rest ++ tail) := by
      rw [← List.drop_drop, hd0]
      simp [Nat.add_comm 1 body.length]
    have hd2 : scanner.source.drop (scanner.current + (1 + body.length) + 1)
        = rest ++ tail := by
      rw [← List.drop_drop, hd1]
      rfl
    have hpk : (⟨scanner.source, scanner.start, scanner.current + (1 + body.length),
        scanner.line⟩ : Scanner).peek = '\n' := by
      rw [Scanner.peek, char_at_eq_head]
      simp only [hd1]
      rfl
    rw [skip_whitespace_comment scanner body (rest ++ tail) hd0 hbody,
      skip_whitespace_blank _ (Or.inr (Or.inr (Or.inr hpk))), hpk]
    rw [ih ⟨scanner.source, scanner.start, scanner.current + (1 + body.length) + 1,
      scanner.line + (if '\n' = '\n' then 1 else 0)⟩ tail hd2]
    have hcount : (('#' :: (body ++ '\n' :: rest)).count '\n' : Nat)
        = rest.count '\n' + 1 := by
      have hb : body.count '\n' = 0 := by
        rw [List.count_eq_zero]
        intro hmem
        exact absurd (hbody _ hmem) (by decide)
      rw [List.count_cons_of_ne (by decide), List.count_append, hb,
        List.count_cons_self]
      omega
    congr 2
    · simp only [List.length_cons, List.length_append]; omega
    · rw [hcount]
      simp only [if_true]
      push_cast
      omega

theorem scan_token_congr_skip
    (check_keyword : Scanner → Nat → Nat → String → TokenType → TokenType)
    (identifier_args : Scanner → Nat × Nat) (a b : Scanner)
    (h : skip_whitespace a = skip_whitespace b) :
    scan_token check_keyword identifier_args a = scan_token check_keyword identifier_args b := by
  have ht : token_start a = token_start b := by
    unfold token_start
    rw [h]
  rw [scan_token_eq, scan_token_eq, ht]

theorem moved_scan_tokens
    (check_keyword : Scanner → Nat → Nat → String → TokenType → TokenType)
    (identifier_args : Scanner → Nat × Nat)
    (hck : PositionIndependent check_keyword) (hargs : PositionIndependent identifier_args)
    (pre : List Char) (lines : Int) :
    ∀ (n : Nat) (scanner : Scanner),
      scan_tokens check_keyword identifier_args n (scanner.moved pre lines)
        = (scan_tokens check_keyword identifier_args n scanner).moved pre lines
  | 0, _ => rfl
  | n + 1, scanner => by
    show scan_tokens check_keyword identifier_args n
        (scan_token check_keyword identifier_args (scanner.moved pre lines)).2 = _
    unfold Scanner.moved
    rw [shift_scan_token check_keyword identifier_args hck hargs]
    exact moved_scan_tokens check_keyword identifier_args hck hargs pre lines n _

/-- C11: for a prefix w built only from blanks, newlines and comments
ended by a newline, and for check_keyword and identifier arguments that do
not depend on the position in the buffer, every call of a run over w
followed by s returns the token that the same call of a run over s
returns (same type, same characters, same length) with its line raised by
the number of newlines of w, and leaves start and current at the offsets
of the run over s moved by the length of w: no token starts inside w. -/
theorem skipped_prefix_invisible
    (check_keyword : Scanner → Nat → Nat → String → TokenType → TokenType)
    (identifier_args : Scanner → Nat × Nat)
    (hck : PositionIndependent check_keyword) (hargs : PositionIndependent identifier_args)
    (w s : List Char) (hw : Skippable w) (n : Nat) :
    scan_token check_keyword identifier_args
        (scan_tokens check_keyword identifier_args n (init_scanner (w ++ s)))
      = ((scan_token check_keyword identifier_args
            (scan_tokens check_keyword identifier_args n (init_scanner s))).1.shift_line
          (w.count '\n' : Nat),
        (scan_token check_keyword identifier_args
            (scan_tokens check_keyword identifier_args n (init_scanner s))).2.moved w
          (w.count '\n' : Nat)) := by
  have hskip : skip_whitespace (init_scanner (w ++ s))
      = skip_whitespace ((init_scanner s).shift w (w.count '\n' : Nat) 0) := by
    rw [skip_whitespace_skippable w hw (init_scanner (w ++ s)) s rfl]
    simp only [init_scanner, Scanner.shift]
  have hfirst : scan_token check_keyword identifier_args (init_scanner (w ++ s))
      = ((scan_token check_keyword identifier_args (init_scanner s)).1.shift_line
          (w.count '\n' : Nat),
        (scan_token check_keyword identifier_args (init_scanner s)).2.moved w
          (w.count '\n' : Nat)) := by
    rw [scan_token_congr_skip check_keyword identifier_args _ _ hskip,
      shift_scan_token check_keyword identifier_args hck hargs]
  cases n with
  | zero => exact hfirst
  | succ n =>
    show scan_token check_keyword identifier_args
        (scan_tokens check_keyword identifier_args n
          (scan_token check_keyword identifier_args (init_scanner (w ++ s))).2) = _
    rw [hfirst]
    simp only []
    rw [moved_scan_tokens check_keyword identifier_args hck hargs]
    unfold Scanner.moved
    rw [shift_scan_token check_keyword identifier_args hck hargs]
    rfl

theorem sample_check_keyword_independent : PositionIndependent sample_check_keyword := by
  intro pre lines scanner
  funext start length rest type
  unfold sample_check_keyword
  have h1 : (scanner.moved pre lines).current - (scanner.moved pre lines).start
      = scanner.current - scanner.start := by
    simp only [Scanner.moved, Scanner.shift]; omega
  have h2 : slice (scanner.moved pre lines).source ((scanner.moved pre lines).start + start)
        ((scanner.moved pre lines).start + start + length)
      = slice scanner.source (scanner.start + start) (scanner.start + start + length) := by
    simp only [slice, Scanner.moved, Scanner.shift]
    have e : scanner.start + pre.length + start = pre.length + (scanner.start + start) := by
      omega
    rw [e, ← List.drop_drop]
    simp only [List.drop_left]
    congr 1
    omega
  rw [h1, h2]

theorem sample_identifier_args_independent : PositionIndependent sample_identifier_args := by
  intro pre lines scanner
  simp only [sample_identifier_args, Scanner.moved, Scanner.shift, Prod.mk.injEq, true_and]
  omega

/-- Witness of C11: a blank and a comment before the identifier a. -/
theorem skipped_prefix_invisible_witness :
    PositionIndependent sample_check_keyword ∧ PositionIndependent sample_identifier_args
      ∧ Skippable [' ', '#', 'x', '\n']
      ∧ scan_token sample_check_keyword sample_identifier_args
          (scan_tokens sample_check_keyword sample_identifier_args 0
            (init_scanner ([' ', '#', 'x', '\n'] ++ ['a'])))
        = ((scan_token sample_check_keyword sample_identifier_args
              (scan_tokens sample_check_keyword sample_identifier_args 0
                (init_scanner ['a']))).1.shift_line
            (([' ', '#', 'x', '\n'] : List Char).count '\n' : Nat),
          (scan_token sample_check_keyword sample_identifier_args
              (scan_tokens sample_check_keyword sample_identifier_args 0
                (init_scanner ['a']))).2.moved [' ', '#', 'x', '\n']
            (([' ', '#', 'x', '\n'] : List Char).count '\n' : Nat)) :=
  have hw : Skippable [' ', '#', 'x', '\n'] :=
    Skippable.blank ' ' _ (Or.inl rfl)
      (Skippable.comment ['x'] [] (by decide) Skippable.nil)
  ⟨sample_check_keyword_independent, sample_identifier_args_independent, hw,
    skipped_prefix_invisible sample_check_keyword sample_identifier_args
      sample_check_keyword_independent sample_identifier_args_independent
      [' ', '#', 'x', '\n'] ['a'] hw 0⟩

/-! ## Expressions of the specification -/

set_option maxHeartbeats 8000000 in
/-- C15: for identifier operands x, y, z and binary operators o1 of level
l1 and o2 of level l2 on the ladder of the specification: when l1 is below
l2, x o1 y o2 z parses as o1(x, o2(y, z)) and x o2 y o1 z as o1(o2(x, y),
z); when the levels are equal, x o1 y o2 z parses as o2(o1(x, y), z); and
- x * y parses as Binary(*, Unary(-, x), y).  Nothing is reported and every
token is consumed. -/
theorem precedence_ladder (x y z o1 o2 : String) (t1 t2 : TokenType) (l1 l2 : Nat)
    (h1 : binary_level t1 = some l1) (h2 : binary_level t2 = some l2) :
    (l1 < l2 →
        parse_expression 20 (parser_on [identifier_token x, tk t1 o1, identifier_token y,
            tk t2 o2, identifier_token z, eof])
          = .ok (ladder_node (tk t1 o1) (.variable (identifier_token x))
              (ladder_node (tk t2 o2) (.variable (identifier_token y))
                (.variable (identifier_token z))),
            finished_after (identifier_token z))
        ∧ parse_expression 20 (parser_on [identifier_token x, tk t2 o2,
            identifier_token y, tk t1 o1, identifier_token z, eof])
          = .ok (ladder_node (tk t1 o1)
              (ladder_node (tk t2 o2) (.variable (identifier_token x))
                (.variable (identifier_token y)))
              (.variable (identifier_token z)),
            finished_after (identifier_token z)))
      ∧ (l1 = l2 →
        parse_expression 20 (parser_on [identifier_token x, tk t1 o1, identifier_token y,
            tk t2 o2, identifier_token z, eof])
          = .ok (ladder_node (tk t2 o2)
              (ladder_node (tk t1 o1) (.variable (identifier_token x))
                (.variable (identifier_token y)))
              (.variable (identifier_token z)),
            finished_after (identifier_token z)))
      ∧ parse_expression 20 (parser_on [tk TOKEN_MINUS o1, identifier_token x,
            tk TOKEN_STAR o2, identifier_token y, eof])
          = .ok (.binary (tk TOKEN_STAR o2)
              (.unary (tk TOKEN_MINUS o1) (.variable (identifier_token x)))
              (.variable (identifier_token y)),
            finished_after (identifier_token y)) := by
  refine ⟨?_, ?_, rfl⟩
  · intro h
    cases t1 <;> simp only [binary_level, Option.some.injEq, reduceCtorEq] at h1 <;>
      cases t2 <;> simp only [binary_level, Option.some.injEq, reduceCtorEq] at h2 <;>
      subst h1 h2 <;>
      first
      | exact absurd h (by decide)
      | exact ⟨rfl, rfl⟩
  · intro h
    cases t1 <;> simp only [binary_level, Option.some.injEq, reduceCtorEq] at h1 <;>
      cases t2 <;> simp only [binary_level, Option.some.injEq, reduceCtorEq] at h2 <;>
      subst h1 h2 <;>
      first
      | exact absurd h (by decide)
      | rfl

/-- Witness of C15: a + b * c, with + on level 5 and * on level 6. -/
theorem precedence_ladder_witness :
    binary_level TOKEN_PLUS = some 5 ∧ binary_level TOKEN_STAR = some 6 ∧ 5 < 6
      ∧ parse_expression 20 (parser_on [identifier_token "a", tk TOKEN_PLUS "+",
            identifier_token "b", tk TOKEN_STAR "*", identifier_token "c", eof])
          = .ok (ladder_node (tk TOKEN_PLUS "+") (.variable (identifier_token "a"))
              (ladder_node (tk TOKEN_STAR "*") (.variable (identifier_token "b"))
                (.variable (identifier_token "c"))),
            finished_after (identifier_token "c")) :=
  ⟨rfl, rfl, by decide,
    ((precedence_ladder "a" "b" "c" "+" "*" TOKEN_PLUS TOKEN_STAR 5 6 rfl rfl).1
      (by decide)).1⟩

/-- The expressions the specification names for the ladder. -/
theorem precedence_examples :
    parse_expression 20 (parser_on [identifier_token "a", tk TOKEN_STAR "*",
          identifier_token "b", tk TOKEN_PLUS "+", identifier_token "c", eof])
        = .ok (.binary (tk TOKEN_PLUS "+")
            (.binary (tk TOKEN_STAR "*") (.variable (identifier_token "a"))
              (.variable (identifier_token "b")))
            (.variable (identifier_token "c")), finished_after (identifier_token "c"))
      ∧ parse_expression 20 (parser_on [identifier_token "a", tk TOKEN_OR "or",
          identifier_token "b", tk TOKEN_AND "and", identifier_token "c", eof])
        = .ok (.logical (tk TOKEN_OR "or") (.variable (identifier_token "a"))
            (.logical (tk TOKEN_AND "and") (.variable (identifier_token "b"))
              (.variable (identifier_token "c"))), finished_after (identifier_token "c"))
      ∧ parse_expression 20 (parser_on [identifier_token "a", tk TOKEN_EQUAL_EQUAL "==",
          identifier_token "b", tk TOKEN_LESS "<", identifier_token "c", eof])
        = .ok (.binary (tk TOKEN_EQUAL_EQUAL "==") (.variable (identifier_token "a"))
            (.binary (tk TOKEN_LESS "<") (.variable (identifier_token "b"))
              (.variable (identifier_token "c"))), finished_after (identifier_token "c"))
      ∧ parse_expression 20 (parser_on [identifier_token "a", tk TOKEN_MINUS "-",
          identifier_token "b", tk TOKEN_MINUS "-", identifier_token "c", eof])
        = .ok (.binary (tk TOKEN_MINUS "-")
            (.binary (tk TOKEN_MINUS "-") (.variable (identifier_token "a"))
              (.variable (identifier_token "b")))
            (.variable (identifier_token "c")), finished_after (identifier_token "c")) :=
  ⟨rfl, rfl, rfl, rfl⟩

/-! ## Assignment -/

/-- C16: a = b = c parses as Assign(a, Assign(b, c)); for (a) = 1 and for
a + b = 1 exactly one diagnostic Invalid assignment target. is reported
and the left side is returned; for = 1, where the left side failed to
parse and is NULL, parse_assignment reads the type of the NULL expression:
the run ends in a NULL dereference and returns no expression. -/
theorem assignment_targets :
    parse_assignment 40 (parser_on [identifier_token "a", tk TOKEN_EQUAL "=",
          identifier_token "b", tk TOKEN_EQUAL "=", identifier_token "c", eof])
        = .ok (.assign (identifier_token "a")
            (.assign (identifier_token "b") (.variable (identifier_token "c"))),
          finished_after (identifier_token "c"))
      ∧ parse_assignment 40 (parser_on [tk TOKEN_LEFT_PAREN "(", identifier_token "a",
          tk TOKEN_RIGHT_PAREN ")", tk TOKEN_EQUAL "=", tk TOKEN_NUMBER "1", eof])
        = .ok (.grouping (.variable (identifier_token "a")),
          ⟨⟨tk TOKEN_NUMBER "1", tk TOKEN_EQUAL "=", false, false⟩, [eof],
            ["[line 1] Error at '1': Invalid assignment target.\n"]⟩)
      ∧ parse_assignment 40 (parser_on [identifier_token "a", tk TOKEN_PLUS "+",
          identifier_token "b", tk TOKEN_EQUAL "=", tk TOKEN_NUMBER "1", eof])
        = .ok (.binary (tk TOKEN_PLUS "+") (.variable (identifier_token "a"))
            (.variable (identifier_token "b")),
          ⟨⟨tk TOKEN_NUMBER "1", tk TOKEN_EQUAL "=", false, false⟩, [eof],
            ["[line 1] Error at '1': Invalid assignment target.\n"]⟩)
      ∧ parse_assignment 40 (parser_on [tk TOKEN_EQUAL "=", tk TOKEN_NUMBER "1", eof])
        = .error .null_dereference :=
  ⟨rfl, rfl, rfl, rfl⟩

/-! ## The function parse -/

/-- C18, as stated, fails: for the source a; b; the function parse returns
the expression statement of a alone, and its parser stops with b as the
current token, the tokens of b; not read. -/
theorem parse_reads_one_declaration :
    parse sample_check_keyword sample_identifier_args 40 (init_scanner "a; b;".toList)
      = .ok (.expr (.variable (token_at TOKEN_IDENTIFIER "a; b;" 0 1)),
        ⟨⟨token_at TOKEN_IDENTIFIER "a; b;" 3 1, token_at TOKEN_SEMICOLON "a; b;" 1 1,
            false, false⟩,
          [token_at TOKEN_SEMICOLON "a; b;" 4 1, token_at TOKEN_EOF "a; b;" 5 0], []⟩) :=
  rfl

/-- C19: for the source made of a semicolon, parse reports the diagnostic
Expect expression. and still returns the statement, not NULL: the flag
had_error of its parser is false after the call. -/
theorem parse_keeps_flag_clear :
    parse sample_check_keyword sample_identifier_args 40 (init_scanner ";".toList)
      = .ok (.expr .null,
        ⟨⟨token_at TOKEN_EOF ";" 1 0, token_at TOKEN_SEMICOLON ";" 0 1, false, false⟩, [],
          ["[line 1] Error at ';': Expect expression.\n"]⟩) :=
  rfl

/-! ## The parsing functions never set the flags and never give a token back -/

theorem Keeps.refl (st : ParseState) : Keeps st st :=
  ⟨rfl, rfl, Nat.le_refl _, rfl⟩

theorem Keeps.trans {a b c : ParseState} (hab : Keeps a b) (hbc : Keeps b c) : Keeps a c :=
  ⟨hbc.1.trans hab.1, hbc.2.1.trans hab.2.1, Nat.le_trans hbc.2.2.1 hab.2.2.1,
    hbc.2.2.2.trans hab.2.2.2⟩

theorem keeps_error_at_current (st : ParseState) (message : String) :
    Keeps st (error_at_current st message) :=
  ⟨rfl, rfl, Nat.le_refl _, rfl⟩

theorem keeps_advance (st : ParseState) : Keeps st (Parser.advance st) := by
  unfold Parser.advance
  split
  · rename_i h
    refine ⟨rfl, rfl, by simp, ?_⟩
    simp [ParseState.last_token, h]
  · rename_i token rest h
    refine ⟨rfl, rfl, by simp [h], ?_⟩
    simp [ParseState.last_token, h]

theorem keeps_consume (st : ParseState) (type : TokenType) (message : String) :
    Keeps st (Parser.consume st type message) := by
  unfold Parser.consume
  split
  · exact keeps_advance st
  · exact (keeps_error_at_current st message).trans (keeps_advance _)

theorem keeps_match_type (st : ParseState) (type : TokenType) :
    Keeps st (Parser.match_type st type).2 := by
  unfold Parser.match_type
  split
  · exact keeps_advance st
  · exact Keeps.refl st

theorem keeps_parse_variable (st : ParseState) (r : ExprPtr) (st1 : ParseState)
    (h : parse_variable st = .ok (r, st1)) : Keeps st st1 := by
  unfold parse_variable at h
  simp only [Except.ok.injEq, Prod.mk.injEq] at h
  obtain ⟨_, rfl⟩ := h
  exact keeps_consume _ _ _

theorem keeps_binary_loop (is_operator : TokenType → Bool)
    (make : ExprPtr → Token → ExprPtr → ExprPtr) (operand : ParseState → Parse ExprPtr)
    (hop : KeepsAll operand) :
    ∀ (fuel : Nat) (expr : ExprPtr), KeepsAll (binary_loop is_operator make operand fuel expr)
  | 0, _, _, _, _, h => by simp [binary_loop] at h
  | fuel + 1, expr, st, r, st1, h => by
    unfold binary_loop at h
    split at h
    · split at h
      · rename_i right st2 heq
        exact (keeps_advance st).trans ((hop _ _ _ heq).trans
          (keeps_binary_loop is_operator make operand hop fuel _ _ _ _ h))
      · cases h
    · simp only [Except.ok.injEq, Prod.mk.injEq] at h
      obtain ⟨_, rfl⟩ := h
      exact Keeps.refl _

theorem keeps_operands (is_operator : TokenType → Bool)
    (make : ExprPtr → Token → ExprPtr → ExprPtr) (operand : ParseState → Parse ExprPtr)
    (hop : KeepsAll operand) (fuel : Nat) :
    KeepsAll (fun st =>
      match operand st with
      | .error e => .error e
      | .ok (expr, st1) => binary_loop is_operator make operand fuel expr st1) := by
  intro st r st1 h
  simp only at h
  split at h
  · cases h
  · rename_i expr st2 heq
    exact (hop _ _ _ heq).trans (keeps_binary_loop is_operator make operand hop fuel _ _ _ _ h)

theorem keeps_expressions (fuel : Nat) :
    KeepsAll (parse_expression fuel) ∧ KeepsAll (parse_assignment fuel)
      ∧ KeepsAll (parse_logical_or fuel) ∧ KeepsAll (parse_logical_and fuel)
      ∧ KeepsAll (parse_equality fuel) ∧ KeepsAll (parse_comparison fuel)
      ∧ KeepsAll (parse_term fuel) ∧ KeepsAll (parse_factor fuel)
      ∧ KeepsAll (parse_unary fuel) ∧ KeepsAll (parse_call fuel)
      ∧ (∀ expr, KeepsAll (call_loop fuel expr)) ∧ (∀ callee, KeepsAll (finish_call fuel callee))
      ∧ KeepsAll (parse_arguments fuel) ∧ (∀ args, KeepsAll (arguments_loop fuel args))
      ∧ KeepsAll (parse_primary fuel) := by
  induction fuel with
  | zero =>
    refine ⟨?_, ?_, ?_, ?_, ?_, ?_, ?_, ?_, ?_, ?_, ?_, ?_, ?_, ?_, ?_⟩
    · intro st r st1 h; simp [parse_expression] at h
    · intro st r st1 h; simp [parse_assignment] at h
    · intro st r st1 h; simp [parse_logical_or] at h
    · intro st r st1 h; simp [parse_logical_and] at h
    · intro st r st1 h; simp [parse_equality] at h
    · intro st r st1 h; simp [parse_comparison] at h
    · intro st r st1 h; simp [parse_term] at h
    · intro st r st1 h; simp [parse_factor] at h
    · intro st r st1 h; simp [parse_unary] at h
    · intro st r st1 h; simp [parse_call] at h
    · intro e st r st1 h; simp [call_loop] at h
    · intro e st r st1 h; simp [finish_call] at h
    · intro st r st1 h; simp [parse_arguments] at h
    · intro a st r st1 h; simp [arguments_loop] at h
    · intro st r st1 h; simp [parse_primary] at h
  | succ n ih =>
    obtain ⟨hexp, hasg, hor, hand, heq, hcmp, htrm, hfac, hun, hcall, hloop, hfin, hargs,
      haloop, hprim⟩ := ih
    refine ⟨?_, ?_, ?_, ?_, ?_, ?_, ?_, ?_, ?_, ?_, ?_, ?_, ?_, ?_, ?_⟩
    · intro st r st1 h
      rw [parse_expression] at h
      exact hasg _ _ _ h
    · intro st r st1 h
      rw [parse_assignment] at h
      split at h
      · cases h
      · rename_i expr st2 h1
        have k1 := hor _ _ _ h1
        split at h
        · split at h
          · cases h
          · rename_i value st3 h2
            have k2 := k1.trans ((keeps_advance _).trans (hasg _ _ _ h2))
            split at h
            · cases h
            · simp only [Except.ok.injEq, Prod.mk.injEq] at h
              obtain ⟨_, rfl⟩ := h
              exact k2
            · simp only [Except.ok.injEq, Prod.mk.injEq] at h
              obtain ⟨_, rfl⟩ := h
              exact k2.trans (keeps_error_at_current _ _)
        · simp only [Except.ok.injEq, Prod.mk.injEq] at h
          obtain ⟨_, rfl⟩ := h
          exact k1
    · intro st r st1 h
      rw [parse_logical_or] at h
      exact keeps_operands _ _ _ hand n _ _ _ h
    · intro st r st1 h
      rw [parse_logical_and] at h
      exact keeps_operands _ _ _ heq n _ _ _ h
    · intro st r st1 h
      rw [parse_equality] at h
      exact keeps_operands _ _ _ hcmp n _ _ _ h
    · intro st r st1 h
      rw [parse_comparison] at h
      exact keeps_operands _ _ _ htrm n _ _ _ h
    · intro st r st1 h
      rw [parse_term] at h
      exact keeps_operands _ _ _ hfac n _ _ _ h
    · intro st r st1 h
      rw [parse_factor] at h
      exact keeps_operands _ _ _ hun n _ _ _ h
    · intro st r st1 h
      rw [parse_unary] at h
      split at h
      · split at h
        · cases h
        · rename_i right st2 h1
          simp only [Except.ok.injEq, Prod.mk.injEq] at h
          obtain ⟨_, rfl⟩ := h
          exact (keeps_advance _).trans (hun _ _ _ h1)
      · exact hcall _ _ _ h
    · intro st r st1 h
      rw [parse_call] at h
      split at h
      · cases h
      · rename_i expr st2 h1
        exact (hprim _ _ _ h1).trans (hloop _ _ _ _ h)
    · intro expr st r st1 h
      rw [call_loop] at h
      split at h
      · split at h
        · cases h
        · rename_i call st2 h1
          exact (keeps_advance _).trans ((hfin _ _ _ _ h1).trans (hloop _ _ _ _ h))
      · simp only [Except.ok.injEq, Prod.mk.injEq] at h
        obtain ⟨_, rfl⟩ := h
        exact Keeps.refl _
    · intro callee st r st1 h
      rw [finish_call] at h
      split at h
      · cases h
      · rename_i h1
        simp only [Except.ok.injEq, Prod.mk.injEq] at h
        obtain ⟨_, rfl⟩ := h
        exact hargs _ _ _ h1
      · rename_i h1
        simp only [Except.ok.injEq, Prod.mk.injEq] at h
        obtain ⟨_, rfl⟩ := h
        exact hargs _ _ _ h1
    · intro st r st1 h
      rw [parse_arguments] at h
      split at h
      · split at h
        · cases h
        · rename_i args st2 h1
          simp only [Except.ok.injEq, Prod.mk.injEq] at h
          obtain ⟨_, rfl⟩ := h
          exact (haloop _ _ _ _ h1).trans (keeps_consume _ _ _)
      · simp only [Except.ok.injEq, Prod.mk.injEq] at h
        obtain ⟨_, rfl⟩ := h
        exact keeps_consume _ _ _
    · intro args st r st1 h
      rw [arguments_loop] at h
      split at h
      · cases h
      · rename_i arg st2 h1
        have k0 : Keeps st (if args.length ≥ 255 then
            error_at_current st "Can't have more than 255 arguments." else st) := by
          split
          · exact keeps_error_at_current _ _
          · exact Keeps.refl _
        have k1 := k0.trans (hexp _ _ _ h1)
        split at h
        · exact k1.trans ((keeps_match_type _ _).trans (haloop _ _ _ _ h))
        · simp only [Except.ok.injEq, Prod.mk.injEq] at h
          obtain ⟨_, rfl⟩ := h
          exact k1
    · intro st r st1 h
      rw [parse_primary] at h
      split_ifs at h
      · simp only [Except.ok.injEq, Prod.mk.injEq] at h
        obtain ⟨_, rfl⟩ := h
        exact keeps_advance _
      · simp only [Except.ok.injEq, Prod.mk.injEq] at h
        obtain ⟨_, rfl⟩ := h
        exact keeps_advance _
      · simp only [Except.ok.injEq, Prod.mk.injEq] at h
        obtain ⟨_, rfl⟩ := h
        exact keeps_advance _
      · simp only [Except.ok.injEq, Prod.mk.injEq] at h
        obtain ⟨_, rfl⟩ := h
        exact Keeps.refl _
      · exact keeps_parse_variable _ _ _ h
      · split at h
        · cases h
        · rename_i expr st2 h1
          simp only [Except.ok.injEq, Prod.mk.injEq] at h
          obtain ⟨_, rfl⟩ := h
          exact (keeps_advance _).trans ((hexp _ _ _ h1).trans (keeps_consume _ _ _))
      · simp only [Except.ok.injEq, Prod.mk.injEq] at h
        obtain ⟨_, rfl⟩ := h
        exact keeps_error_at_current _ _

theorem keeps_parse_expression (fuel : Nat) : KeepsAll (parse_expression fuel) :=
  (keeps_expressions fuel).1

theorem keeps_parameters_loop :
    ∀ (fuel : Nat) (params : List Token), KeepsAll (parameters_loop fuel params)
  | 0, _, _, _, _, h => by simp [parameters_loop] at h
  | fuel + 1, params, st, r, st1, h => by
    rw [parameters_loop] at h
    have k0 : Keeps st (if params.length ≥ 255 then
        error_at_current st "Can't have more than 255 parameters." else st) := by
      split
      · exact keeps_error_at_current _ _
      · exact Keeps.refl _
    generalize (if params.length ≥ 255 then
      error_at_current st "Can't have more than 255 parameters." else st) = sta at h k0
    have k1 := k0.trans (keeps_consume _ TOKEN_IDENTIFIER "Expect parameter name.")
    split at h
    · exact k1.trans ((keeps_match_type _ _).trans (keeps_parameters_loop fuel _ _ _ _ h))
    · simp only [Except.ok.injEq, Prod.mk.injEq] at h
      obtain ⟨_, rfl⟩ := h
      exact k1

theorem keeps_statements (fuel : Nat) :
    KeepsAll (parse_declaration fuel) ∧ KeepsAll (parse_var_declaration fuel)
      ∧ KeepsAll (parse_statement fuel) ∧ KeepsAll (parse_expr_statement fuel)
      ∧ (∀ stmts, KeepsAll (declaration_loop fuel stmts))
      ∧ KeepsAll (parse_block_statement fuel) ∧ KeepsAll (parse_if_statement fuel)
      ∧ KeepsAll (parse_while_statement fuel) ∧ KeepsAll (parse_func_declaration fuel)
      ∧ KeepsAll (parse_return_statement fuel) := by
  induction fuel with
  | zero =>
    refine ⟨?_, ?_, ?_, ?_, ?_, ?_, ?_, ?_, ?_, ?_⟩
    · intro st r st1 h; simp [parse_declaration] at h
    · intro st r st1 h; simp [parse_var_declaration] at h
    · intro st r st1 h; simp [parse_statement] at h
    · intro st r st1 h; simp [parse_expr_statement] at h
    · intro s st r st1 h; simp [declaration_loop] at h
    · intro st r st1 h; simp [parse_block_statement] at h
    · intro st r st1 h; simp [parse_if_statement] at h
    · intro st r st1 h; simp [parse_while_statement] at h
    · intro st r st1 h; simp [parse_func_declaration] at h
    · intro st r st1 h; simp [parse_return_statement] at h
  | succ n ih =>
    obtain ⟨hdecl, hvar, hstmt, hexpr, hloop, hblock, hif, hwhile, hfunc, hret⟩ := ih
    have hexp := keeps_parse_expression n
    refine ⟨?_, ?_, ?_, ?_, ?_, ?_, ?_, ?_, ?_, ?_⟩
    · intro st r st1 h
      rw [parse_declaration] at h
      split at h
      · exact (keeps_match_type _ _).trans (hvar _ _ _ h)
      · exact hstmt _ _ _ h
    · intro st r st1 h
      rw [parse_var_declaration] at h
      have k0 := keeps_consume st TOKEN_IDENTIFIER "Expect variable name."
      split at h
      · split at h
        · cases h
        · rename_i initializer st2 h1
          simp only [Except.ok.injEq, Prod.mk.injEq] at h
          obtain ⟨_, rfl⟩ := h
          exact k0.trans ((keeps_match_type _ _).trans ((hexp _ _ _ h1).trans
            (keeps_consume _ _ _)))
      · simp only [Except.ok.injEq, Prod.mk.injEq] at h
        obtain ⟨_, rfl⟩ := h
        exact k0.trans (keeps_consume _ _ _)
    · intro st r st1 h
      rw [parse_statement] at h
      split_ifs at h
      · exact (keeps_match_type _ _).trans (hblock _ _ _ h)
      · exact (keeps_match_type _ _).trans (hif _ _ _ h)
      · exact (keeps_match_type _ _).trans (hwhile _ _ _ h)
      · exact (keeps_match_type _ _).trans (hfunc _ _ _ h)
      · exact (keeps_match_type _ _).trans (hret _ _ _ h)
      · exact hexpr _ _ _ h
    · intro st r st1 h
      rw [parse_expr_statement] at h
      split at h
      · cases h
      · rename_i expr st2 h1
        simp only [Except.ok.injEq, Prod.mk.injEq] at h
        obtain ⟨_, rfl⟩ := h
        exact (hexp _ _ _ h1).trans (keeps_consume _ _ _)
    · intro stmts st r st1 h
      rw [declaration_loop] at h
      split at h
      · split at h
        · cases h
        · rename_i stmt st2 h1
          exact (hdecl _ _ _ h1).trans (hloop _ _ _ _ h)
      · simp only [Except.ok.injEq, Prod.mk.injEq] at h
        obtain ⟨_, rfl⟩ := h
        exact Keeps.refl _
    · intro st r st1 h
      rw [parse_block_statement] at h
      split at h
      · cases h
      · rename_i stmts st2 h1
        simp only [Except.ok.injEq, Prod.mk.injEq] at h
        obtain ⟨_, rfl⟩ := h
        exact (hloop _ _ _ _ h1).trans (keeps_consume _ _ _)
    · intro st r st1 h
      rw [parse_if_statement] at h
      split at h
      · cases h
      · rename_i condition st2 h1
        have k1 := (keeps_consume st TOKEN_LEFT_PAREN "Expect '(' after 'if'.").trans
          (hexp _ _ _ h1)
        split at h
        · cases h
        · rename_i then_branch st3 h2
          have k2 := k1.trans ((keeps_consume _ _ _).trans (hstmt _ _ _ h2))
          split at h
          · split at h
            · cases h
            · rename_i else_branch st4 h3
              simp only [Except.ok.injEq, Prod.mk.injEq] at h
              obtain ⟨_, rfl⟩ := h
              exact k2.trans ((keeps_match_type _ _).trans (hstmt _ _ _ h3))
          · simp only [Except.ok.injEq, Prod.mk.injEq] at h
            obtain ⟨_, rfl⟩ := h
            exact k2
    · intro st r st1 h
      rw [parse_while_statement] at h
      split at h
      · cases h
      · rename_i condition st2 h1
        have k1 := (keeps_consume st TOKEN_LEFT_PAREN "Expect '(' after 'while'.").trans
          (hexp _ _ _ h1)
        split at h
        · cases h
        · rename_i body st3 h2
          simp only [Except.ok.injEq, Prod.mk.injEq] at h
          obtain ⟨_, rfl⟩ := h
          exact k1.trans ((keeps_consume _ _ _).trans (hstmt _ _ _ h2))
    · intro st r st1 h
      rw [parse_func_declaration] at h
      have k0 := (keeps_consume st TOKEN_IDENTIFIER "Expect function name.").trans
        (keeps_consume _ TOKEN_LEFT_PAREN "Expect '(' after function name.")
      split at h
      · cases h
      · rename_i params st3 h1
        have k1 : Keeps st st3 := by
          split at h1
          · exact k0.trans (keeps_parameters_loop _ _ _ _ _ h1)
          · simp only [Except.ok.injEq, Prod.mk.injEq] at h1
            obtain ⟨_, rfl⟩ := h1
            exact k0
        simp only [] at h
        split at h
        · cases h
        · rename_i body st6 h2
          simp only [Except.ok.injEq, Prod.mk.injEq] at h
          obtain ⟨_, rfl⟩ := h
          exact k1.trans ((keeps_consume _ _ _).trans ((keeps_consume _ _ _).trans
            ((hloop _ _ _ _ h2).trans (keeps_consume _ _ _))))
    · intro st r st1 h
      rw [parse_return_statement] at h
      split at h
      · split at h
        · cases h
        · rename_i value st2 h1
          simp only [Except.ok.injEq, Prod.mk.injEq] at h
          obtain ⟨_, rfl⟩ := h
          exact (hexp _ _ _ h1).trans (keeps_consume _ _ _)
      · simp only [Except.ok.injEq, Prod.mk.injEq] at h
        obtain ⟨_, rfl⟩ := h
        exact keeps_consume _ _ _

theorem keeps_parse_declaration (fuel : Nat) : KeepsAll (parse_declaration fuel) :=
  (keeps_statements fuel).1

/-- C18, amended: for every source, parse is one call of parse_declaration
on the parser that holds the first token: it returns the statement of the
first top-level declaration, with the parser where that call left it, the
test of had_error never changing the result since no parsing function sets
the flag. -/
theorem parse_one_declaration
    (check_keyword : Scanner → Nat → Nat → String → TokenType → TokenType)
    (identifier_args : Scanner → Nat × Nat) (fuel : Nat) (scanner : Scanner) :
    parse check_keyword identifier_args fuel scanner
      = parse_declaration fuel (parse_start check_keyword identifier_args scanner) := by
  unfold parse
  split
  · rename_i e h
    exact h.symm
  · rename_i stmt st h
    have hflag : st.parser.had_error = false := (keeps_parse_declaration fuel _ _ _ h).1
    rw [hflag, h]
    rfl

/-! ## Blocks -/

/-- C20: a block whose tokens are = and the end-of-input token (the source
\x7b =): parse_primary returns NULL at =, parse_assignment advances over =,
parses the right side and then reads expr->type through the NULL pointer
(line 409); no Block is returned.  The same holds from parse and for the
body of the function declaration func f() \x7b =, entered after func. -/
theorem block_dereferences_null :
    parse_block_statement 40 ⟨⟨tk TOKEN_EQUAL "=", tk TOKEN_LEFT_BRACE "\x7b", false, false⟩,
        [eof], []⟩ = .error .null_dereference
      ∧ parse sample_check_keyword sample_identifier_args 40 (init_scanner "\x7b =".toList)
        = .error .null_dereference
      ∧ parse_func_declaration 40 (parser_on [identifier_token "f",
          tk TOKEN_LEFT_PAREN "(", tk TOKEN_RIGHT_PAREN ")", tk TOKEN_LEFT_BRACE "\x7b",
          tk TOKEN_EQUAL "=", eof]) = .error .null_dereference :=
  ⟨rfl, rfl, rfl⟩

/-! ## Argument and parameter lists -/

theorem parse_expression_no_start (st : ParseState)
    (h : st.parser.current.type = TOKEN_COMMA ∨ st.parser.current.type = TOKEN_RIGHT_PAREN)
    (k : Nat) :
    parse_expression (k + 11) st = .ok (.null, error_at_current st "Expect expression.") := by
  rcases h with h | h <;>
  simp [parse_expression, parse_assignment, parse_logical_or, parse_logical_and,
    parse_equality, parse_comparison, parse_term, parse_factor, parse_unary, parse_call,
    parse_primary, call_loop, binary_loop, is_or_operator, is_and_operator,
    is_equality_operator, is_comparison_operator, is_term_operator, is_factor_operator,
    error_at_current, h]

theorem parse_expression_identifier (st : ParseState) (next : Token) (rest : List Token)
    (hcurrent : st.parser.current.type = TOKEN_IDENTIFIER) (htokens : st.tokens = next :: rest)
    (hnext : next.type = TOKEN_COMMA ∨ next.type = TOKEN_RIGHT_PAREN) (k : Nat) :
    parse_expression (k + 11) st
      = .ok (.variable st.parser.current,
          ⟨⟨next, st.parser.current, st.parser.had_error, st.parser.panic_mode⟩, rest,
            st.stderr⟩) := by
  rcases hnext with h | h <;>
  simp [parse_expression, parse_assignment, parse_logical_or, parse_logical_and,
    parse_equality, parse_comparison, parse_term, parse_factor, parse_unary, parse_call,
    parse_primary, call_loop, binary_loop, is_or_operator, is_and_operator,
    is_equality_operator, is_comparison_operator, is_term_operator, is_factor_operator,
    parse_variable, variable_expr, Parser.consume, Parser.advance, hcurrent, htokens, h]

theorem identifier_argument (token : Token) (h : token.type = TOKEN_IDENTIFIER) :
    Argument 11 [token] (.variable token) := by
  intro fuel st next rest hfuel hpending hnext
  obtain ⟨k, rfl⟩ : ∃ k, fuel = k + 11 := ⟨fuel - 11, by omega⟩
  simp only [ParseState.pending, List.singleton_append, List.cons.injEq] at hpending
  obtain ⟨hcurrent, htokens⟩ := hpending
  refine ⟨token, ?_⟩
  rw [parse_expression_identifier st next rest (hcurrent ▸ h) htokens hnext k, hcurrent]

theorem argument_first (fuel0 : Nat) (tokens : List Token) (expr : ExprPtr)
    (h : Argument fuel0 tokens expr) :
    ∃ first more, tokens = first :: more ∧ first.type ≠ TOKEN_RIGHT_PAREN := by
  have comma : (tk TOKEN_COMMA ",").type = TOKEN_COMMA := rfl
  cases tokens with
  | nil =>
    exfalso
    obtain ⟨previous, hp⟩ := h (fuel0 + 11) ⟨⟨tk TOKEN_COMMA ",", eof, false, false⟩, [], []⟩
      (tk TOKEN_COMMA ",") [] (by omega) rfl (Or.inl comma)
    rw [parse_expression_no_start _ (Or.inl comma) fuel0] at hp
    simp [error_at_current] at hp
  | cons first more =>
    refine ⟨first, more, rfl, ?_⟩
    intro hfirst
    obtain ⟨previous, hp⟩ := h (fuel0 + 11)
      ⟨⟨first, eof, false, false⟩, more ++ [tk TOKEN_COMMA ","], []⟩
      (tk TOKEN_COMMA ",") [] (by omega) (by simp [ParseState.pending]) (Or.inl comma)
    rw [parse_expression_no_start _ (Or.inr hfirst) fuel0] at hp
    simp [error_at_current] at hp

theorem drop_cap {α β : Type} (f : α → β) (x : α) (more : List α) (n : Nat) :
    ((x :: more).drop (255 - n)).map f
      = (if n ≥ 255 then [f x] else []) ++ (more.drop (255 - (n + 1))).map f := by
  by_cases h : n ≥ 255
  · have h1 : 255 - n = 0 := by omega
    have h2 : 255 - (n + 1) = 0 := by omega
    simp [h, h1, h2]
  · have h1 : 255 - n = (255 - (n + 1)) + 1 := by omega
    rw [h1, List.drop_succ_cons]
    simp [h]

theorem arguments_round (fuel0 k : Nat) (acc : List ExprPtr) (st : ParseState)
    (tokens : List Token) (expr : ExprPtr) (next : Token) (rest : List Token)
    (hx : Argument fuel0 tokens expr) (hk : fuel0 ≤ k)
    (hpending : st.pending = tokens ++ next :: rest)
    (hnext : next.type = TOKEN_COMMA ∨ next.type = TOKEN_RIGHT_PAREN) :
    ∃ previous, arguments_loop (k + 1) acc st
      = if next.type = TOKEN_COMMA then
          arguments_loop k (acc ++ [expr])
            (Parser.advance ⟨⟨next, previous, st.parser.had_error, st.parser.panic_mode⟩, rest,
              st.stderr ++ (if acc.length ≥ 255 then
                [error (tokens.headD eof) "Can't have more than 255 arguments."] else [])⟩)
        else .ok (acc ++ [expr],
          ⟨⟨next, previous, st.parser.had_error, st.parser.panic_mode⟩, rest,
            st.stderr ++ (if acc.length ≥ 255 then
              [error (tokens.headD eof) "Can't have more than 255 arguments."] else [])⟩) := by
  obtain ⟨first, more, rfl, _⟩ := argument_first _ _ _ hx
  have hcurrent : st.parser.current = first := by
    simp only [ParseState.pending, List.cons_append, List.cons.injEq] at hpending
    exact hpending.1
  by_cases hcap : acc.length ≥ 255
  · obtain ⟨previous, hp⟩ := hx k
      (error_at_current st "Can't have more than 255 arguments.") next rest hk hpending hnext
    refine ⟨previous, ?_⟩
    rw [arguments_loop]
    simp only [hcap, if_true, hp]
    by_cases hc : next.type = TOKEN_COMMA <;>
      simp [Parser.match_type, error_at_current, hcurrent, hc]
  · obtain ⟨previous, hp⟩ := hx k st next rest hk hpending hnext
    refine ⟨previous, ?_⟩
    rw [arguments_loop]
    simp only [hcap, if_false, hp]
    by_cases hc : next.type = TOKEN_COMMA <;> simp [Parser.match_type, hc]

theorem arguments_loop_reads (fuel0 : Nat) :
    ∀ (arguments : List (List Token × ExprPtr)) (commas : List Token),
      (∀ x ∈ arguments, Argument fuel0 x.1 x.2) → (∀ c ∈ commas, c.type = TOKEN_COMMA) →
      commas.length + 1 = arguments.length →
      ∀ (fuel : Nat) (acc : List ExprPtr) (st : ParseState) (closing : Token)
        (rest : List Token),
        fuel0 + arguments.length ≤ fuel →
        st.pending = separated (arguments.map Prod.fst) commas ++ closing :: rest →
        closing.type = TOKEN_RIGHT_PAREN →
        ∃ previous, arguments_loop fuel acc st
          = .ok (acc ++ arguments.map Prod.snd,
              ⟨⟨closing, previous, st.parser.had_error, st.parser.panic_mode⟩, rest,
                st.stderr ++ ((arguments.drop (255 - acc.length)).map
                  (fun x => error (x.1.headD eof) "Can't have more than 255 arguments."))⟩)
  | [], _, _, _, hlen => by simp at hlen
  | [x], commas, hargs, _, _ => by
    intro fuel acc st closing rest hfuel hpending hclosing
    obtain ⟨k, rfl⟩ : ∃ k, fuel = k + 1 := ⟨fuel - 1, by simp at hfuel; omega⟩
    simp only [List.map_cons, List.map_nil, separated] at hpending
    obtain ⟨previous, hp⟩ := arguments_round fuel0 k acc st x.1 x.2 closing rest
      (hargs x (List.mem_singleton.2 rfl)) (by simp at hfuel; omega) hpending (Or.inr hclosing)
    refine ⟨previous, ?_⟩
    rw [hp, if_neg (by rw [hclosing]; decide), drop_cap]
    simp
  | x :: y :: more, [], _, _, hlen => by simp at hlen
  | x :: y :: more, comma :: commas, hargs, hcommas, hlen => by
    intro fuel acc st closing rest hfuel hpending hclosing
    obtain ⟨k, rfl⟩ : ∃ k, fuel = k + 1 := ⟨fuel - 1, by simp at hfuel; omega⟩
    have hcomma : comma.type = TOKEN_COMMA := hcommas comma (List.mem_cons_self _ _)
    simp only [List.map_cons, separated, List.append_assoc, List.cons_append] at hpending
    obtain ⟨previous, hp⟩ := arguments_round fuel0 k acc st x.1 x.2 comma _
      (hargs x (List.mem_cons_self _ _)) (by simp at hfuel; omega) hpending (Or.inl hcomma)
    rw [hp, if_pos hcomma]
    have hrest : ∃ t ts, separated (y.1 :: List.map Prod.fst more) commas ++ closing :: rest
        = t :: ts := List.exists_cons_of_ne_nil (by simp)
    obtain ⟨t, ts, hts⟩ := hrest
    rw [hts]
    obtain ⟨previous1, hq⟩ := arguments_loop_reads fuel0 (y :: more) commas
      (fun z hz => hargs z (List.mem_cons_of_mem _ hz))
      (fun c hc => hcommas c (List.mem_cons_of_mem _ hc))
      (by simp at hlen ⊢; omega) k (acc ++ [x.2])
      (Parser.advance ⟨⟨comma, previous, st.parser.had_error, st.parser.panic_mode⟩, t :: ts,
        st.stderr ++ (if acc.length ≥ 255 then
          [error (x.1.headD eof) "Can't have more than 255 arguments."] else [])⟩)
      closing rest (by simp at hfuel ⊢; omega)
      (by simp [Parser.advance, ParseState.pending, hts]) hclosing
    refine ⟨previous1, ?_⟩
    rw [hq, drop_cap _ x (y :: more) acc.length]
    simp [Parser.advance]

theorem advance_previous (current previous other : Token) (had_error panic_mode : Bool)
    (tokens : List Token) (stderr : List String) :
    Parser.advance ⟨⟨current, previous, had_error, panic_mode⟩, tokens, stderr⟩
      = Parser.advance ⟨⟨current, other, had_error, panic_mode⟩, tokens, stderr⟩ := by
  cases tokens <;> rfl

theorem parse_arguments_reads (fuel0 : Nat) (arguments : List (List Token × ExprPtr))
    (commas : List Token) (hargs : ∀ x ∈ arguments, Argument fuel0 x.1 x.2)
    (hcommas : ∀ c ∈ commas, c.type = TOKEN_COMMA)
    (hlen : commas.length = arguments.length - 1)
    (fuel : Nat) (st : ParseState) (closing : Token) (rest : List Token)
    (hfuel : fuel0 + arguments.length + 1 ≤ fuel)
    (hpending : st.pending = separated (arguments.map Prod.fst) commas ++ closing :: rest)
    (hclosing : closing.type = TOKEN_RIGHT_PAREN) :
    parse_arguments fuel st
      = .ok (.call .null closing (arguments.map Prod.snd),
          after_token closing rest st (st.stderr
            ++ cap_errors "Can't have more than 255 arguments." (arguments.map Prod.fst))) := by
  obtain ⟨k, rfl⟩ : ∃ k, fuel = k + 1 := ⟨fuel - 1, by omega⟩
  cases arguments with
  | nil =>
    obtain ⟨⟨current, previous, had_error, panic_mode⟩, tokens, stderr⟩ := st
    simp only [ParseState.pending, List.map_nil, separated, List.nil_append,
      List.cons.injEq] at hpending
    obtain ⟨rfl, rfl⟩ := hpending
    rw [parse_arguments]
    simp only [hclosing, ne_eq, not_true_eq_false, if_false, Parser.consume, if_true,
      after_token, cap_errors, List.drop_nil, List.map_nil, List.append_nil, call_expr]
    rw [advance_previous current previous current]
    cases tokens <;> rfl
  | cons x more =>
    obtain ⟨first, tail, hx, hfirst⟩ := argument_first _ _ _ (hargs x (List.mem_cons_self _ _))
    have hcurrent : st.parser.current = first := by
      cases more with
      | nil =>
        simp only [ParseState.pending, List.map_cons, List.map_nil, separated, hx,
          List.cons_append, List.cons.injEq] at hpending
        exact hpending.1
      | cons y more =>
        cases commas with
        | nil => simp at hlen
        | cons c cs =>
          simp only [ParseState.pending, List.map_cons, separated, hx, List.cons_append,
            List.cons.injEq] at hpending
          exact hpending.1
    obtain ⟨previous, hp⟩ := arguments_loop_reads fuel0 (x :: more) commas hargs hcommas
      (by simp at hlen ⊢; omega) k [] st closing rest (by omega) hpending hclosing
    rw [parse_arguments, if_pos (by rw [hcurrent]; exact hfirst), hp]
    simp only [Parser.consume, hclosing, if_true, call_expr, List.nil_append, after_token,
      cap_errors, List.length_nil, Nat.sub_zero, List.map_drop, List.map_map]
    rw [advance_previous closing previous closing]
    cases rest <;> rfl

theorem parameters_round (k : Nat) (acc : List Token) (st : ParseState)
    (param next : Token) (rest : List Token) (hparam : param.type = TOKEN_IDENTIFIER)
    (hpending : st.pending = param :: next :: rest) :
    parameters_loop (k + 1) acc st
      = if next.type = TOKEN_COMMA then
          parameters_loop k (acc ++ [param])
            (Parser.advance ⟨⟨next, param, st.parser.had_error, st.parser.panic_mode⟩, rest,
              st.stderr ++ (if acc.length ≥ 255 then
                [error param "Can't have more than 255 parameters."] else [])⟩)
        else .ok (acc ++ [param],
          ⟨⟨next, param, st.parser.had_error, st.parser.panic_mode⟩, rest,
            st.stderr ++ (if acc.length ≥ 255 then
              [error param "Can't have more than 255 parameters."] else [])⟩) := by
  obtain ⟨⟨current, previous, had_error, panic_mode⟩, tokens, stderr⟩ := st
  simp only [ParseState.pending, List.cons.injEq] at hpending
  obtain ⟨rfl, rfl⟩ := hpending
  rw [parameters_loop]
  by_cases hcap : acc.length ≥ 255 <;> by_cases hc : next.type = TOKEN_COMMA <;>
    simp [hcap, hc, hparam, Parser.consume, Parser.match_type, Parser.advance,
      error_at_current]

theorem parameters_loop_reads :
    ∀ (params commas : List Token),
      (∀ p ∈ params, p.type = TOKEN_IDENTIFIER) → (∀ c ∈ commas, c.type = TOKEN_COMMA) →
      commas.length + 1 = params.length →
      ∀ (fuel : Nat) (acc : List Token) (st : ParseState) (closing : Token)
        (rest : List Token),
        params.length ≤ fuel →
        st.pending = separated (params.map (fun p => [p])) commas ++ closing :: rest →
        closing.type = TOKEN_RIGHT_PAREN →
        ∃ previous, parameters_loop fuel acc st
          = .ok (acc ++ params,
              ⟨⟨closing, previous, st.parser.had_error, st.parser.panic_mode⟩, rest,
                st.stderr ++ ((params.drop (255 - acc.length)).map
                  (fun p => error p "Can't have more than 255 parameters."))⟩)
  | [], _, _, _, hlen => by simp at hlen
  | [x], commas, hparams, _, _ => by
    intro fuel acc st closing rest hfuel hpending hclosing
    obtain ⟨k, rfl⟩ : ∃ k, fuel = k + 1 := ⟨fuel - 1, by simp at hfuel; omega⟩
    simp only [List.map_cons, List.map_nil, separated, List.singleton_append] at hpending
    refine ⟨x, ?_⟩
    rw [parameters_round k acc st x closing rest (hparams x (List.mem_singleton.2 rfl))
      hpending, if_neg (by rw [hclosing]; decide), drop_cap]
    simp
  | x :: y :: more, [], _, _, hlen => by simp at hlen
  | x :: y :: more, comma :: commas, hparams, hcommas, hlen => by
    intro fuel acc st closing rest hfuel hpending hclosing
    obtain ⟨k, rfl⟩ : ∃ k, fuel = k + 1 := ⟨fuel - 1, by simp at hfuel; omega⟩
    have hcomma : comma.type = TOKEN_COMMA := hcommas comma (List.mem_cons_self _ _)
    simp only [List.map_cons, separated, List.singleton_append, List.cons_append,
      List.nil_append, List.append_assoc] at hpending
    rw [parameters_round k acc st x comma _ (hparams x (List.mem_cons_self _ _)) hpending,
      if_pos hcomma]
    have hrest : ∃ t ts, separated ([y] :: List.map (fun p => [p]) more) commas
        ++ closing :: rest = t :: ts := List.exists_cons_of_ne_nil (by simp)
    obtain ⟨t, ts, hts⟩ := hrest
    rw [hts]
    obtain ⟨previous1, hq⟩ := parameters_loop_reads (y :: more) commas
      (fun z hz => hparams z (List.mem_cons_of_mem _ hz))
      (fun c hc => hcommas c (List.mem_cons_of_mem _ hc))
      (by simp at hlen ⊢; omega) k (acc ++ [x])
      (Parser.advance ⟨⟨comma, x, st.parser.had_error, st.parser.panic_mode⟩, t :: ts,
        st.stderr ++ (if acc.length ≥ 255 then
          [error x "Can't have more than 255 parameters."] else [])⟩)
      closing rest (by simp at hfuel ⊢; omega)
      (by simp [Parser.advance, ParseState.pending, hts]) hclosing
    refine ⟨previous1, ?_⟩
    rw [hq, drop_cap _ x (y :: more) acc.length]
    simp [Parser.advance]

theorem parse_func_declaration_reads (params commas : List Token)
    (hparams : ∀ p ∈ params, p.type = TOKEN_IDENTIFIER)
    (hcommas : ∀ c ∈ commas, c.type = TOKEN_COMMA) (hlen : commas.length = params.length - 1)
    (fuel : Nat) (st : ParseState) (name opening closing brace : Token) (rest : List Token)
    (body : List StmtPtr) (st1 : ParseState) (hfuel : params.length ≤ fuel)
    (hpending : st.pending = name :: opening
      :: (separated (params.map (fun p => [p])) commas ++ closing :: brace :: rest))
    (hname : name.type = TOKEN_IDENTIFIER) (hopening : opening.type = TOKEN_LEFT_PAREN)
    (hclosing : closing.type = TOKEN_RIGHT_PAREN) (hbrace : brace.type = TOKEN_LEFT_BRACE)
    (hbody : declaration_loop fuel [] (after_token brace rest st (st.stderr
      ++ cap_errors "Can't have more than 255 parameters." (params.map (fun p => [p]))))
        = .ok (body, st1)) :
    parse_func_declaration (fuel + 1) st
      = .ok (.func name params body,
          Parser.consume st1 TOKEN_RIGHT_BRACE "Expect '\x7d' after function body.") := by
  obtain ⟨⟨current, previous, had_error, panic_mode⟩, tokens, stderr⟩ := st
  simp only [ParseState.pending, List.cons.injEq] at hpending
  obtain ⟨rfl, rfl⟩ := hpending
  simp only [after_token] at hbody
  rw [advance_previous brace brace closing] at hbody
  obtain ⟨t, ts, hts⟩ : ∃ t ts, separated (List.map (fun p => [p]) params) commas
      ++ closing :: brace :: rest = t :: ts := List.exists_cons_of_ne_nil (by simp)
  have h1 : Parser.consume ⟨⟨current, previous, had_error, panic_mode⟩, opening
      :: (separated (List.map (fun p => [p]) params) commas ++ closing :: brace :: rest),
        stderr⟩ TOKEN_IDENTIFIER "Expect function name."
      = ⟨⟨opening, current, had_error, panic_mode⟩, t :: ts, stderr⟩ := by
    simp [Parser.consume, Parser.advance, hname, hts]
  have h2 : Parser.consume ⟨⟨opening, current, had_error, panic_mode⟩, t :: ts, stderr⟩
      TOKEN_LEFT_PAREN "Expect '(' after function name."
      = ⟨⟨t, opening, had_error, panic_mode⟩, ts, stderr⟩ := by
    simp [Parser.consume, Parser.advance, hopening]
  have h3 : ∀ (previous1 : Token) (errors : List String),
      Parser.consume ⟨⟨closing, previous1, had_error, panic_mode⟩, brace :: rest, errors⟩
        TOKEN_RIGHT_PAREN "Expect ')' after parameters."
      = ⟨⟨brace, closing, had_error, panic_mode⟩, rest, errors⟩ := by
    intro previous1 errors
    simp [Parser.consume, Parser.advance, hclosing]
  have h4 : ∀ (errors : List String),
      Parser.consume ⟨⟨brace, closing, had_error, panic_mode⟩, rest, errors⟩
        TOKEN_LEFT_BRACE "Expect '\x7b' before function body."
      = Parser.advance ⟨⟨brace, closing, had_error, panic_mode⟩, rest, errors⟩ := by
    intro errors
    simp [Parser.consume, hbrace]
  rw [parse_func_declaration]
  simp only [h1, h2]
  cases params with
  | nil =>
    simp only [List.map_nil, separated, List.nil_append, List.cons.injEq] at hts
    obtain ⟨rfl, rfl⟩ := hts
    simp only [List.map_nil, cap_errors, List.drop_nil, List.append_nil] at hbody
    simp only [hclosing, ne_eq, not_true_eq_false, if_false, h3, h4, hbody]
    rfl
  | cons x more =>
    have ht : t = x := by
      cases more with
      | nil =>
        simp only [List.map_cons, List.map_nil, separated, List.singleton_append,
          List.cons.injEq] at hts
        exact hts.1.symm
      | cons y more =>
        cases commas with
        | nil => simp at hlen
        | cons c cs =>
          simp only [List.map_cons, separated, List.singleton_append, List.cons_append,
            List.cons.injEq] at hts
          exact hts.1.symm
    obtain ⟨previous1, hp⟩ := parameters_loop_reads (x :: more) commas hparams hcommas
      (by simp at hlen ⊢; omega) fuel []
      ⟨⟨t, opening, had_error, panic_mode⟩, ts, stderr⟩ closing (brace :: rest) hfuel
      (by simp only [ParseState.pending, hts]) hclosing
    have hx : t.type ≠ TOKEN_RIGHT_PAREN := by
      rw [ht, hparams x (List.mem_cons_self _ _)]
      decide
    simp only [cap_errors, ← List.map_drop, List.map_map] at hbody
    have hf : ((fun entry => error (List.headD entry eof) "Can't have more than 255 parameters.")
        ∘ fun p => [p]) = fun p => error p "Can't have more than 255 parameters." := rfl
    rw [hf] at hbody
    simp only [ne_eq, hx, not_false_eq_true, if_true, hp, h3, h4, List.nil_append,
      List.length_nil, Nat.sub_zero, hbody]
    rfl

theorem cap_errors_length (message : String) (entries : List (List Token)) :
    (cap_errors message entries).length = entries.length - 255 := by
  simp [cap_errors]

/-- C17: for every n, a call argument list of n well-formed arguments
(each a run of tokens parse_expression reads into its expression when a
comma or the closing parenthesis follows) separated by commas and closed by
a parenthesis makes parse_arguments return the Call node holding the n
expressions in order, and a parameter list of n identifiers makes
parse_func_declaration return the FunctionDecl node holding the n names in
order, once the body is parsed; the only diagnostics added for the list are
the more than 255 ones, one for each entry after the 255th: their number is
n - 255, none for n ≤ 255 and one for n = 256. -/
theorem lists_hold_every_entry (fuel0 : Nat) (arguments : List (List Token × ExprPtr))
    (commas params separators : List Token)
    (hargs : ∀ x ∈ arguments, Argument fuel0 x.1 x.2)
    (hcommas : ∀ c ∈ commas, c.type = TOKEN_COMMA)
    (hlen : commas.length = arguments.length - 1)
    (hparams : ∀ p ∈ params, p.type = TOKEN_IDENTIFIER)
    (hseparators : ∀ c ∈ separators, c.type = TOKEN_COMMA)
    (hlength : separators.length = params.length - 1) :
    (∀ (fuel : Nat) (st : ParseState) (closing : Token) (rest : List Token),
        fuel0 + arguments.length + 1 ≤ fuel →
        st.pending = separated (arguments.map Prod.fst) commas ++ closing :: rest →
        closing.type = TOKEN_RIGHT_PAREN →
        parse_arguments fuel st
          = .ok (.call .null closing (arguments.map Prod.snd),
              after_token closing rest st (st.stderr
                ++ cap_errors "Can't have more than 255 arguments."
                  (arguments.map Prod.fst))))
      ∧ (∀ (fuel : Nat) (st : ParseState) (name opening closing brace : Token)
          (rest : List Token) (body : List StmtPtr) (st1 : ParseState),
        params.length ≤ fuel →
        st.pending = name :: opening
          :: (separated (params.map (fun p => [p])) separators ++ closing :: brace :: rest) →
        name.type = TOKEN_IDENTIFIER → opening.type = TOKEN_LEFT_PAREN →
        closing.type = TOKEN_RIGHT_PAREN → brace.type = TOKEN_LEFT_BRACE →
        declaration_loop fuel [] (after_token brace rest st (st.stderr
          ++ cap_errors "Can't have more than 255 parameters." (params.map (fun p => [p]))))
            = .ok (body, st1) →
        parse_func_declaration (fuel + 1) st
          = .ok (.func name params body,
              Parser.consume st1 TOKEN_RIGHT_BRACE "Expect '\x7d' after function body."))
      ∧ (cap_errors "Can't have more than 255 arguments." (arguments.map Prod.fst)).length
          = arguments.length - 255
      ∧ (cap_errors "Can't have more than 255 parameters."
          (params.map (fun p => [p]))).length = params.length - 255 :=
  ⟨fun fuel st closing rest hfuel hpending hclosing =>
      parse_arguments_reads fuel0 arguments commas hargs hcommas hlen fuel st closing rest
        hfuel hpending hclosing,
    fun fuel st name opening closing brace rest body st1 hfuel hpending hname hopening
        hclosing hbrace hbody =>
      parse_func_declaration_reads params separators hparams hseparators hlength fuel st name
        opening closing brace rest body st1 hfuel hpending hname hopening hclosing hbrace
        hbody,
    by rw [cap_errors_length, List.length_map], by rw [cap_errors_length, List.length_map]⟩

set_option maxRecDepth 100000 in
/-- Witness of C17: the call arguments a, a, ..., a (256 identifiers, 255
commas) and the declaration func f(a, ..., a) \x7b \x7d with 256 parameters:
both nodes hold the 256 entries and one diagnostic is reported, at the
256th entry. -/
theorem lists_hold_every_entry_witness :
    parse_arguments 268 (parser_on
        (separated (List.replicate 256 [identifier_token "a"])
            (List.replicate 255 (tk TOKEN_COMMA ","))
          ++ [tk TOKEN_RIGHT_PAREN ")", eof]))
        = .ok (.call .null (tk TOKEN_RIGHT_PAREN ")")
              (List.replicate 256 (.variable (identifier_token "a"))),
            ⟨⟨eof, tk TOKEN_RIGHT_PAREN ")", false, false⟩, [],
              ["[line 1] Error at 'a': Can't have more than 255 arguments.\n"]⟩)
      ∧ parse_func_declaration 257 (parser_on
        (identifier_token "f" :: tk TOKEN_LEFT_PAREN "("
          :: (separated (List.replicate 256 [identifier_token "a"])
              (List.replicate 255 (tk TOKEN_COMMA ","))
            ++ [tk TOKEN_RIGHT_PAREN ")", tk TOKEN_LEFT_BRACE "\x7b",
              tk TOKEN_RIGHT_BRACE "\x7d", eof])))
        = .ok (.func (identifier_token "f") (List.replicate 256 (identifier_token "a")) [],
            ⟨⟨eof, tk TOKEN_RIGHT_BRACE "\x7d", false, false⟩, [],
              ["[line 1] Error at 'a': Can't have more than 255 parameters.\n"]⟩) :=
  have h := lists_hold_every_entry 11
    (List.replicate 256 ([identifier_token "a"], .variable (identifier_token "a")))
    (List.replicate 255 (tk TOKEN_COMMA ",")) (List.replicate 256 (identifier_token "a"))
    (List.replicate 255 (tk TOKEN_COMMA ","))
    (fun _ hx => List.eq_of_mem_replicate hx ▸ identifier_argument _ rfl)
    (fun _ hc => List.eq_of_mem_replicate hc ▸ rfl) (by simp)
    (fun _ hp => List.eq_of_mem_replicate hp ▸ rfl)
    (fun _ hc => List.eq_of_mem_replicate hc ▸ rfl) (by simp)
  ⟨h.1 268 _ (tk TOKEN_RIGHT_PAREN ")") [eof] (by simp) rfl rfl,
    h.2.1 256 _ (identifier_token "f") (tk TOKEN_LEFT_PAREN "(") (tk TOKEN_RIGHT_PAREN ")")
      (tk TOKEN_LEFT_BRACE "\x7b") [tk TOKEN_RIGHT_BRACE "\x7d", eof] []
      ⟨⟨tk TOKEN_RIGHT_BRACE "\x7d", tk TOKEN_LEFT_BRACE "\x7b", false, false⟩, [eof],
        ["[line 1] Error at 'a': Can't have more than 255 parameters.\n"]⟩
      (by simp) rfl rfl rfl rfl rfl rfl⟩

/-! ## Every round of the declaration loop consumes a token -/

theorem tokens_ne_nil (st : ParseState) (hend : st.ends_in_eof)
    (hcurrent : st.parser.current.type ≠ TOKEN_EOF) : st.tokens ≠ [] := by
  intro h
  apply hcurrent
  simpa [ParseState.ends_in_eof, ParseState.last_token, h] using hend

theorem Keeps.ends_in_eof {st st1 : ParseState} (h : Keeps st st1) (hend : st.ends_in_eof) :
    st1.ends_in_eof := by
  unfold ParseState.ends_in_eof at hend ⊢
  rw [h.2.2.2]
  exact hend

theorem advance_length (st : ParseState) :
    (Parser.advance st).tokens.length = st.tokens.length - 1 := by
  unfold Parser.advance
  split <;> rename_i h <;> simp [h]

theorem consume_length (st : ParseState) (type : TokenType) (message : String) :
    (Parser.consume st type message).tokens.length = st.tokens.length - 1 := by
  unfold Parser.consume
  split
  · exact advance_length st
  · rw [advance_length]
    rfl

theorem match_type_true (st : ParseState) (type : TokenType)
    (h : (Parser.match_type st type).1 = true) :
    st.parser.current.type = type ∧ (Parser.match_type st type).2 = Parser.advance st := by
  unfold Parser.match_type at h ⊢
  split at h
  · rename_i hc
    simp [hc]
  · simp at h

theorem declaration_consumes (fuel : Nat) (st : ParseState) (stmt : StmtPtr)
    (st1 : ParseState) (h : parse_declaration fuel st = .ok (stmt, st1))
    (hne : st.tokens ≠ []) : st1.tokens.length < st.tokens.length := by
  have hpos : 0 < st.tokens.length := List.length_pos.2 hne
  have after : ∀ type st2, (Parser.match_type st type).1 = true →
      Keeps (Parser.match_type st type).2 st2 → st2.tokens.length < st.tokens.length := by
    intro type st2 hm hk
    have hlen := hk.2.2.1
    rw [(match_type_true st type hm).2, advance_length] at hlen
    omega
  cases fuel with
  | zero => simp [parse_declaration] at h
  | succ n =>
    rw [parse_declaration] at h
    split at h
    · rename_i hm
      exact after _ _ hm ((keeps_statements n).2.1 _ _ _ h)
    · cases n with
      | zero => simp [parse_statement] at h
      | succ m =>
        rw [parse_statement] at h
        split_ifs at h with h1 h2 h3 h4 h5
        · exact after _ _ h1 ((keeps_statements m).2.2.2.2.2.1 _ _ _ h)
        · exact after _ _ h2 ((keeps_statements m).2.2.2.2.2.2.1 _ _ _ h)
        · exact after _ _ h3 ((keeps_statements m).2.2.2.2.2.2.2.1 _ _ _ h)
        · exact after _ _ h4 ((keeps_statements m).2.2.2.2.2.2.2.2.1 _ _ _ h)
        · exact after _ _ h5 ((keeps_statements m).2.2.2.2.2.2.2.2.2 _ _ _ h)
        · cases m with
          | zero => simp [parse_expr_statement] at h
          | succ k =>
            rw [parse_expr_statement] at h
            split at h
            · cases h
            · rename_i expr st2 h6
              simp only [Except.ok.injEq, Prod.mk.injEq] at h
              obtain ⟨_, rfl⟩ := h
              have hlen := (keeps_parse_expression k _ _ _ h6).2.2.1
              rw [consume_length]
              omega

/-! ## The parsing functions terminate -/

theorem error_ne {α β : Type} (r : Parse α) (e : Failure) (heq : r = .error e)
    (hr : r ≠ .error .out_of_fuel) : (.error e : Parse β) ≠ .error .out_of_fuel := by
  subst heq
  intro h
  apply hr
  cases h
  rfl

theorem advance_ends_in_eof (st : ParseState) (hend : st.ends_in_eof) :
    (Parser.advance st).ends_in_eof :=
  (keeps_advance st).ends_in_eof hend

theorem advance_shorter (st : ParseState) (hend : st.ends_in_eof)
    (hcurrent : st.parser.current.type ≠ TOKEN_EOF) :
    (Parser.advance st).tokens.length + 1 = st.tokens.length := by
  have h := List.length_pos.2 (tokens_ne_nil st hend hcurrent)
  rw [advance_length]
  omega

theorem binary_loop_terminates (is_operator : TokenType → Bool)
    (make : ExprPtr → Token → ExprPtr → ExprPtr) (operand : ParseState → Parse ExprPtr)
    (hk : KeepsAll operand) (hnot : is_operator TOKEN_EOF = false) (s : Nat)
    (hop : ∀ st : ParseState, st.ends_in_eof → st.tokens.length + 1 ≤ s →
      operand st ≠ .error .out_of_fuel) :
    ∀ (m : Nat) (expr : ExprPtr) (st : ParseState), st.ends_in_eof → st.tokens.length ≤ s →
      st.tokens.length + 1 ≤ m →
      binary_loop is_operator make operand m expr st ≠ .error .out_of_fuel
  | 0, _, _, _, _, hm => by omega
  | m + 1, expr, st, hend, hs, hm => by
    unfold binary_loop
    split
    · rename_i hc
      have hcurrent : st.parser.current.type ≠ TOKEN_EOF := by
        intro h
        rw [h, hnot] at hc
        cases hc
      have hlen := advance_shorter st hend hcurrent
      have h1 := hop (Parser.advance st) (advance_ends_in_eof st hend) (by omega)
      split
      · rename_i right st1 heq
        have k := hk _ _ _ heq
        exact binary_loop_terminates is_operator make operand hk hnot s hop m _ st1
          (k.ends_in_eof (advance_ends_in_eof st hend)) (by have := k.2.2.1; omega)
          (by have := k.2.2.1; omega)
      · rename_i e heq
        exact error_ne _ _ heq h1
    · intro h
      cases h

theorem operands_terminate (is_operator : TokenType → Bool)
    (make : ExprPtr → Token → ExprPtr → ExprPtr) (operand : ParseState → Parse ExprPtr)
    (hk : KeepsAll operand) (hnot : is_operator TOKEN_EOF = false) (fuel : Nat)
    (st : ParseState) (hend : st.ends_in_eof) (hfirst : operand st ≠ .error .out_of_fuel)
    (hop : ∀ st1 : ParseState, st1.ends_in_eof → st1.tokens.length + 1 ≤ st.tokens.length →
      operand st1 ≠ .error .out_of_fuel)
    (hfuel : st.tokens.length + 1 ≤ fuel) :
    (match operand st with
      | .error e => (.error e : Parse ExprPtr)
      | .ok (expr, st1) => binary_loop is_operator make operand fuel expr st1)
        ≠ .error .out_of_fuel := by
  split
  · rename_i e heq
    exact error_ne _ _ heq hfirst
  · rename_i expr st1 heq
    have k := hk _ _ _ heq
    exact binary_loop_terminates is_operator make operand hk hnot st.tokens.length hop fuel _
      st1 (k.ends_in_eof hend) k.2.2.1 (by have := k.2.2.1; omega)

theorem expressions_terminate (fuel : Nat) :
    Terminates 11 fuel (parse_expression fuel) ∧ Terminates 10 fuel (parse_assignment fuel)
      ∧ Terminates 9 fuel (parse_logical_or fuel) ∧ Terminates 8 fuel (parse_logical_and fuel)
      ∧ Terminates 7 fuel (parse_equality fuel) ∧ Terminates 6 fuel (parse_comparison fuel)
      ∧ Terminates 5 fuel (parse_term fuel) ∧ Terminates 4 fuel (parse_factor fuel)
      ∧ Terminates 3 fuel (parse_unary fuel) ∧ Terminates 2 fuel (parse_call fuel)
      ∧ (∀ expr, Terminates 1 fuel (call_loop fuel expr))
      ∧ (∀ callee, Terminates 14 fuel (finish_call fuel callee))
      ∧ Terminates 13 fuel (parse_arguments fuel)
      ∧ (∀ args, Terminates 12 fuel (arguments_loop fuel args))
      ∧ Terminates 1 fuel (parse_primary fuel) := by
  induction fuel with
  | zero =>
    refine ⟨?_, ?_, ?_, ?_, ?_, ?_, ?_, ?_, ?_, ?_, ?_, ?_, ?_, ?_, ?_⟩ <;>
      intros <;> intro _ _ hfuel <;> omega
  | succ n ih =>
    obtain ⟨hexp, hasg, hor, hand, heq, hcmp, htrm, hfac, hun, hcall, hloop, hfin, hargs,
      haloop, hprim⟩ := ih
    obtain ⟨kexp, kasg, kor, kand, keq, kcmp, ktrm, kfac, kun, kcall, kloop, kfin, kargs,
      kaloop, kprim⟩ := keeps_expressions n
    refine ⟨?_, ?_, ?_, ?_, ?_, ?_, ?_, ?_, ?_, ?_, ?_, ?_, ?_, ?_, ?_⟩
    · intro st hend hfuel
      rw [parse_expression]
      exact hasg st hend (by omega)
    · intro st hend hfuel
      rw [parse_assignment]
      have h1 := hor st hend (by omega)
      split
      · rename_i e h
        exact error_ne _ _ h h1
      · rename_i expr st1 h
        have k := kor _ _ _ h
        split
        · rename_i hc
          have hlen := advance_shorter st1 (k.ends_in_eof hend) (by rw [hc]; decide)
          have h2 := hasg (Parser.advance st1)
            (advance_ends_in_eof st1 (k.ends_in_eof hend)) (by have := k.2.2.1; omega)
          split
          · rename_i e h3
            exact error_ne _ _ h3 h2
          · split <;> intro h4 <;> cases h4
        · intro h4
          cases h4
    · intro st hend hfuel
      rw [parse_logical_or]
      exact operands_terminate is_or_operator logical_expr _ kand rfl n st hend (hand st hend (by omega))
        (fun st1 h1 hl => hand st1 h1 (by omega)) (by omega)
    · intro st hend hfuel
      rw [parse_logical_and]
      exact operands_terminate is_and_operator logical_expr _ keq rfl n st hend (heq st hend (by omega))
        (fun st1 h1 hl => heq st1 h1 (by omega)) (by omega)
    · intro st hend hfuel
      rw [parse_equality]
      exact operands_terminate is_equality_operator binary_expr _ kcmp rfl n st hend (hcmp st hend (by omega))
        (fun st1 h1 hl => hcmp st1 h1 (by omega)) (by omega)
    · intro st hend hfuel
      rw [parse_comparison]
      exact operands_terminate is_comparison_operator binary_expr _ ktrm rfl n st hend (htrm st hend (by omega))
        (fun st1 h1 hl => htrm st1 h1 (by omega)) (by omega)
    · intro st hend hfuel
      rw [parse_term]
      exact operands_terminate is_term_operator binary_expr _ kfac rfl n st hend (hfac st hend (by omega))
        (fun st1 h1 hl => hfac st1 h1 (by omega)) (by omega)
    · intro st hend hfuel
      rw [parse_factor]
      exact operands_terminate is_factor_operator binary_expr _ kun rfl n st hend (hun st hend (by omega))
        (fun st1 h1 hl => hun st1 h1 (by omega)) (by omega)
    · intro st hend hfuel
      rw [parse_unary]
      split
      · rename_i hc
        have hcurrent : st.parser.current.type ≠ TOKEN_EOF := by
          rcases hc with hc | hc <;> rw [hc] <;> decide
        have hlen := advance_shorter st hend hcurrent
        have h1 := hun (Parser.advance st) (advance_ends_in_eof st hend) (by omega)
        split
        · rename_i e h
          exact error_ne _ _ h h1
        · intro h4
          cases h4
      · exact hcall st hend (by omega)
    · intro st hend hfuel
      rw [parse_call]
      have h1 := hprim st hend (by omega)
      split
      · rename_i e h
        exact error_ne _ _ h h1
      · rename_i expr st1 h
        have k := kprim _ _ _ h
        exact hloop expr st1 (k.ends_in_eof hend) (by have := k.2.2.1; omega)
    · intro expr st hend hfuel
      rw [call_loop]
      split
      · rename_i hc
        have hlen := advance_shorter st hend (by rw [hc]; decide)
        have h1 := hfin expr (Parser.advance st) (advance_ends_in_eof st hend) (by omega)
        split
        · rename_i e h
          exact error_ne _ _ h h1
        · rename_i call st1 h
          have k := kfin _ _ _ _ h
          exact hloop call st1 (k.ends_in_eof (advance_ends_in_eof st hend))
            (by have := k.2.2.1; omega)
      · intro h4
        cases h4
    · intro callee st hend hfuel
      rw [finish_call]
      have h1 := hargs st hend (by omega)
      split
      · rename_i e h
        exact error_ne _ _ h h1
      · intro h4
        cases h4
      · intro h4
        cases h4
    · intro st hend hfuel
      rw [parse_arguments]
      split
      · have h1 := haloop [] st hend (by omega)
        split
        · rename_i e h
          exact error_ne _ _ h h1
        · intro h4
          cases h4
      · intro h4
        cases h4
    · intro args st hend hfuel
      rw [arguments_loop]
      have hst : ∀ st0 : ParseState, st0.tokens = st.tokens → st0.last_token = st.last_token →
          (match parse_expression n st0 with
            | .error e => (.error e : Parse (List ExprPtr))
            | .ok (arg, st2) =>
              if (Parser.match_type st2 TOKEN_COMMA).1 then
                arguments_loop n (args ++ [arg]) (Parser.match_type st2 TOKEN_COMMA).2
              else .ok (args ++ [arg], st2)) ≠ .error .out_of_fuel := by
        intro st0 htokens hlast
        have hend0 : st0.ends_in_eof := by
          unfold ParseState.ends_in_eof
          rw [hlast]
          exact hend
        have h1 := hexp st0 hend0 (by rw [htokens]; omega)
        split
        · rename_i e h
          exact error_ne _ _ h h1
        · rename_i arg st2 h
          have k := kexp _ _ _ h
          split
          · rename_i hm
            obtain ⟨hc, hadv⟩ := match_type_true st2 TOKEN_COMMA hm
            have hlen := advance_shorter st2 (k.ends_in_eof hend0) (by rw [hc]; decide)
            rw [hadv]
            exact haloop _ _ (advance_ends_in_eof st2 (k.ends_in_eof hend0))
              (by have := k.2.2.1; rw [htokens] at this; omega)
          · intro h4
            cases h4
      by_cases hcap : args.length ≥ 255
      · rw [if_pos hcap]
        exact hst _ rfl rfl
      · rw [if_neg hcap]
        exact hst _ rfl rfl
    · intro st hend hfuel
      rw [parse_primary]
      split_ifs with h1 h2 h3 h4 h5 h6
      · intro h
        cases h
      · intro h
        cases h
      · intro h
        cases h
      · intro h
        cases h
      · intro h
        cases h
      · have hlen := advance_shorter st hend (by rw [h6]; decide)
        have h7 := hexp (Parser.advance st) (advance_ends_in_eof st hend) (by omega)
        split
        · rename_i e h
          exact error_ne _ _ h h7
        · intro h
          cases h
      · intro h
        cases h

theorem parameters_loop_terminates :
    ∀ (fuel : Nat) (params : List Token), Terminates 1 fuel (parameters_loop fuel params)
  | 0, _, _, _, hfuel => by omega
  | n + 1, params, st, hend, hfuel => by
    rw [parameters_loop]
    have k0 : Keeps st (if params.length ≥ 255 then
        error_at_current st "Can't have more than 255 parameters." else st) := by
      split
      · exact keeps_error_at_current _ _
      · exact Keeps.refl _
    generalize (if params.length ≥ 255 then
      error_at_current st "Can't have more than 255 parameters." else st) = sta at k0 ⊢
    have k1 := k0.trans (keeps_consume sta TOKEN_IDENTIFIER "Expect parameter name.")
    generalize Parser.consume sta TOKEN_IDENTIFIER "Expect parameter name." = stb at k1 ⊢
    split
    · rename_i hm
      obtain ⟨hc, hadv⟩ := match_type_true stb TOKEN_COMMA hm
      have hlen := advance_shorter stb (k1.ends_in_eof hend) (by rw [hc]; decide)
      rw [hadv]
      exact parameters_loop_terminates n _ _ (advance_ends_in_eof stb (k1.ends_in_eof hend))
        (by have := k1.2.2.1; omega)
    · intro h
      cases h

theorem statements_terminate (fuel : Nat) :
    Terminates 14 fuel (parse_declaration fuel)
      ∧ Terminates 12 fuel (parse_var_declaration fuel)
      ∧ Terminates 13 fuel (parse_statement fuel)
      ∧ Terminates 12 fuel (parse_expr_statement fuel)
      ∧ (∀ stmts, Terminates 15 fuel (declaration_loop fuel stmts))
      ∧ Terminates 16 fuel (parse_block_statement fuel)
      ∧ Terminates 14 fuel (parse_if_statement fuel)
      ∧ Terminates 14 fuel (parse_while_statement fuel)
      ∧ Terminates 16 fuel (parse_func_declaration fuel)
      ∧ Terminates 12 fuel (parse_return_statement fuel) := by
  induction fuel with
  | zero =>
    refine ⟨?_, ?_, ?_, ?_, ?_, ?_, ?_, ?_, ?_, ?_⟩ <;>
      intros <;> intro _ _ hfuel <;> omega
  | succ n ih =>
    obtain ⟨hdecl, hvar, hstmt, hexpr, hloop, hblock, hif, hwhile, hfunc, hret⟩ := ih
    obtain ⟨kdecl, kvar, kstmt, kexpr, kloop, kblock, kif, kwhile, kfunc, kret⟩ :=
      keeps_statements n
    have hexp := (expressions_terminate n).1
    have kexp := keeps_parse_expression n
    have strict : ∀ (type : TokenType) (level : Nat) (f : ParseState → Parse StmtPtr)
        (st : ParseState), type ≠ TOKEN_EOF → Terminates level n f → level ≤ 32 →
        st.ends_in_eof → 32 * st.tokens.length + 1 ≤ n + 1 →
        (Parser.match_type st type).1 = true →
        f (Parser.match_type st type).2 ≠ .error .out_of_fuel := by
      intro type level f st htype hf hlevel hend hfuel hm
      obtain ⟨hc, hadv⟩ := match_type_true st type hm
      have hlen := advance_shorter st hend (by rw [hc]; exact htype)
      rw [hadv]
      exact hf (Parser.advance st) (advance_ends_in_eof st hend) (by omega)
    refine ⟨?_, ?_, ?_, ?_, ?_, ?_, ?_, ?_, ?_, ?_⟩
    · intro st hend hfuel
      rw [parse_declaration]
      split
      · rename_i hm
        exact strict TOKEN_VAR 12 _ st (by decide) hvar (by omega) hend (by omega) hm
      · exact hstmt st hend (by omega)
    · intro st hend hfuel
      rw [parse_var_declaration]
      have k0 := keeps_consume st TOKEN_IDENTIFIER "Expect variable name."
      generalize Parser.consume st TOKEN_IDENTIFIER "Expect variable name." = sta at k0 ⊢
      split
      · have k1 := k0.trans (keeps_match_type sta TOKEN_EQUAL)
        have h1 := hexp _ (k1.ends_in_eof hend) (by have := k1.2.2.1; omega)
        split
        · rename_i e h
          exact error_ne _ _ h h1
        · intro h
          cases h
      · intro h
        cases h
    · intro st hend hfuel
      rw [parse_statement]
      split_ifs with h1 h2 h3 h4 h5
      · exact strict TOKEN_LEFT_BRACE 16 _ st (by decide) hblock (by omega) hend (by omega) h1
      · exact strict TOKEN_IF 14 _ st (by decide) hif (by omega) hend (by omega) h2
      · exact strict TOKEN_WHILE 14 _ st (by decide) hwhile (by omega) hend (by omega) h3
      · exact strict TOKEN_FUNC 16 _ st (by decide) hfunc (by omega) hend (by omega) h4
      · exact strict TOKEN_RETURN 12 _ st (by decide) hret (by omega) hend (by omega) h5
      · exact hexpr st hend (by omega)
    · intro st hend hfuel
      rw [parse_expr_statement]
      have h1 := hexp st hend (by omega)
      split
      · rename_i e h
        exact error_ne _ _ h h1
      · intro h
        cases h
    · intro stmts st hend hfuel
      rw [declaration_loop]
      split
      · rename_i hc
        have h1 := hdecl st hend (by omega)
        split
        · rename_i e h
          exact error_ne _ _ h h1
        · rename_i stmt st1 h
          have k := kdecl _ _ _ h
          have hlt := declaration_consumes n st stmt st1 h (tokens_ne_nil st hend hc.2)
          exact hloop _ st1 (k.ends_in_eof hend) (by omega)
      · intro h
        cases h
    · intro st hend hfuel
      rw [parse_block_statement]
      have h1 := hloop [] st hend (by omega)
      split
      · rename_i e h
        exact error_ne _ _ h h1
      · intro h
        cases h
    · intro st hend hfuel
      rw [parse_if_statement]
      have k0 := keeps_consume st TOKEN_LEFT_PAREN "Expect '(' after 'if'."
      have h1 := hexp _ (k0.ends_in_eof hend) (by have := k0.2.2.1; omega)
      split
      · rename_i e h
        exact error_ne _ _ h h1
      · rename_i condition st1 h
        have k1 := (k0.trans (kexp _ _ _ h)).trans
          (keeps_consume st1 TOKEN_RIGHT_PAREN "Expect ')' after if condition.")
        have h2 := hstmt _ (k1.ends_in_eof hend) (by have := k1.2.2.1; omega)
        split
        · rename_i e h
          exact error_ne _ _ h h2
        · rename_i then_branch st2 h
          have k2 := (k1.trans (kstmt _ _ _ h)).trans (keeps_match_type st2 TOKEN_ELSE)
          have h3 := hstmt _ (k2.ends_in_eof hend) (by have := k2.2.2.1; omega)
          split
          · split
            · rename_i e h
              exact error_ne _ _ h h3
            · intro h
              cases h
          · intro h
            cases h
    · intro st hend hfuel
      rw [parse_while_statement]
      have k0 := keeps_consume st TOKEN_LEFT_PAREN "Expect '(' after 'while'."
      have h1 := hexp _ (k0.ends_in_eof hend) (by have := k0.2.2.1; omega)
      split
      · rename_i e h
        exact error_ne _ _ h h1
      · rename_i condition st1 h
        have k1 := (k0.trans (kexp _ _ _ h)).trans
          (keeps_consume st1 TOKEN_RIGHT_PAREN "Expect ')' after while condition.")
        have h2 := hstmt _ (k1.ends_in_eof hend) (by have := k1.2.2.1; omega)
        split
        · rename_i e h
          exact error_ne _ _ h h2
        · intro h
          cases h
    · intro st hend hfuel
      rw [parse_func_declaration]
      have k0 := (keeps_consume st TOKEN_IDENTIFIER "Expect function name.").trans
        (keeps_consume _ TOKEN_LEFT_PAREN "Expect '(' after function name.")
      generalize Parser.consume (Parser.consume st TOKEN_IDENTIFIER "Expect function name.")
        TOKEN_LEFT_PAREN "Expect '(' after function name." = stb at k0 ⊢
      simp only []
      have h1 : (if stb.parser.current.type ≠ TOKEN_RIGHT_PAREN then parameters_loop n [] stb
          else .ok ([], stb)) ≠ .error .out_of_fuel := by
        split
        · exact parameters_loop_terminates n [] stb (k0.ends_in_eof hend)
            (by have := k0.2.2.1; omega)
        · intro h
          cases h
      split
      · rename_i e h
        exact error_ne _ _ h h1
      · rename_i params st3 h
        have k1 : Keeps st st3 := by
          split at h
          · exact k0.trans (keeps_parameters_loop _ _ _ _ _ h)
          · simp only [Except.ok.injEq, Prod.mk.injEq] at h
            obtain ⟨_, rfl⟩ := h
            exact k0
        have k2 := (k1.trans (keeps_consume st3 TOKEN_RIGHT_PAREN
          "Expect ')' after parameters.")).trans (keeps_consume _ TOKEN_LEFT_BRACE
            "Expect '\x7b' before function body.")
        have h2 := hloop [] _ (k2.ends_in_eof hend) (by have := k2.2.2.1; omega)
        split
        · rename_i e h
          exact error_ne _ _ h h2
        · intro h
          cases h
    · intro st hend hfuel
      rw [parse_return_statement]
      split
      · have h1 := hexp st hend (by omega)
        split
        · rename_i e h
          exact error_ne _ _ h h1
        · intro h
          cases h
      · intro h
        cases h

theorem declaration_loop_stops :
    ∀ (fuel : Nat) (stmts : List StmtPtr) (st : ParseState) (r : List StmtPtr)
      (st1 : ParseState), declaration_loop fuel stmts st = .ok (r, st1) →
      (st1.parser.current.type = TOKEN_RIGHT_BRACE ∨ st1.parser.current.type = TOKEN_EOF)
        ∧ ∃ more, r = stmts ++ more
  | 0, _, _, _, _, h => by simp [declaration_loop] at h
  | n + 1, stmts, st, r, st1, h => by
    rw [declaration_loop] at h
    split at h
    · split at h
      · cases h
      · rename_i stmt st2 h1
        obtain ⟨hstop, more, hmore⟩ := declaration_loop_stops n _ _ _ _ h
        exact ⟨hstop, stmt :: more, by rw [hmore, List.append_assoc]; rfl⟩
    · rename_i hc
      simp only [Except.ok.injEq, Prod.mk.injEq] at h
      obtain ⟨rfl, rfl⟩ := h
      refine ⟨?_, [], (List.append_nil _).symm⟩
      by_cases hb : st.parser.current.type = TOKEN_RIGHT_BRACE
      · exact Or.inl hb
      · by_cases he : st.parser.current.type = TOKEN_EOF
        · exact Or.inr he
        · exact absurd ⟨hb, he⟩ hc

/-- On a token stream that ends in the end-of-input token, with 32 units of
fuel for each token and 16 more, parse_block_statement ends: it does not
run out of fuel, the only failure is the NULL dereference of
parse_assignment, and when it returns it returns the Block of the
statements its loop parsed, the loop having stopped at a closing brace,
with no diagnostic added after the loop, or at a token of the end-of-input
type, with the one diagnostic Expect '\x7d' after block. added. -/
theorem block_statement_runs (fuel : Nat) (st : ParseState) (hend : st.ends_in_eof)
    (hfuel : 32 * st.tokens.length + 16 ≤ fuel) :
    (∀ e, parse_block_statement fuel st = .error e → e = .null_dereference)
      ∧ ∀ r st1, parse_block_statement fuel st = .ok (r, st1) →
        ∃ stmts st2, declaration_loop (fuel - 1) [] st = .ok (stmts, st2)
          ∧ r = .block stmts
          ∧ ((st2.parser.current.type = TOKEN_RIGHT_BRACE ∧ st1.stderr = st2.stderr)
            ∨ (st2.parser.current.type = TOKEN_EOF
              ∧ st1.stderr = st2.stderr
                ++ [error st2.parser.current "Expect '\x7d' after block."])) := by
  constructor
  · intro e he
    have h := (statements_terminate fuel).2.2.2.2.2.1 st hend hfuel
    cases e with
    | null_dereference => rfl
    | out_of_fuel => exact absurd he h
  · intro r st1 h
    obtain ⟨n, rfl⟩ : ∃ n, fuel = n + 1 := ⟨fuel - 1, by omega⟩
    rw [parse_block_statement] at h
    split at h
    · cases h
    · rename_i stmts st2 h1
      simp only [Except.ok.injEq, Prod.mk.injEq] at h
      obtain ⟨rfl, rfl⟩ := h
      refine ⟨stmts, st2, h1, rfl, ?_⟩
      rcases (declaration_loop_stops n [] st stmts st2 h1).1 with hb | he
      · left
        refine ⟨hb, ?_⟩
        simp only [Parser.consume, hb, if_true]
        unfold Parser.advance
        split <;> rfl
      · right
        refine ⟨he, ?_⟩
        have hne : ¬ st2.parser.current.type = TOKEN_RIGHT_BRACE := by
          rw [he]
          decide
        simp only [Parser.consume, hne, if_false]
        unfold Parser.advance
        split <;> rfl

/-- The block \x7b a; with no closing brace: the loop parses the statement
a; and stops at the end-of-input token, one diagnostic is reported there
and the Block holding the statement is returned. -/
theorem unterminated_block_example :
    parse_block_statement 40 ⟨⟨identifier_token "a", tk TOKEN_LEFT_BRACE "\x7b", false, false⟩,
        [tk TOKEN_SEMICOLON ";", eof], []⟩
      = .ok (.block [.expr (.variable (identifier_token "a"))],
          ⟨⟨eof, eof, false, false⟩, [],
            ["[line 1] Error at end: Expect '\x7d' after block.\n"]⟩) :=
  rfl

/-! ## The text of a diagnostic -/

theorem toString_decimal (n : Int) : (toString n).toList = decimal n := by
  cases n with
  | ofNat n => rfl
  | negSucc n => rfl

/-- C21: for every token and message the text error sends to stderr is
[line N] Error at end: MESSAGE when the type of the token is TOKEN_EOF and
[line N] Error at 'LEXEME': MESSAGE otherwise, followed by one newline,
where N is the line of the token in decimal and LEXEME the first length
characters at start. -/
theorem error_text (token : Token) (message : String) :
    (error token message).toList
      = diagnostic_text token.line
          (if token.type = TOKEN_EOF then "end".toList
            else [APOSTROPHE] ++ token.start.take token.length ++ [APOSTROPHE])
          message := by
  unfold error diagnostic_text
  split <;>
    simp [String.toList, String.data_append, Token.lexeme, APOSTROPHE, ← toString_decimal]

/-- The diagnostics of a token on line 12 and of an end-of-input token. -/
theorem error_examples :
    error ⟨TOKEN_IDENTIFIER, "abc = 1".toList, 3, 12, none⟩ "Expect ';' after expression."
        = "[line 12] Error at 'abc': Expect ';' after expression.\n"
      ∧ error ⟨TOKEN_EOF, [], 0, 3, none⟩ "Expect expression."
        = "[line 3] Error at end: Expect expression.\n" := by
  decide

/-! ## Number and string literals -/

/-- C25: for the source 1; the function parse returns the expression
statement of a Literal whose value is the literal field of the previous
token, which nothing ever assigned, and reports Expect ';' after
expression. at the token 1, which parse_primary left as the current token.
In every state whose current token is a NUMBER or a STRING parse_primary
returns the literal of the previous token and leaves the parser where it
was. -/
theorem primary_keeps_literal_token :
    parse sample_check_keyword sample_identifier_args 40 (init_scanner "1;".toList)
        = .ok (.expr (.literal none),
          ⟨⟨token_at TOKEN_SEMICOLON "1;" 1 1, token_at TOKEN_NUMBER "1;" 0 1, false, false⟩,
            [token_at TOKEN_EOF "1;" 2 0],
            ["[line 1] Error at '1': Expect ';' after expression.\n"]⟩)
      ∧ ∀ (fuel : Nat) (st : ParseState),
        st.parser.current.type = TOKEN_NUMBER ∨ st.parser.current.type = TOKEN_STRING →
        parse_primary (fuel + 1) st = .ok (.literal st.parser.previous.literal, st) := by
  refine ⟨rfl, ?_⟩
  intro fuel st h
  rcases h with h | h <;> simp [parse_primary, literal_expr, h]

/-- Witness of C25: the parser that has read ( and has the number 1, with
literal 1.0, as its current token. -/
theorem primary_keeps_literal_token_witness :
    parse_primary 1 ⟨⟨⟨TOKEN_NUMBER, ['1'], 1, 1, some one⟩, tk TOKEN_LEFT_PAREN "(", false,
        false⟩, [eof], []⟩
      = .ok (.literal none,
        ⟨⟨⟨TOKEN_NUMBER, ['1'], 1, 1, some one⟩, tk TOKEN_LEFT_PAREN "(", false, false⟩,
          [eof], []⟩) :=
  primary_keeps_literal_token.2 0 _ (Or.inl rfl)

/-! ## What the resolver changes: the annotation and the current scope -/

theorem resolve_local_some (analyzer : Analyzer) (start : List Char) (length : Nat)
    (h : analyzer.current ≠ []) : ∃ found, resolve_local analyzer start length = some found := by
  unfold resolve_local
  split
  · rename_i heq
    exact absurd heq h
  · exact ⟨_, rfl⟩

theorem resolve_variable_expr_frame (lookup_variable : ScopePtr → List Char → Bool)
    (r : Resolver) (token : Token) (name : List Char) (h : r.analyzer.current ≠ []) :
    ∃ stderr1 found, resolve_variable_expr lookup_variable r token name
      = some (⟨r.analyzer, stderr1⟩, found) := by
  unfold resolve_variable_expr
  split
  · rename_i heq
    exact absurd heq h
  · rename_i scope rest heq
    simp only []
    split
    · obtain ⟨found, hf⟩ := resolve_local_some r.analyzer name name.length h
      exact ⟨r.stderr ++ [error token "Cannot read local variable in its own initializer."],
        found, by simp [hf]⟩
    · obtain ⟨found, hf⟩ := resolve_local_some r.analyzer name name.length h
      exact ⟨r.stderr, found, by simp [hf]⟩

mutual
theorem resolve_expr_frame (lookup_variable : ScopePtr → List Char → Bool) :
    ∀ (expr : Expr) (r : Resolver), r.analyzer.current ≠ [] →
      ∃ expr1 stderr1, resolve_expr lookup_variable expr r
          = some (expr1, ⟨r.analyzer, stderr1⟩)
        ∧ expr1.erase = expr.erase
  | .binary token left right, r, h => by
    obtain ⟨left1, s1, h1, k1⟩ := resolve_expr_frame lookup_variable left r h
    obtain ⟨right1, s2, h2, k2⟩ := resolve_expr_frame lookup_variable right ⟨r.analyzer, s1⟩ h
    exact ⟨.binary token left1 right1, s2, by simp [resolve_expr, h1, h2],
      by simp [Expr.erase, k1, k2]⟩
  | .unary token right, r, h => by
    obtain ⟨right1, s1, h1, k1⟩ := resolve_expr_frame lookup_variable right r h
    exact ⟨.unary token right1, s1, by simp [resolve_expr, h1], by simp [Expr.erase, k1]⟩
  | .literal value, r, _ => ⟨.literal value, r.stderr, by simp [resolve_expr], rfl⟩
  | .grouping expr, r, h => by
    obtain ⟨expr1, s1, h1, k1⟩ := resolve_expr_frame lookup_variable expr r h
    exact ⟨.grouping expr1, s1, by simp [resolve_expr, h1], by simp [Expr.erase, k1]⟩
  | .variable token name depth is_captured, r, h => by
    obtain ⟨s1, found, h1⟩ := resolve_variable_expr_frame lookup_variable r token name h
    cases found with
    | none =>
      exact ⟨.variable token name depth is_captured, s1, by simp [resolve_expr, h1],
        by simp [Expr.erase]⟩
    | some d =>
      exact ⟨.variable token name d false, s1, by simp [resolve_expr, h1],
        by simp [Expr.erase]⟩
  | .assign token right depth is_captured, r, h => by
    obtain ⟨right1, s1, h1, k1⟩ := resolve_expr_frame lookup_variable right r h
    obtain ⟨found, h2⟩ := resolve_local_some r.analyzer token.start token.length h
    cases found with
    | none =>
      exact ⟨.assign token right1 depth is_captured, s1, by simp [resolve_expr, h1, h2],
        by simp [Expr.erase, k1]⟩
    | some d =>
      exact ⟨.assign token right1 d false, s1, by simp [resolve_expr, h1, h2],
        by simp [Expr.erase, k1]⟩
  | .logical token left right, r, h => by
    obtain ⟨left1, s1, h1, k1⟩ := resolve_expr_frame lookup_variable left r h
    obtain ⟨right1, s2, h2, k2⟩ := resolve_expr_frame lookup_variable right ⟨r.analyzer, s1⟩ h
    exact ⟨.logical token left1 right1, s2, by simp [resolve_expr, h1, h2],
      by simp [Expr.erase, k1, k2]⟩
  | .call callee token args, r, h => by
    obtain ⟨callee1, s1, h1, k1⟩ := resolve_expr_frame lookup_variable callee r h
    obtain ⟨args1, s2, h2, k2⟩ := resolve_exprs_frame lookup_variable args ⟨r.analyzer, s1⟩ h
    exact ⟨.call callee1 token args1, s2, by simp [resolve_expr, h1, h2],
      by simp [Expr.erase, k1, k2]⟩
theorem resolve_exprs_frame (lookup_variable : ScopePtr → List Char → Bool) :
    ∀ (exprs : List Expr) (r : Resolver), r.analyzer.current ≠ [] →
      ∃ exprs1 stderr1, resolve_exprs lookup_variable exprs r
          = some (exprs1, ⟨r.analyzer, stderr1⟩)
        ∧ Expr.eraseList exprs1 = Expr.eraseList exprs
  | [], r, _ => ⟨[], r.stderr, by simp [resolve_exprs], rfl⟩
  | expr :: rest, r, h => by
    obtain ⟨expr1, s1, h1, k1⟩ := resolve_expr_frame lookup_variable expr r h
    obtain ⟨rest1, s2, h2, k2⟩ := resolve_exprs_frame lookup_variable rest ⟨r.analyzer, s1⟩ h
    exact ⟨expr1 :: rest1, s2, by simp [resolve_exprs, h1, h2],
      by simp [Expr.eraseList, k1, k2]⟩
end

theorem set_last_depth_names (count : Nat) :
    ∀ vars : List Variable, (set_last_depth count vars).map Variable.name
      = vars.map Variable.name
  | [] => rfl
  | [v] => rfl
  | v :: w :: rest => by
    simp [set_last_depth, set_last_depth_names count (w :: rest)]

theorem declare_variable_frame (r : Resolver) (name : Token) (is_const : Bool)
    (scope : VariableArray) (enclosing : ScopePtr)
    (h : r.analyzer.current = scope :: enclosing) :
    ∃ scope1 stderr1, declare_variable r name is_const
        = some ⟨⟨scope1 :: enclosing⟩, stderr1⟩
      ∧ scope1.names = scope.names ++ (if scope.count = 0 then [] else [name.start]) := by
  obtain ⟨⟨current⟩, stderr⟩ := r
  simp only at h
  subst h
  by_cases h0 : scope.count = 0
  · exact ⟨scope, stderr, by simp [declare_variable, h0], by simp [h0]⟩
  · exact ⟨write_variable scope name is_const,
      stderr ++ declare_loop scope.count name scope.vars.reverse,
      by simp [declare_variable, h0],
      by simp [h0, write_variable, VariableArray.names]⟩

theorem define_variable_frame (r : Resolver) (scope : VariableArray) (enclosing : ScopePtr)
    (h : r.analyzer.current = scope :: enclosing) :
    ∃ scope1, define_variable r = some ⟨⟨scope1 :: enclosing⟩, r.stderr⟩
      ∧ scope1.names = scope.names := by
  obtain ⟨⟨current⟩, stderr⟩ := r
  simp only at h
  subst h
  by_cases h0 : scope.count = 0
  · exact ⟨scope, by simp [define_variable, h0], rfl⟩
  · exact ⟨⟨set_last_depth scope.count scope.vars, scope.capacity⟩,
      by simp [define_variable, h0], by simp [VariableArray.names, set_last_depth_names]⟩

theorem resolve_opt_expr_frame (lookup_variable : ScopePtr → List Char → Bool)
    (expr : Option Expr) (r : Resolver) (h : r.analyzer.current ≠ []) :
    ∃ expr1 stderr1, resolve_opt_expr lookup_variable expr r
        = some (expr1, ⟨r.analyzer, stderr1⟩)
      ∧ Expr.eraseOpt expr1 = Expr.eraseOpt expr := by
  cases expr with
  | none => exact ⟨none, r.stderr, rfl, rfl⟩
  | some expr =>
    obtain ⟨expr1, s1, h1, k1⟩ := resolve_expr_frame lookup_variable expr r h
    exact ⟨some expr1, s1, by simp [resolve_opt_expr, h1], by simp [Expr.eraseOpt, k1]⟩

theorem resolve_block (lookup_variable : ScopePtr → List Char → Bool) (stmts : List Stmt)
    (r : Resolver) : resolve_stmt lookup_variable (.block stmts) r = some (.block stmts, r) := by
  simp [resolve_stmt,
    resolve_stmts_empty lookup_variable stmts (begin_scope r) (begin_scope_empty r),
    end_scope_begin_scope]

theorem resolve_func (lookup_variable : ScopePtr → List Char → Bool) (name : Token)
    (params : List Token) (body : List Stmt) (r r1 r2 : Resolver)
    (h1 : declare_variable r name false = some r1) (h2 : define_variable r1 = some r2) :
    resolve_stmt lookup_variable (.func name params body) r
      = some (.func name params body, r2) := by
  simp [resolve_stmt, h1, h2,
    declare_params_empty (begin_scope r2) params (begin_scope_empty r2),
    resolve_stmts_empty lookup_variable body (begin_scope r2) (begin_scope_empty r2),
    end_scope_begin_scope]

mutual
theorem resolve_stmt_frame (lookup_variable : ScopePtr → List Char → Bool) :
    ∀ (stmt : Stmt) (r : Resolver) (scope : VariableArray) (enclosing : ScopePtr),
      r.analyzer.current = scope :: enclosing →
      ∃ stmt1 scope1 stderr1, resolve_stmt lookup_variable stmt r
          = some (stmt1, ⟨⟨scope1 :: enclosing⟩, stderr1⟩)
        ∧ stmt1.erase = stmt.erase
  | .expr expr, r, scope, enclosing, h => by
    obtain ⟨expr1, s1, h1, k1⟩ := resolve_expr_frame lookup_variable expr r (by simp [h])
    exact ⟨.expr expr1, scope, s1, by simp [resolve_stmt, h1, ← h], by simp [Stmt.erase, k1]⟩
  | .var name initializer, r, scope, enclosing, h => by
    obtain ⟨scope1, s1, h1, _⟩ := declare_variable_frame r name false scope enclosing h
    obtain ⟨init1, s2, h2, k2⟩ := resolve_opt_expr_frame lookup_variable initializer
      ⟨⟨scope1 :: enclosing⟩, s1⟩ (by simp)
    obtain ⟨scope2, h3, _⟩ := define_variable_frame ⟨⟨scope1 :: enclosing⟩, s2⟩ scope1
      enclosing rfl
    exact ⟨.var name init1, scope2, s2, by simp [resolve_stmt, h1, h2, h3],
      by simp [Stmt.erase, k2]⟩
  | .block stmts, r, scope, enclosing, h =>
    ⟨.block stmts, scope, r.stderr, by rw [resolve_block, ← h], rfl⟩
  | .ifStmt expr then_branch else_branch, r, scope, enclosing, h => by
    obtain ⟨expr1, s1, h1, k1⟩ := resolve_expr_frame lookup_variable expr r (by simp [h])
    obtain ⟨then1, scope2, s2, h2, k2⟩ := resolve_stmt_frame lookup_variable then_branch
      ⟨r.analyzer, s1⟩ scope enclosing h
    obtain ⟨else1, scope3, s3, h3, k3⟩ := resolve_opt_stmt_frame lookup_variable else_branch
      ⟨⟨scope2 :: enclosing⟩, s2⟩ scope2 enclosing rfl
    exact ⟨.ifStmt expr1 then1 else1, scope3, s3, by simp [resolve_stmt, h1, h2, h3],
      by simp [Stmt.erase, k1, k2, k3]⟩
  | .whileStmt expr body, r, scope, enclosing, h => by
    obtain ⟨expr1, s1, h1, k1⟩ := resolve_expr_frame lookup_variable expr r (by simp [h])
    obtain ⟨body1, scope2, s2, h2, k2⟩ := resolve_stmt_frame lookup_variable body
      ⟨r.analyzer, s1⟩ scope enclosing h
    exact ⟨.whileStmt expr1 body1, scope2, s2, by simp [resolve_stmt, h1, h2],
      by simp [Stmt.erase, k1, k2]⟩
  | .func name params body, r, scope, enclosing, h => by
    obtain ⟨scope1, s1, h1, _⟩ := declare_variable_frame r name false scope enclosing h
    obtain ⟨scope2, h2, _⟩ := define_variable_frame ⟨⟨scope1 :: enclosing⟩, s1⟩ scope1
      enclosing rfl
    exact ⟨.func name params body, scope2, s1,
      resolve_func lookup_variable name params body r _ _ h1 h2, rfl⟩
  | .returnStmt keyword expr, r, scope, enclosing, h => by
    obtain ⟨expr1, s1, h1, k1⟩ := resolve_opt_expr_frame lookup_variable expr r (by simp [h])
    exact ⟨.returnStmt keyword expr1, scope, s1, by simp [resolve_stmt, h1, ← h],
      by simp [Stmt.erase, k1]⟩
theorem resolve_stmts_frame (lookup_variable : ScopePtr → List Char → Bool) :
    ∀ (stmts : List Stmt) (r : Resolver) (scope : VariableArray) (enclosing : ScopePtr),
      r.analyzer.current = scope :: enclosing →
      ∃ stmts1 scope1 stderr1, resolve_stmts lookup_variable stmts r
          = some (stmts1, ⟨⟨scope1 :: enclosing⟩, stderr1⟩)
        ∧ Stmt.eraseList stmts1 = Stmt.eraseList stmts
  | [], r, scope, enclosing, h =>
    ⟨[], scope, r.stderr, by simp [resolve_stmts, ← h], rfl⟩
  | stmt :: rest, r, scope, enclosing, h => by
    obtain ⟨stmt1, scope1, s1, h1, k1⟩ := resolve_stmt_frame lookup_variable stmt r scope
      enclosing h
    obtain ⟨rest1, scope2, s2, h2, k2⟩ := resolve_stmts_frame lookup_variable rest
      ⟨⟨scope1 :: enclosing⟩, s1⟩ scope1 enclosing rfl
    exact ⟨stmt1 :: rest1, scope2, s2, by simp [resolve_stmts, h1, h2],
      by simp [Stmt.eraseList, k1, k2]⟩
theorem resolve_opt_stmt_frame (lookup_variable : ScopePtr → List Char → Bool) :
    ∀ (stmt : Option Stmt) (r : Resolver) (scope : VariableArray) (enclosing : ScopePtr),
      r.analyzer.current = scope :: enclosing →
      ∃ stmt1 scope1 stderr1, resolve_opt_stmt lookup_variable stmt r
          = some (stmt1, ⟨⟨scope1 :: enclosing⟩, stderr1⟩)
        ∧ Stmt.eraseOpt stmt1 = Stmt.eraseOpt stmt
  | none, r, scope, enclosing, h =>
    ⟨none, scope, r.stderr, by simp [resolve_opt_stmt, ← h], rfl⟩
  | some stmt, r, scope, enclosing, h => by
    obtain ⟨stmt1, scope1, s1, h1, k1⟩ := resolve_stmt_frame lookup_variable stmt r scope
      enclosing h
    exact ⟨some stmt1, scope1, s1, by simp [resolve_opt_stmt, h1],
      by simp [Stmt.eraseOpt, k1]⟩
end

/-! ## The calls made from a scope that holds no variables -/

theorem nested_empty (r : Resolver) (h : current_scope_empty r = true) :
    ∀ k, current_scope_empty (nested k r) = true
  | 0 => h
  | k + 1 => begin_scope_empty (nested k r)

theorem nested_begin_scope (r : Resolver) :
    ∀ k, nested k (begin_scope r) = nested (k + 1) r
  | 0 => rfl
  | k + 1 => by
    show begin_scope (nested k (begin_scope r)) = begin_scope (nested (k + 1) r)
    rw [nested_begin_scope r k]

theorem calls_in_block (r : Resolver) (c : Call) (h : ∃ k, c.state = nested k (begin_scope r)) :
    ∃ k, c.state = nested k r := by
  obtain ⟨k, hk⟩ := h
  exact ⟨k + 1, by rw [hk, nested_begin_scope]⟩

theorem params_calls_empty :
    ∀ (params : List Token) (r : Resolver), current_scope_empty r = true →
      ∀ c ∈ params_calls params r, c.state = r
  | [], _, _, c, hc => by simp [params_calls] at hc
  | param :: rest, r, h, c, hc => by
    simp only [params_calls, declare_variable_empty r param false h, define_variable_empty r h,
      List.mem_cons] at hc
    rcases hc with rfl | rfl | hc
    · rfl
    · rfl
    · exact params_calls_empty rest r h c hc

mutual
theorem expr_calls_empty (lookup_variable : ScopePtr → List Char → Bool) :
    ∀ (expr : Expr) (r : Resolver), current_scope_empty r = true →
      ∀ c ∈ expr_calls lookup_variable expr r, c.state = r
  | .binary token left right, r, h, c, hc => by
    simp only [expr_calls, resolve_expr_empty lookup_variable left r h, List.mem_append] at hc
    rcases hc with hc | hc
    · exact expr_calls_empty lookup_variable left r h c hc
    · exact expr_calls_empty lookup_variable right r h c hc
  | .unary token right, r, h, c, hc => by
    simp only [expr_calls] at hc
    exact expr_calls_empty lookup_variable right r h c hc
  | .literal value, r, _, c, hc => by simp [expr_calls] at hc
  | .grouping expr, r, h, c, hc => by
    simp only [expr_calls] at hc
    exact expr_calls_empty lookup_variable expr r h c hc
  | .variable token name depth is_captured, r, h, c, hc => by
    simp only [expr_calls, resolve_variable_expr_empty lookup_variable r token name h,
      List.mem_singleton] at hc
    rw [hc]
    rfl
  | .assign token right depth is_captured, r, h, c, hc => by
    simp only [expr_calls, resolve_expr_empty lookup_variable right r h, List.mem_append,
      List.mem_singleton] at hc
    rcases hc with hc | hc
    · exact expr_calls_empty lookup_variable right r h c hc
    · rw [hc]
      rfl
  | .logical token left right, r, h, c, hc => by
    simp only [expr_calls, resolve_expr_empty lookup_variable left r h, List.mem_append] at hc
    rcases hc with hc | hc
    · exact expr_calls_empty lookup_variable left r h c hc
    · exact expr_calls_empty lookup_variable right r h c hc
  | .call callee token args, r, h, c, hc => by
    simp only [expr_calls, resolve_expr_empty lookup_variable callee r h, List.mem_append]
      at hc
    rcases hc with hc | hc
    · exact expr_calls_empty lookup_variable callee r h c hc
    · exact exprs_calls_empty lookup_variable args r h c hc
theorem exprs_calls_empty (lookup_variable : ScopePtr → List Char → Bool) :
    ∀ (exprs : List Expr) (r : Resolver), current_scope_empty r = true →
      ∀ c ∈ exprs_calls lookup_variable exprs r, c.state = r
  | [], _, _, c, hc => by simp [exprs_calls] at hc
  | expr :: rest, r, h, c, hc => by
    simp only [exprs_calls, resolve_expr_empty lookup_variable expr r h, List.mem_append] at hc
    rcases hc with hc | hc
    · exact expr_calls_empty lookup_variable expr r h c hc
    · exact exprs_calls_empty lookup_variable rest r h c hc
end

theorem opt_expr_calls_empty (lookup_variable : ScopePtr → List Char → Bool)
    (expr : Option Expr) (r : Resolver) (h : current_scope_empty r = true) :
    ∀ c ∈ opt_expr_calls lookup_variable expr r, c.state = r := by
  cases expr with
  | none =>
    intro c hc
    simp [opt_expr_calls] at hc
  | some expr => exact expr_calls_empty lookup_variable expr r h

mutual
theorem stmt_calls_empty (lookup_variable : ScopePtr → List Char → Bool) :
    ∀ (stmt : Stmt) (r : Resolver), current_scope_empty r = true →
      ∀ c ∈ stmt_calls lookup_variable stmt r, ∃ k, c.state = nested k r
  | .expr expr, r, h, c, hc => by
    simp only [stmt_calls] at hc
    exact ⟨0, expr_calls_empty lookup_variable expr r h c hc⟩
  | .var name initializer, r, h, c, hc => by
    simp only [stmt_calls, declare_variable_empty r name false h,
      resolve_opt_expr_empty lookup_variable initializer r h, List.mem_cons, List.mem_append,
      List.mem_singleton, List.not_mem_nil, or_false] at hc
    rcases hc with rfl | hc | rfl
    · exact ⟨0, rfl⟩
    · exact ⟨0, opt_expr_calls_empty lookup_variable initializer r h c hc⟩
    · exact ⟨0, rfl⟩
  | .block stmts, r, _, c, hc => by
    simp only [stmt_calls] at hc
    exact calls_in_block r c
      (stmts_calls_empty lookup_variable stmts (begin_scope r) (begin_scope_empty r) c hc)
  | .ifStmt expr then_branch else_branch, r, h, c, hc => by
    simp only [stmt_calls, resolve_expr_empty lookup_variable expr r h,
      resolve_stmt_empty lookup_variable then_branch r h, List.mem_append] at hc
    rcases hc with hc | hc | hc
    · exact ⟨0, expr_calls_empty lookup_variable expr r h c hc⟩
    · exact stmt_calls_empty lookup_variable then_branch r h c hc
    · exact opt_stmt_calls_empty lookup_variable else_branch r h c hc
  | .whileStmt expr body, r, h, c, hc => by
    simp only [stmt_calls, resolve_expr_empty lookup_variable expr r h, List.mem_append] at hc
    rcases hc with hc | hc
    · exact ⟨0, expr_calls_empty lookup_variable expr r h c hc⟩
    · exact stmt_calls_empty lookup_variable body r h c hc
  | .func name params body, r, h, c, hc => by
    simp only [stmt_calls, declare_variable_empty r name false h, define_variable_empty r h,
      declare_params_empty (begin_scope r) params (begin_scope_empty r), List.mem_cons,
      List.mem_append] at hc
    rcases hc with rfl | rfl | hc | hc
    · exact ⟨0, rfl⟩
    · exact ⟨0, rfl⟩
    · exact ⟨1, params_calls_empty params (begin_scope r) (begin_scope_empty r) c hc⟩
    · exact calls_in_block r c
        (stmts_calls_empty lookup_variable body (begin_scope r) (begin_scope_empty r) c hc)
  | .returnStmt keyword expr, r, h, c, hc => by
    simp only [stmt_calls] at hc
    exact ⟨0, opt_expr_calls_empty lookup_variable expr r h c hc⟩
theorem stmts_calls_empty (lookup_variable : ScopePtr → List Char → Bool) :
    ∀ (stmts : List Stmt) (r : Resolver), current_scope_empty r = true →
      ∀ c ∈ stmts_calls lookup_variable stmts r, ∃ k, c.state = nested k r
  | [], _, _, c, hc => by simp [stmts_calls] at hc
  | stmt :: rest, r, h, c, hc => by
    simp only [stmts_calls, resolve_stmt_empty lookup_variable stmt r h, List.mem_append] at hc
    rcases hc with hc | hc
    · exact stmt_calls_empty lookup_variable stmt r h c hc
    · exact stmts_calls_empty lookup_variable rest r h c hc
theorem opt_stmt_calls_empty (lookup_variable : ScopePtr → List Char → Bool) :
    ∀ (stmt : Option Stmt) (r : Resolver), current_scope_empty r = true →
      ∀ c ∈ opt_stmt_calls lookup_variable stmt r, ∃ k, c.state = nested k r
  | none, _, _, c, hc => by simp [opt_stmt_calls] at hc
  | some stmt, r, h, c, hc => by
    simp only [opt_stmt_calls] at hc
    exact stmt_calls_empty lookup_variable stmt r h c hc
end

theorem idle_of_empty (c : Call) (h : current_scope_empty c.state = true) : c.idle := by
  cases c with
  | declare_variable r name => exact declare_variable_empty r name false h
  | define_variable r => exact define_variable_empty r h
  | resolve_local r start length => exact resolve_local_empty r start length h

theorem nested_eq (r : Resolver) :
    ∀ k, nested k r = ⟨⟨List.replicate k init_variable_array ++ r.analyzer.current⟩, r.stderr⟩
  | 0 => rfl
  | k + 1 => by
    show begin_scope (nested k r) = _
    rw [nested_eq r k]
    simp [begin_scope, new_scope, List.replicate_succ]

/-! ## Frame of the resolver -/

/-- C22: from every analyzer state whose current scope exists, resolve
returns for every statement tree, and the tree it returns differs from the
input tree in nothing but the annotation of Variable and Assign nodes (the
struct variable holding the scope distance, with the flag is_captured that
resolve_local resets together with it): with the annotation erased the
resolved tree is the input tree with its annotation erased, so node kinds,
tokens, names, literal values, children and lists are those of the input. -/
theorem resolve_changes_annotation_only (lookup_variable : ScopePtr → List Char → Bool)
    (stmt : Stmt) (r : Resolver) (h : r.analyzer.current ≠ []) :
    ∃ stmt1 r1, resolve lookup_variable stmt r = some (stmt1, r1)
      ∧ stmt1.erase = stmt.erase := by
  obtain ⟨scope, enclosing, hc⟩ := List.exists_cons_of_ne_nil h
  obtain ⟨stmt1, scope1, s1, h1, k1⟩ := resolve_stmt_frame lookup_variable stmt r scope
    enclosing hc
  exact ⟨stmt1, _, h1, k1⟩

/-- Witness of C22: the statement a = b; resolved in a scope that holds a
and b: both nodes get a distance and the flag is_captured of the Assign
node is reset, nothing else changes. -/
theorem resolve_changes_annotation_only_witness :
    resolve (fun _ _ => true)
        (.expr (.assign (identifier_at "a = b;" 0 1) (reference_at "a = b;" 4 (-1)) (-1) true))
        ⟨⟨[⟨[⟨['a'], -1, false⟩, ⟨['b'], 2, false⟩], 8⟩]⟩, []⟩
      = some (.expr (.assign (identifier_at "a = b;" 0 1) (reference_at "a = b;" 4 0) 3 false),
          ⟨⟨[⟨[⟨['a'], -1, false⟩, ⟨['b'], 2, false⟩], 8⟩]⟩, []⟩)
      ∧ ∃ stmt1 r1, resolve (fun _ _ => true)
          (.expr (.assign (identifier_at "a = b;" 0 1) (reference_at "a = b;" 4 (-1)) (-1)
            true))
          ⟨⟨[⟨[⟨['a'], -1, false⟩, ⟨['b'], 2, false⟩], 8⟩]⟩, []⟩
          = some (stmt1, r1)
        ∧ stmt1.erase = (Stmt.expr (.assign (identifier_at "a = b;" 0 1)
            (reference_at "a = b;" 4 (-1)) (-1) true)).erase :=
  ⟨rfl, resolve_changes_annotation_only _ _ _ (by simp)⟩

/-- C23: from every analyzer state whose current scope exists, resolve_stmt
returns for every statement with the same enclosing scopes below a current
scope in the same place: the scope stack has the depth it had.  A Block
leaves the whole state as it was, and a FunctionDecl leaves the enclosing
scopes as they were and the names recorded in the current scope as they
were apart from the name of the function itself (recorded when the scope
already held a variable): no name declared in the body or among the
parameters is left in any scope. -/
theorem scopes_paired (lookup_variable : ScopePtr → List Char → Bool) (stmt : Stmt)
    (r : Resolver) (scope : VariableArray) (enclosing : ScopePtr)
    (h : r.analyzer.current = scope :: enclosing) :
    (∃ stmt1 scope1 stderr1, resolve_stmt lookup_variable stmt r
        = some (stmt1, ⟨⟨scope1 :: enclosing⟩, stderr1⟩))
      ∧ (∀ stmts, resolve_stmt lookup_variable (.block stmts) r = some (.block stmts, r))
      ∧ ∀ name params body, ∃ scope1 stderr1,
        resolve_stmt lookup_variable (.func name params body) r
            = some (.func name params body, ⟨⟨scope1 :: enclosing⟩, stderr1⟩)
          ∧ scope1.names
            = scope.names ++ (if scope.count = 0 then [] else [name.start]) := by
  refine ⟨?_, fun stmts => resolve_block lookup_variable stmts r, ?_⟩
  · obtain ⟨stmt1, scope1, s1, h1, _⟩ := resolve_stmt_frame lookup_variable stmt r scope
      enclosing h
    exact ⟨stmt1, scope1, s1, h1⟩
  · intro name params body
    obtain ⟨scope1, s1, h1, k1⟩ := declare_variable_frame r name false scope enclosing h
    obtain ⟨scope2, h2, k2⟩ := define_variable_frame ⟨⟨scope1 :: enclosing⟩, s1⟩ scope1
      enclosing rfl
    exact ⟨scope2, s1, resolve_func lookup_variable name params body r _ _ h1 h2,
      k2.trans k1⟩

/-- Witness of C23: the declaration func f() with body f(); resolved in a
scope that holds a, above the global scope. -/
theorem scopes_paired_witness :
    (∃ stmt1 scope1 stderr1, resolve_stmt lookup_nothing (recursive_tree 0)
        ⟨⟨[⟨[⟨['a'], 1, false⟩], 8⟩, init_variable_array]⟩, []⟩
        = some (stmt1, ⟨⟨scope1 :: [init_variable_array]⟩, stderr1⟩))
      ∧ (∀ stmts, resolve_stmt lookup_nothing (.block stmts)
        ⟨⟨[⟨[⟨['a'], 1, false⟩], 8⟩, init_variable_array]⟩, []⟩
        = some (.block stmts, ⟨⟨[⟨[⟨['a'], 1, false⟩], 8⟩, init_variable_array]⟩, []⟩))
      ∧ ∀ name params body, ∃ scope1 stderr1,
        resolve_stmt lookup_nothing (.func name params body)
            ⟨⟨[⟨[⟨['a'], 1, false⟩], 8⟩, init_variable_array]⟩, []⟩
            = some (.func name params body, ⟨⟨scope1 :: [init_variable_array]⟩, stderr1⟩)
          ∧ scope1.names = (⟨[⟨['a'], 1, false⟩], 8⟩ : VariableArray).names
            ++ (if (⟨[⟨['a'], 1, false⟩], 8⟩ : VariableArray).count = 0 then []
              else [name.start]) :=
  scopes_paired lookup_nothing (recursive_tree 0)
    ⟨⟨[⟨[⟨['a'], 1, false⟩], 8⟩, init_variable_array]⟩, []⟩ ⟨[⟨['a'], 1, false⟩], 8⟩
    [init_variable_array] rfl

/-- The function declaration of the witness: f is recorded after a in the
current scope, the global scope below stays empty, the reference in the
body is left as it was. -/
theorem scopes_paired_example :
    resolve_stmt lookup_nothing (recursive_tree 0)
        ⟨⟨[⟨[⟨['a'], 1, false⟩], 8⟩, init_variable_array]⟩, []⟩
      = some (recursive_tree 0,
        ⟨⟨[⟨[⟨['a'], 1, false⟩, ⟨recursive_text.toList.drop 5, 2, false⟩], 8⟩,
          init_variable_array]⟩, []⟩) :=
  rfl

/-- C24: from a state whose current scope holds no variables (the state
main sets up, and every state begin_scope returns), resolve returns the
tree and the state as they were, and every call of declare_variable,
define_variable and resolve_local made on the way is made in that state
with some number of new scopes above it that hold no variables: each such
call finds a current scope of count 0 and has no effect, declare_variable
and define_variable returning at once and resolve_local returning false. -/
theorem empty_scope_records_nothing (lookup_variable : ScopePtr → List Char → Bool)
    (stmt : Stmt) (r : Resolver) (h : current_scope_empty r = true) :
    resolve lookup_variable stmt r = some (stmt, r)
      ∧ ∀ c ∈ stmt_calls lookup_variable stmt r,
        (∃ k, c.state
            = ⟨⟨List.replicate k init_variable_array ++ r.analyzer.current⟩, r.stderr⟩)
          ∧ current_scope_empty c.state = true ∧ c.idle := by
  refine ⟨resolve_stmt_empty lookup_variable stmt r h, ?_⟩
  intro c hc
  obtain ⟨k, hk⟩ := stmt_calls_empty lookup_variable stmt r h c hc
  have he : current_scope_empty c.state = true := by
    rw [hk]
    exact nested_empty r h k
  exact ⟨⟨k, by rw [hk, nested_eq]⟩, he, idle_of_empty c he⟩

/-- Witness of C24: the shadowing program resolved from the state main
sets up. -/
theorem empty_scope_records_nothing_witness :
    current_scope_empty root_resolver = true
      ∧ resolve lookup_nothing (shadow_tree 0 0) root_resolver
        = some (shadow_tree 0 0, root_resolver)
      ∧ ∀ c ∈ stmt_calls lookup_nothing (shadow_tree 0 0) root_resolver,
        (∃ k, c.state
            = ⟨⟨List.replicate k init_variable_array ++ root_resolver.analyzer.current⟩,
              root_resolver.stderr⟩)
          ∧ current_scope_empty c.state = true ∧ c.idle :=
  ⟨rfl, empty_scope_records_nothing lookup_nothing (shadow_tree 0 0) root_resolver rfl⟩

/-- The calls made for the shadowing program from the state main sets up:
two declarations, two definitions and two lookups, in the scopes of the two
blocks. -/
theorem shadow_calls_example :
    (stmt_calls lookup_nothing (shadow_tree 0 0) root_resolver).map Call.state
      = [nested 1 root_resolver, nested 1 root_resolver, nested 2 root_resolver,
        nested 2 root_resolver, nested 2 root_resolver, nested 1 root_resolver] :=
  rfl

end BasicLexer
